import Mathlib

/-!
# gozstd: buffer sizing and error classification of the one-shot wrappers

A shallow embedding of `gozstd.go`, `gozstd_dict.go`, `encoder.go` and
`decoder.go`.  The native codec (the cgo calls) and the Go runtime's growth
policy are parameters collected in `Env`; everything the Go code itself does
(length arithmetic, slice expressions, branch structure, error classification)
is translated line by line.

* Go `int` is a 64-bit two's-complement integer: every `int` operation goes
  through `wrapInt`, every `uint`/`size_t` value through `wrapUint`.
* A slice is the part of its backing array from the slice's start up to its
  capacity, plus its logical length and whether it is the `nil` slice.
* A run of a wrapper is the list of external events it caused (native calls,
  allocations) together with its outcome: a returned value or a fault (a Go
  panic, explicit or raised by the runtime).
-/

namespace Gozstd

/-! ## Machine integers -/

/-- Two's-complement value of an integer as a Go `int` (64 bits). -/
@[irreducible] def wrapInt (x : Int) : Int :=
  (x + 9223372036854775808) % 18446744073709551616 - 9223372036854775808

/-- Value of an integer as a Go `uint` / C `size_t` (64 bits). -/
@[irreducible] def wrapUint (x : Int) : Int :=
  x % 18446744073709551616

/-- Conversion `int(x)` of an unsigned 64-bit value. -/
def toInt (x : Nat) : Int := wrapInt (x : Int)

/-- Conversion `uint(x)` of an unsigned 64-bit value handed over by C. -/
def toUint (x : Nat) : Int := wrapUint (x : Int)

/-! ## `CompressBound` -/

/-- `CompressBound` of `gozstd.go`. -/
def CompressBound (srcSize : Int) : Int :=
  let lowLimit : Int := 131072
  let margin : Int := if srcSize < lowLimit then wrapInt (lowLimit - srcSize) >>> (11 : Nat) else 0
  wrapInt (wrapInt (srcSize + (srcSize >>> (8 : Nat))) + margin)

namespace EncoderGo

/-- `CompressBound` as declared a second time in `encoder.go`. -/
def CompressBound (srcSize : Int) : Int :=
  let lowLimit : Int := 131072
  let margin : Int := if srcSize < lowLimit then wrapInt (lowLimit - srcSize) >>> (11 : Nat) else 0
  wrapInt (wrapInt (srcSize + (srcSize >>> (8 : Nat))) + margin)

end EncoderGo

/-! ## Slices -/

abbrev Byte := UInt8

/-- A Go byte slice: `arr` is the backing array from the first element of the
slice up to its capacity, `len` the logical length. -/
structure Slice where
  arr : List Byte
  len : Nat
  isNil : Bool
  deriving DecidableEq, Repr

namespace Slice

/-- `cap(s)`. -/
def cap (s : Slice) : Nat := s.arr.length

/-- The logical content `s[0:len(s)]`. -/
def bytes (s : Slice) : List Byte := s.arr.take s.len

/-- The `nil` slice. -/
def null : Slice := ⟨[], 0, true⟩

/-- Invariant of every Go slice: the length is within the capacity, and the
`nil` slice has no backing array. -/
def WF (s : Slice) : Prop := s.len ≤ s.cap ∧ (s.isNil = true → s.cap = 0)

instance (s : Slice) : Decidable s.WF := by unfold WF; infer_instance

end Slice

/-- An upper limit on the capacities handed to the wrappers; far above what
is addressable, and small enough that the sums of lengths taken by the
wrappers stay within `int`. -/
def sizeLimit : Nat := 1152921504606846976

/-! ## Runs: events, faults, outcomes -/

/-- What a native call leaves behind: its `size_t` result and the bytes it
stored from the start of the destination region. -/
structure NativeResult where
  code : Nat
  out : List Byte
  deriving DecidableEq, Repr

/-- The call site of a native codec call inside a wrapper: the fast path
(into the spare capacity of `dst`), the fresh buffer made for a `nil` `dst`,
or the slow path (after resizing). -/
inductive Site where
  | fast
  | fresh
  | slow
  deriving DecidableEq, Repr

/-- What a wrapper does to the outside world. -/
inductive Event where
  /-- A native compress or decompress call: the Go length and capacity of
  the region passed, and what the call left behind. -/
  | native (site : Site) (regionLen regionCap : Nat) (result : NativeResult)
  /-- A call of `ZSTD_getFrameContentSize` and its result. -/
  | probe (result : Nat)
  /-- A call of `ZSTD_compressBound` and its result. -/
  | bound (result : Nat)
  /-- An allocation of a backing array `make([]byte, n)`. -/
  | alloc (n : Nat)
  /-- A reallocation by `append` to a new length. -/
  | grow (newLen : Nat)
  /-- The streaming decoder was driven over the input. -/
  | stream
  deriving DecidableEq, Repr

/-- A Go panic. -/
inductive Fault where
  /-- An explicit `panic(fmt.Errorf("BUG: ..."))` on a native result. -/
  | bug (result : Nat)
  /-- The runtime panic of a slice or index expression out of range. -/
  | outOfRange
  /-- The runtime panic of `make` with a negative length. -/
  | makeLen
  deriving DecidableEq, Repr

/-- A non-nil Go `error` value. -/
inductive GoError where
  /-- The message built by `fmt.Errorf("decompression error: %s", ...)`. -/
  | decompression (result : Nat)
  /-- The message `cannot decompress invalid src`. -/
  | invalidSrc
  /-- An error propagated from the streaming reader. -/
  | reader (tag : Nat)
  deriving DecidableEq, Repr

/-- How a call ends. -/
inductive Outcome (α : Type) where
  | ret (v : α)
  | fault (f : Fault)
  deriving DecidableEq, Repr

/-- A run: the events caused, in order, and the outcome. -/
structure Run (α : Type) where
  events : List Event
  out : Outcome α
  deriving DecidableEq, Repr

namespace Run

/-- Sequencing: a fault stops the run. -/
def bind {α β : Type} (x : Run α) (f : α → Run β) : Run β :=
  match x.out with
  | .ret v => ⟨x.events ++ (f v).events, (f v).out⟩
  | .fault e => ⟨x.events, .fault e⟩

instance : Monad Run where
  pure v := ⟨[], .ret v⟩
  bind := bind

/-- Record one event. -/
def emit (e : Event) : Run Unit := ⟨[e], .ret ()⟩

/-- Raise a panic. -/
def panic {α : Type} (f : Fault) : Run α := ⟨[], .fault f⟩

end Run

/-! ## The environment: native codec and runtime -/

/-- A prepared compression dictionary (opaque). -/
structure CDict where
  p : Nat
  deriving DecidableEq, Repr

/-- A prepared decompression dictionary (opaque). -/
structure DDict where
  p : Nat
  deriving DecidableEq, Repr

/-- The collaborators of the wrappers that are not Go code of the package:
the zstd library behind cgo, the constants of its headers, and the growth
policy of the Go runtime.  Native calls take the capacity of the destination
region and the source bytes. -/
structure Env where
  ZSTD_compressCCtx : Nat → List Byte → Int → NativeResult
  ZSTD_compress_usingCDict : Nat → List Byte → CDict → NativeResult
  ZSTD_decompressDCtx : Nat → List Byte → NativeResult
  ZSTD_decompress_usingDDict : Nat → List Byte → DDict → NativeResult
  ZSTD_getFrameContentSize : List Byte → Nat
  ZSTD_getErrorCode : Nat → Nat
  ZSTD_compressBound : Nat → Nat
  ZSTD_error_maxCode : Nat
  ZSTD_error_dstSize_tooSmall : Nat
  ZSTD_CONTENTSIZE_UNKNOWN : Nat
  ZSTD_CONTENTSIZE_ERROR : Nat
  /-- Modelled from the spec: `Reader.WriteTo` of the streaming reader
  (`reader.go` is not among the sources).  The spec describes it as
  consuming the pull source and pushing decoded chunks to the sink "in
  chunks as driven by repeated read/write cycles", and as propagating "any
  frame-level error encountered mid-stream": it is the list of chunks pushed
  to the sink, in order, and the error it ends with, if any. -/
  readerWriteTo : List Byte → Option DDict → List (List Byte) × Option GoError
  /-- Spare capacity the runtime adds when `append` has to reallocate to a
  given length. -/
  growSlack : Nat → Nat

/-- The constant `minErrCode = uint((size_t) - ZSTD_error_maxCode)`. -/
def minErrCode (E : Env) : Int := wrapUint (-(E.ZSTD_error_maxCode : Int))

/-! ## Slice expressions and allocation -/

/-- Memory after storing `out` from the start of `region`; the region keeps
its size. -/
def overwrite (region out : List Byte) : List Byte :=
  (out ++ region.drop out.length).take region.length

namespace Slice

/-- The slice expression `s[:hi]`. -/
def upto (s : Slice) (hi : Int) : Run Slice :=
  if 0 ≤ hi ∧ hi ≤ (s.cap : Int) then pure ⟨s.arr, hi.toNat, s.isNil⟩
  else Run.panic .outOfRange

/-- The slice expression `s[lo:hi]`: a view of the backing array from `lo`. -/
def slice (s : Slice) (lo hi : Int) : Run Slice :=
  if 0 ≤ lo ∧ lo ≤ hi ∧ hi ≤ (s.cap : Int) then
    pure ⟨s.arr.drop lo.toNat, (hi - lo).toNat, s.isNil⟩
  else Run.panic .outOfRange

/-- The effect on `s` of a write through the view `s[lo:...]` that left the
view's memory as `mem`. -/
def store (s : Slice) (lo : Nat) (mem : List Byte) : Slice :=
  ⟨s.arr.take lo ++ overwrite (s.arr.drop lo) mem, s.len, s.isNil⟩

end Slice

/-- `make([]byte, n)`. -/
def make (n : Int) : Run Slice :=
  if n < 0 then Run.panic .makeLen
  else do
    Run.emit (.alloc n.toNat)
    pure ⟨List.replicate n.toNat 0, n.toNat, false⟩

/-- `append(dst[:cap(dst)], make([]byte, n)...)` for `n > 0`: the slice is
full, so the runtime moves it to a new backing array. -/
def appendZeros (E : Env) (dst : Slice) (n : Int) : Run Slice := do
  let full ← dst.upto dst.cap
  let extra ← make n
  let newLen := full.len + extra.len
  Run.emit (.grow newLen)
  pure ⟨full.bytes ++ extra.bytes ++ List.replicate (E.growSlack newLen) 0, newLen, false⟩

/-- `append(dst, p...)`. -/
def appendBytes (E : Env) (dst : Slice) (p : List Byte) : Slice :=
  if dst.len + p.length ≤ dst.cap then
    ⟨dst.arr.take dst.len ++ overwrite (dst.arr.drop dst.len) p, dst.len + p.length, dst.isNil⟩
  else
    ⟨dst.bytes ++ p ++ List.replicate (E.growSlack (dst.len + p.length)) 0,
      dst.len + p.length, false⟩

/-- `append([]byte{}, dst...)`: a copy in a backing array of its own. -/
def copyTight (E : Env) (dst : Slice) : Run Slice :=
  if dst.len = 0 then pure ⟨[], 0, false⟩
  else do
    Run.emit (.grow dst.len)
    pure ⟨dst.bytes ++ List.replicate (E.growSlack dst.len) 0, dst.len, false⟩

/-! ## `gozstd.go` -/

/-- `ensureNoError`. -/
def ensureNoError (E : Env) (result : Nat) : Run Unit :=
  if toInt result ≥ 0 then pure ()
  else if toUint result > minErrCode E then Run.panic (.bug result)
  else pure ()

/-- `compressInternal`: the native call on the region `dst`; returns the
result and the memory of the region after the call. -/
def compressInternal (E : Env) (site : Site) (dst src : Slice) (compressionLevel : Int)
    (mustSucceed : Bool) : Run (Nat × List Byte) :=
  if dst.len = 0 ∨ src.len = 0 then Run.panic .outOfRange
  else do
    let r := E.ZSTD_compressCCtx dst.cap src.bytes compressionLevel
    Run.emit (.native site dst.len dst.cap r)
    (if mustSucceed then ensureNoError E r.code else pure ())
    pure (r.code, overwrite dst.arr r.out)

/-- Lines 124 to 135 of `compress`: the slow path. -/
def compressSlow (E : Env) (dstLen : Int) (dst src : Slice) (compressionLevel : Int) :
    Run Slice := do
  let srcLen : Int := src.len
  let compressBound := wrapInt (CompressBound srcLen + 1)
  let n := wrapInt (wrapInt (wrapInt (dstLen + compressBound) - dst.cap) + dstLen)
  let dst ← (if n > 0 then appendZeros E dst n else pure dst)
  let region ← dst.slice dstLen (wrapInt (dstLen + compressBound))
  let r ← compressInternal E .slow region src compressionLevel true
  let dst := dst.store dstLen.toNat r.2
  let compressedSize := toInt r.1
  dst.upto (wrapInt (dstLen + compressedSize))

/-- `compress`. -/
def compress (E : Env) (dst src : Slice) (compressionLevel : Int) : Run Slice :=
  let srcLen : Int := src.len
  if srcLen = 0 then pure dst
  else
    let dstLen : Int := dst.len
    if (dst.cap : Int) > wrapInt (dstLen + 1024) then do
      let region ← dst.slice dstLen dst.cap
      let r ← compressInternal E .fast region src compressionLevel false
      let dst := dst.store dstLen.toNat r.2
      let compressedSize := toInt r.1
      if compressedSize ≥ 0 then dst.upto (wrapInt (dstLen + compressedSize))
      else if E.ZSTD_getErrorCode r.1 ≠ E.ZSTD_error_dstSize_tooSmall then
        Run.panic (.bug r.1)
      else compressSlow E dstLen dst src compressionLevel
    else if dst.isNil then do
      let dst ← make (wrapInt (CompressBound srcLen + 1))
      let r ← compressInternal E .fresh dst src compressionLevel true
      let dst := dst.store 0 r.2
      let compressedSize := toUint r.1
      dst.upto compressedSize
    else compressSlow E dstLen dst src compressionLevel

/-- `CompressLevel` (the context pool does not affect the result). -/
def CompressLevel (E : Env) (dst src : Slice) (compressionLevel : Int) : Run Slice :=
  compress E dst src compressionLevel

/-- The constant `DefaultCompressionLevel`. -/
def DefaultCompressionLevel : Int := 3

/-- `Compress`. -/
def Compress (E : Env) (dst src : Slice) : Run Slice :=
  CompressLevel E dst src DefaultCompressionLevel

/-- `decompressInternal` (and the identical `decompressInternalD` of
`decoder.go`): the native call on the region `dst`. -/
def decompressInternal (E : Env) (site : Site) (dst src : Slice) : Run (Nat × List Byte) :=
  if dst.len = 0 ∨ src.len = 0 then Run.panic .outOfRange
  else do
    let r := E.ZSTD_decompressDCtx dst.cap src.bytes
    Run.emit (.native site dst.len dst.cap r)
    pure (r.code, overwrite dst.arr r.out)

/-- `streamDecompressor.Write`: `sd.dst = append(sd.dst, p...)`. -/
def streamDecompressor.Write (E : Env) (sdDst : Slice) (p : List Byte) : Slice :=
  appendBytes E sdDst p

/-- `streamDecompress`: the reader pushes its chunks through `Write`; the
accumulated `sd.dst` is returned together with the reader's error. -/
def streamDecompress (E : Env) (dst src : Slice) (dd : Option DDict) :
    Run (Slice × Option GoError) := do
  Run.emit .stream
  let w := E.readerWriteTo src.bytes dd
  let sdDst := w.1.foldl (streamDecompressor.Write E) dst
  pure (sdDst, w.2)

/-- Lines 207 to 236 of `decompress`: the slow path. -/
def decompressSlow (E : Env) (dstLen : Int) (dst src : Slice) :
    Run (Slice × Option GoError) := do
  let probe := E.ZSTD_getFrameContentSize src.bytes
  Run.emit (.probe probe)
  let decompressBound := toInt probe
  if wrapUint decompressBound = toUint E.ZSTD_CONTENTSIZE_UNKNOWN then
    streamDecompress E dst src none
  else if wrapUint decompressBound = toUint E.ZSTD_CONTENTSIZE_ERROR then
    pure (dst, some .invalidSrc)
  else do
    let decompressBound := wrapInt (decompressBound + 1)
    let dst ← (
      if dst.isNil then make decompressBound
      else
        let n := wrapInt (wrapInt (dstLen + decompressBound) - dst.cap)
        if n > 0 then appendZeros E dst n else pure dst)
    let region ← dst.slice dstLen (wrapInt (dstLen + decompressBound))
    let r ← decompressInternal E .slow region src
    let dst := dst.store dstLen.toNat r.2
    let decompressedSize := toInt r.1
    if decompressedSize ≥ 0 then do
      let dst ← dst.upto (wrapInt (dstLen + decompressedSize))
      pure (dst, none)
    else do
      let dst ← dst.upto dstLen
      pure (dst, some (.decompression r.1))

/-- `decompress`. -/
def decompress (E : Env) (dst src : Slice) : Run (Slice × Option GoError) :=
  if src.len = 0 then pure (dst, none)
  else
    let dstLen : Int := dst.len
    if (dst.cap : Int) > wrapInt (dstLen + 1024) then do
      let region ← dst.slice dstLen dst.cap
      let r ← decompressInternal E .fast region src
      let dst := dst.store dstLen.toNat r.2
      let decompressedSize := toInt r.1
      if decompressedSize ≥ 0 then do
        let dst ← dst.upto (wrapInt (dstLen + decompressedSize))
        pure (dst, none)
      else if E.ZSTD_getErrorCode r.1 ≠ E.ZSTD_error_dstSize_tooSmall then do
        let dst ← dst.upto dstLen
        pure (dst, some (.decompression r.1))
      else decompressSlow E dstLen dst src
    else decompressSlow E dstLen dst src

/-- `Decompress` (the context pool does not affect the result). -/
def Decompress (E : Env) (dst src : Slice) : Run (Slice × Option GoError) :=
  decompress E dst src

/-! ## The pull source of the streaming fallback -/

/-- The error values of package `io` that the stream adapter returns. -/
inductive IoError where
  | EOF
  deriving DecidableEq, Repr

/-- The type `streamDecompressor`; the reader `zr` is left out, the methods
embedded here do not touch it. -/
structure streamDecompressor where
  dst : Slice
  src : Slice
  srcOffset : Int
  deriving DecidableEq, Repr

/-- The type `srcReader`, declared as `type srcReader streamDecompressor`. -/
abbrev srcReader := streamDecompressor

/-- The builtin `copy(dst, src)`: the number of bytes copied, and `dst` after
the copy. -/
def copy (dst src : Slice) : Nat × Slice :=
  let n := min dst.len src.len
  (n, ⟨src.arr.take n ++ dst.arr.drop n, dst.len, dst.isNil⟩)

/-- `srcReader.Read`: the state after the call, `p` after the call, and the
two results. -/
def srcReader.Read (sr : srcReader) (p : Slice) :
    Run (srcReader × Slice × Int × Option IoError) := do
  let rest ← sr.src.slice sr.srcOffset sr.src.len
  let c := copy p rest
  let n : Int := c.1
  let sd : streamDecompressor := { sr with srcOffset := wrapInt (sr.srcOffset + n) }
  if n < (p.len : Int) then pure (sd, c.2, n, some .EOF)
  else pure (sd, c.2, n, none)

/-! ## `gozstd_dict.go` -/

/-- `compressInternalDict`. -/
def compressInternalDict (E : Env) (site : Site) (dst src : Slice) (cd : CDict)
    (mustSucceed : Bool) : Run (Nat × List Byte) :=
  if dst.len = 0 ∨ src.len = 0 then Run.panic .outOfRange
  else do
    let r := E.ZSTD_compress_usingCDict dst.cap src.bytes cd
    Run.emit (.native site dst.len dst.cap r)
    (if mustSucceed then ensureNoError E r.code else pure ())
    pure (r.code, overwrite dst.arr r.out)

/-- Lines 76 to 90 of `compressDict`: the slow path. -/
def compressDictSlow (E : Env) (dstLen : Int) (dst src : Slice) (cd : CDict) : Run Slice := do
  let b := E.ZSTD_compressBound src.len
  Run.emit (.bound b)
  let compressBound := wrapInt (toInt b + 1)
  let n := wrapInt (wrapInt (wrapInt (dstLen + compressBound) - dst.cap) + dstLen)
  let dst ← (if n > 0 then appendZeros E dst n else pure dst)
  let region ← dst.slice dstLen (wrapInt (dstLen + compressBound))
  let r ← compressInternalDict E .slow region src cd true
  let dst := dst.store dstLen.toNat r.2
  let compressedSize := toInt r.1
  let dst ← dst.upto (wrapInt (dstLen + compressedSize))
  if wrapInt ((dst.cap : Int) - dst.len) > 4096 then copyTight E dst
  else pure dst

/-- `compressDict`. -/
def compressDict (E : Env) (dst src : Slice) (cd : CDict) : Run Slice :=
  if src.len = 0 then pure dst
  else
    let dstLen : Int := dst.len
    if (dst.cap : Int) > dstLen then do
      let region ← dst.slice dstLen dst.cap
      let r ← compressInternalDict E .fast region src cd false
      let dst := dst.store dstLen.toNat r.2
      let compressedSize := toInt r.1
      if compressedSize ≥ 0 then dst.upto (wrapInt (dstLen + compressedSize))
      else if E.ZSTD_getErrorCode r.1 ≠ E.ZSTD_error_dstSize_tooSmall then
        Run.panic (.bug r.1)
      else compressDictSlow E dstLen dst src cd
    else compressDictSlow E dstLen dst src cd

/-- `CompressDict`, through `compressDictLevel`. -/
def CompressDict (E : Env) (dst src : Slice) (cd : CDict) : Run Slice :=
  compressDict E dst src cd

/-- `decompressInternalDict`. -/
def decompressInternalDict (E : Env) (site : Site) (dst src : Slice) (dd : DDict) :
    Run (Nat × List Byte) :=
  if dst.len = 0 ∨ src.len = 0 then Run.panic .outOfRange
  else do
    let r := E.ZSTD_decompress_usingDDict dst.cap src.bytes dd
    Run.emit (.native site dst.len dst.cap r)
    pure (r.code, overwrite dst.arr r.out)

/-- Lines 146 to 177 of `decompressDict`: the slow path. -/
def decompressDictSlow (E : Env) (dstLen : Int) (dst src : Slice) (dd : DDict) :
    Run (Slice × Option GoError) := do
  let probe := E.ZSTD_getFrameContentSize src.bytes
  Run.emit (.probe probe)
  let decompressBound := toInt probe
  if wrapUint decompressBound = toUint E.ZSTD_CONTENTSIZE_UNKNOWN then
    streamDecompress E dst src (some dd)
  else if wrapUint decompressBound = toUint E.ZSTD_CONTENTSIZE_ERROR then
    pure (dst, some .invalidSrc)
  else do
    let decompressBound := wrapInt (decompressBound + 1)
    let n := wrapInt (wrapInt (dstLen + decompressBound) - dst.cap)
    let dst ← (if n > 0 then appendZeros E dst n else pure dst)
    let region ← dst.slice dstLen (wrapInt (dstLen + decompressBound))
    let r ← decompressInternalDict E .slow region src dd
    let dst := dst.store dstLen.toNat r.2
    let decompressedSize := toInt r.1
    if decompressedSize ≥ 0 then do
      let dst ← dst.upto (wrapInt (dstLen + decompressedSize))
      let dst ← (if wrapInt ((dst.cap : Int) - dst.len) > 4096 then copyTight E dst else pure dst)
      pure (dst, none)
    else do
      let dst ← dst.upto dstLen
      pure (dst, some (.decompression r.1))

/-- `decompressDict`. -/
def decompressDict (E : Env) (dst src : Slice) (dd : DDict) : Run (Slice × Option GoError) :=
  if src.len = 0 then pure (dst, none)
  else
    let dstLen : Int := dst.len
    if (dst.cap : Int) > dstLen then do
      let region ← dst.slice dstLen dst.cap
      let r ← decompressInternalDict E .fast region src dd
      let dst := dst.store dstLen.toNat r.2
      let decompressedSize := toInt r.1
      if decompressedSize ≥ 0 then do
        let dst ← dst.upto (wrapInt (dstLen + decompressedSize))
        pure (dst, none)
      else if E.ZSTD_getErrorCode r.1 ≠ E.ZSTD_error_dstSize_tooSmall then do
        let dst ← dst.upto dstLen
        pure (dst, some (.decompression r.1))
      else decompressDictSlow E dstLen dst src dd
    else decompressDictSlow E dstLen dst src dd

/-- `DecompressDict`. -/
def DecompressDict (E : Env) (dst src : Slice) (dd : DDict) : Run (Slice × Option GoError) :=
  decompressDict E dst src dd

/-! ## `encoder.go` -/

/-- The type `Encoder` (its pool does not affect results). -/
structure Encoder where
  compressionLevel : Int
  deriving DecidableEq, Repr

/-- `compressInternalE`. -/
def compressInternalE (E : Env) (site : Site) (dst src : Slice) (compressionLevel : Int) :
    Run (Nat × List Byte) :=
  if dst.len = 0 ∨ src.len = 0 then Run.panic .outOfRange
  else do
    let r := E.ZSTD_compressCCtx dst.cap src.bytes compressionLevel
    Run.emit (.native site dst.len dst.cap r)
    pure (r.code, overwrite dst.arr r.out)

/-- Lines 94 to 106 of `Encoder.Compress`: the slow path. -/
def Encoder.compressSlow (E : Env) (e : Encoder) (dstLen : Int) (dst src : Slice) :
    Run Slice := do
  let srcLen : Int := src.len
  let compressBound := wrapInt (EncoderGo.CompressBound srcLen + 1)
  let n := wrapInt (wrapInt (wrapInt (dstLen + compressBound) - dst.cap) + dstLen)
  let dst ← (if n > 0 then appendZeros E dst n else pure dst)
  let region ← dst.slice dstLen (wrapInt (dstLen + compressBound))
  let r ← compressInternalE E .slow region src e.compressionLevel
  let dst := dst.store dstLen.toNat r.2
  let compressedSize := toUint r.1
  if compressedSize > minErrCode E then pure src
  else dst.upto (wrapUint (wrapUint dstLen + compressedSize))

/-- `Encoder.Compress`. -/
def Encoder.Compress (E : Env) (e : Encoder) (dst src : Slice) : Run Slice :=
  let srcLen : Int := src.len
  if srcLen = 0 then pure dst
  else
    let dstLen : Int := dst.len
    if (dst.cap : Int) > wrapInt (dstLen + 1024) then do
      let region ← dst.slice dstLen dst.cap
      let r ← compressInternalE E .fast region src e.compressionLevel
      let dst := dst.store dstLen.toNat r.2
      let compressedSize := toUint r.1
      if compressedSize ≤ minErrCode E then
        dst.upto (wrapUint (wrapUint dstLen + compressedSize))
      else if E.ZSTD_getErrorCode r.1 ≠ E.ZSTD_error_dstSize_tooSmall then pure src
      else Encoder.compressSlow E e dstLen dst src
    else if dst.isNil then do
      let dst ← make (wrapInt (EncoderGo.CompressBound srcLen + 1))
      let r ← compressInternalE E .fresh dst src e.compressionLevel
      let dst := dst.store 0 r.2
      let compressedSize := toUint r.1
      if compressedSize > minErrCode E then pure src
      else dst.upto compressedSize
    else Encoder.compressSlow E e dstLen dst src

/-! ## `decoder.go` -/

/-- `Decoder.Decompress`: the same steps as `decompress`, through
`decompressInternalD`; the streaming fallback it calls is the package-level
`streamDecompress`. -/
def Decoder.Decompress (E : Env) (dst src : Slice) : Run (Slice × Option GoError) :=
  if src.len = 0 then pure (dst, none)
  else
    let dstLen : Int := dst.len
    if (dst.cap : Int) > wrapInt (dstLen + 1024) then do
      let region ← dst.slice dstLen dst.cap
      let r ← decompressInternal E .fast region src
      let dst := dst.store dstLen.toNat r.2
      let decompressedSize := toInt r.1
      if decompressedSize ≥ 0 then do
        let dst ← dst.upto (wrapInt (dstLen + decompressedSize))
        pure (dst, none)
      else if E.ZSTD_getErrorCode r.1 ≠ E.ZSTD_error_dstSize_tooSmall then do
        let dst ← dst.upto dstLen
        pure (dst, some (.decompression r.1))
      else decompressSlow E dstLen dst src
    else decompressSlow E dstLen dst src

/-! ## A reference environment

A small codec with the interface of the native library, used to exercise the
wrappers: a frame is the marker byte `0x28` followed by the payload. -/

/-- The native error result for an error code: `(size_t) - code`. -/
def errResult (code : Nat) : Nat := 18446744073709551616 - code

/-- Compression of the reference codec. -/
def refCompress (dstCapacity : Nat) (src : List Byte) : NativeResult :=
  if src.length + 1 ≤ dstCapacity then ⟨src.length + 1, 40 :: src⟩
  else ⟨errResult 70, []⟩

/-- Decompression of the reference codec. -/
def refDecompress (dstCapacity : Nat) (src : List Byte) : NativeResult :=
  match src with
  | [] => ⟨errResult 72, []⟩
  | b :: payload =>
    if b ≠ 40 then ⟨errResult 10, []⟩
    else if payload.length ≤ dstCapacity then ⟨payload.length, payload⟩
    else ⟨errResult 70, []⟩

/-- Size probe of the reference codec. -/
def refFrameContentSize (src : List Byte) : Nat :=
  match src with
  | [] => 18446744073709551614
  | b :: payload => if b ≠ 40 then 18446744073709551614 else payload.length

/-- The reference environment, with the constants of `zstd.h` and
`zstd_errors.h`. -/
def refEnv : Env where
  ZSTD_compressCCtx := fun k src _ => refCompress k src
  ZSTD_compress_usingCDict := fun k src _ => refCompress k src
  ZSTD_decompressDCtx := refDecompress
  ZSTD_decompress_usingDDict := fun k src _ => refDecompress k src
  ZSTD_getFrameContentSize := refFrameContentSize
  ZSTD_getErrorCode := fun r => if r > errResult 120 then errResult r else 0
  ZSTD_compressBound := fun n => (CompressBound n).toNat
  ZSTD_error_maxCode := 120
  ZSTD_error_dstSize_tooSmall := 70
  ZSTD_CONTENTSIZE_UNKNOWN := 18446744073709551615
  ZSTD_CONTENTSIZE_ERROR := 18446744073709551614
  readerWriteTo := fun _ _ => ([], none)
  growSlack := fun _ => 0

/-- A non-nil slice holding exactly the given bytes. -/
def Slice.ofBytes (b : List Byte) : Slice := ⟨b, b.length, false⟩

/-! ## Vocabulary of the statements -/

/-- The header constants carry the values `zstd.h` and `zstd_errors.h` give
them: `ZSTD_CONTENTSIZE_UNKNOWN = 0ULL - 1`, `ZSTD_CONTENTSIZE_ERROR =
0ULL - 2`, and `ZSTD_error_maxCode` a positive enumerator. -/
def Env.HeaderConsts (E : Env) : Prop :=
  E.ZSTD_CONTENTSIZE_UNKNOWN = 18446744073709551615 ∧
  E.ZSTD_CONTENTSIZE_ERROR = 18446744073709551614 ∧
  0 < E.ZSTD_error_maxCode ∧ E.ZSTD_error_maxCode ≤ 2147483647

instance (E : Env) : Decidable E.HeaderConsts := by unfold Env.HeaderConsts; infer_instance

/-- The margin term of the bound, in the words of the specification. -/
def specMargin (srcSize : Int) : Int :=
  if srcSize < 131072 then (131072 - srcSize) / 2048 else 0

/-- Whether a list of events says that the first native compress or decompress
call was given a region of capacity `spare` with nothing allocated before it:
the size queries may come before the call; an allocation (`make`, `append`) or
the streaming decoder may not. -/
def inPlaceEvents (spare : Nat) : List Event → Bool
  | [] => false
  | .native _ _ c _ :: _ => c == spare
  | .probe _ :: es => inPlaceEvents spare es
  | .bound _ :: es => inPlaceEvents spare es
  | .alloc _ :: _ => false
  | .grow _ :: _ => false
  | .stream :: _ => false

/-- The run makes its first native call directly into a region of capacity
`spare` of the buffer it was handed: no allocation comes before the call.
Every native call of the wrappers is on a region that starts at `len(dst)`,
so for `spare = cap(dst) - len(dst)` the region is the whole spare region
`dst[len(dst):cap(dst)]`.  The call site is not looked at: the native code
sees the start of the region and its capacity only. -/
def Run.callsInPlace {α : Type} (x : Run α) (spare : Nat) : Bool :=
  inPlaceEvents spare x.events

/-- The slice after the resize step `if n > 0 then dst = append(dst[:cap(dst)],
make([]byte, n)...)` of the slow paths. -/
def grownBy (E : Env) (d : Slice) (n : Int) : Slice :=
  if n > 0 then
    ⟨d.arr ++ List.replicate n.toNat 0 ++ List.replicate (E.growSlack (d.cap + n.toNat)) 0,
      d.cap + n.toNat, false⟩
  else d

/-- The events of the resize step. -/
def growEvents (d : Slice) (n : Int) : List Event :=
  if n > 0 then [.alloc n.toNat, .grow (d.cap + n.toNat)] else []

/-- The test `ZSTD_isError` in the form the wrappers use it: the result lies
above `minErrCode`. -/
def isError (E : Env) (code : Nat) : Prop := toUint code > minErrCode E

instance (E : Env) (code : Nat) : Decidable (isError E code) := by
  unfold isError; infer_instance

/-- The runtime over-allocates by an addressable amount, so that every
capacity stays an `int` value. -/
def Env.SlackBounded (E : Env) : Prop := ∀ m, E.growSlack m ≤ sizeLimit

/-- A non-nil empty slice with exactly 1024 bytes of spare capacity. -/
def spare1024 : Slice := ⟨List.replicate 1024 0, 0, false⟩

/-- A non-nil empty slice with exactly 65 bytes of spare capacity. -/
def spare65 : Slice := ⟨List.replicate 65 0, 0, false⟩

/-- A source of 1024 bytes. -/
def src1024 : Slice := Slice.ofBytes (List.replicate 1024 0)

/-- An environment whose frames declare no content size and whose streaming
reader pushes one decoded byte before it meets a corrupt block. -/
def streamFailEnv : Env :=
  { refEnv with
    ZSTD_getFrameContentSize := fun _ => 18446744073709551615
    readerWriteTo := fun _ _ => ([[1]], some (.reader 0)) }

/-- An environment whose size probe reads a declared content size of two to
the power 63 from the frame header. -/
def hugeSizeEnv : Env :=
  { refEnv with ZSTD_getFrameContentSize := fun _ => 9223372036854775808 }

/-- A frame header declaring a content size of two to the power 63: the magic
number, the descriptor 0xE0 (single segment, 8-byte content size), the size. -/
def hugeFrame : Slice :=
  Slice.ofBytes [40, 181, 47, 253, 224, 0, 0, 0, 0, 0, 0, 0, 128]

/-- A slice of length 10 and capacity 75. -/
def dst10of75 : Slice := ⟨List.replicate 75 7, 10, false⟩

/-- A slice of length 1 and capacity 1031. -/
def dst1of1031 : Slice := ⟨9 :: List.replicate 1030 0, 1, false⟩

/-- A slice of length 0 and capacity 4200. -/
def spare4200 : Slice := ⟨List.replicate 4200 0, 0, false⟩

/-- What the defragmentation step of the slow paths makes of the buffer `d` it
is handed, in a run with the events `es` that returns `r`.  With at most 4096
bytes of slack, `d` itself is returned.  With more, `r` is a copy of `d`, with
the length and the bytes of `d`, in a backing array of its own: the array that
`append([]byte{}, d...)` allocated as the last event of the run, of capacity
`len(d)` plus the spare capacity the runtime added (an empty `d` needs no
array at all). -/
def DefragOf (E : Env) (d : Slice) (es : List Event) (r : Slice) : Prop :=
  (d.cap - d.len ≤ 4096 ∧ r = d) ∨
  (d.cap - d.len > 4096 ∧ r.len = d.len ∧ r.bytes = d.bytes ∧ r.isNil = false ∧
    ((d.len = 0 ∧ r.cap = 0) ∨
      (d.len ≠ 0 ∧ r.cap = d.len + E.growSlack d.len ∧ es.getLast? = some (.grow d.len))))

/-- An environment whose dictionary compressor packs every input into the
one-byte frame `0x28`. -/
def packEnv : Env :=
  { refEnv with
    ZSTD_compress_usingCDict := fun k _ _ => if 1 ≤ k then ⟨1, [40]⟩ else ⟨errResult 70, []⟩ }

/-- A source of 5000 bytes. -/
def src5000 : Slice := Slice.ofBytes (List.replicate 5000 0)

/-- An environment whose compressor packs like that of `packEnv` and whose
runtime rounds an allocation of more than 32768 bytes up to a multiple of the
8192-byte page, as the Go allocator does for large objects. -/
def pageEnv : Env :=
  { packEnv with growSlack := fun n => if n > 32768 then (8192 - n % 8192) % 8192 else 0 }

/-- A slice of length and capacity 33000. -/
def full33000 : Slice := ⟨List.replicate 33000 9, 33000, false⟩

/-- The native call reported an error other than destination-too-small. -/
def otherError (E : Env) (code : Nat) : Prop :=
  isError E code ∧ E.ZSTD_getErrorCode code ≠ E.ZSTD_error_dstSize_tooSmall

instance (E : Env) (code : Nat) : Decidable (otherError E code) := by
  unfold otherError; infer_instance

/-- The run makes no native call. -/
def Run.Quiet {α : Type} (x : Run α) : Prop :=
  ∀ s l c r, Event.native s l c r ∉ x.events

/-- Whenever a native call of the run reports an error other than
destination-too-small, the run ends with the outcome `O code` for the
reported result `code`. -/
def Run.ErrEnds {α : Type} (E : Env) (O : Nat → Outcome α) (x : Run α) : Prop :=
  ∀ s l c r, Event.native s l c r ∈ x.events → otherError E r.code → x.out = O r.code

/-- An environment whose compressor cannot allocate its workspace: every
call reports `ZSTD_error_memory_allocation` (64). -/
def errEnv : Env :=
  { refEnv with
    ZSTD_compressCCtx := fun _ _ _ => ⟨errResult 64, []⟩
    ZSTD_compress_usingCDict := fun _ _ _ => ⟨errResult 64, []⟩ }

/-- The native call wrote exactly as many bytes as it reports, and no more
than the capacity `k` it was given. -/
def Fits (res : NativeResult) (k : Nat) : Prop :=
  res.code ≤ k ∧ res.out.length = res.code

instance (res : NativeResult) (k : Nat) : Decidable (Fits res k) := by
  unfold Fits; infer_instance

/-- The native call reported destination-too-small. -/
def TooSmall (E : Env) (res : NativeResult) : Prop :=
  isError E res.code ∧ E.ZSTD_getErrorCode res.code = E.ZSTD_error_dstSize_tooSmall

instance (E : Env) (res : NativeResult) : Decidable (TooSmall E res) := by
  unfold TooSmall; infer_instance

/-- The buffer `r` is `dst` with the output of the native call `res` appended:
its length is `len(dst)` plus the reported size, within its capacity, and its
bytes are those of `dst` followed by the bytes written. -/
def Appends (dst : Slice) (res : NativeResult) (r : Slice) : Prop :=
  r.len = dst.len + res.code ∧ r.len ≤ r.cap ∧ r.bytes = dst.bytes ++ res.out

/-- One step of `lastNative`: a native call replaces what was recorded. -/
def lastStep (acc : Option (Nat × NativeResult)) (ev : Event) : Option (Nat × NativeResult) :=
  match ev with
  | .native _ _ c r => some (c, r)
  | _ => acc

/-- The capacity given to, and the result of, the last native call of a run
with the events `es`. -/
def lastNative (es : List Event) : Option (Nat × NativeResult) :=
  es.foldl lastStep none

end Gozstd

/-! # Theorems -/

namespace Gozstd

set_option maxRecDepth 100000

/-! ## Arithmetic of machine integers -/

theorem wrapInt_eq {x : Int} (h1 : -9223372036854775808 ≤ x) (h2 : x < 9223372036854775808) :
    wrapInt x = x := by
  unfold wrapInt; omega

theorem wrapUint_eq {x : Int} (h1 : 0 ≤ x) (h2 : x < 18446744073709551616) :
    wrapUint x = x := by
  unfold wrapUint; omega

theorem shiftRight_eight (x : Int) : x >>> (8 : Nat) = x / 256 := by
  rw [Int.shiftRight_eq_div_pow]; norm_num

theorem shiftRight_eleven (x : Int) : x >>> (11 : Nat) = x / 2048 := by
  rw [Int.shiftRight_eq_div_pow]; norm_num

theorem CompressBound_eq_wrap (srcSize : Int) (h0 : 0 ≤ srcSize)
    (hmax : srcSize < 9223372036854775808) :
    CompressBound srcSize = wrapInt (srcSize + srcSize / 256 + specMargin srcSize) := by
  unfold CompressBound specMargin
  simp only [shiftRight_eight, shiftRight_eleven]
  split_ifs with h
  · unfold wrapInt; omega
  · unfold wrapInt; omega

/-- For lengths below `sizeLimit` the bound is the exact sum. -/
theorem CompressBound_exact (n : Nat) (h : n ≤ sizeLimit) :
    CompressBound n = (n : Int) + (n : Int) / 256 + specMargin n := by
  unfold sizeLimit at h
  rw [CompressBound_eq_wrap _ (by omega) (by omega)]
  apply wrapInt_eq <;> (unfold specMargin; split_ifs <;> omega)

theorem CompressBound_range (n : Nat) (h : n ≤ sizeLimit) :
    (n : Int) ≤ CompressBound n ∧ CompressBound n ≤ (n : Int) + (n : Int) / 256 + 64 := by
  rw [CompressBound_exact n h]
  unfold specMargin; split_ifs <;> omega

/-! ## Evaluation of runs -/

theorem Run.bind_mk_ret {α β : Type} (es : List Event) (v : α) (f : α → Run β) :
    ((⟨es, .ret v⟩ : Run α) >>= f) = ⟨es ++ (f v).events, (f v).out⟩ := rfl

theorem Run.bind_mk_fault {α β : Type} (es : List Event) (e : Fault) (f : α → Run β) :
    ((⟨es, .fault e⟩ : Run α) >>= f) = ⟨es, .fault e⟩ := rfl

theorem Run.pure_def {α : Type} (v : α) : (pure v : Run α) = ⟨[], .ret v⟩ := rfl

theorem Run.events_bind {α β : Type} (x : Run α) (f : α → Run β) :
    (x >>= f).events =
      x.events ++ (match x.out with | .ret v => (f v).events | .fault _ => []) := by
  show (Run.bind x f).events = _
  unfold Run.bind
  split <;> simp

theorem Slice.upto_ok {s : Slice} {hi : Int} (h0 : 0 ≤ hi) (h1 : hi ≤ (s.cap : Int)) :
    s.upto hi = ⟨[], .ret ⟨s.arr, hi.toNat, s.isNil⟩⟩ := by
  unfold Slice.upto
  rw [if_pos ⟨h0, h1⟩]; rfl

theorem Slice.upto_bad {s : Slice} {hi : Int} (h : ¬ (0 ≤ hi ∧ hi ≤ (s.cap : Int))) :
    s.upto hi = ⟨[], .fault .outOfRange⟩ := by
  unfold Slice.upto
  rw [if_neg h]; rfl

theorem Slice.slice_ok {s : Slice} {lo hi : Int} (h0 : 0 ≤ lo) (h1 : lo ≤ hi)
    (h2 : hi ≤ (s.cap : Int)) :
    s.slice lo hi = ⟨[], .ret ⟨s.arr.drop lo.toNat, (hi - lo).toNat, s.isNil⟩⟩ := by
  unfold Slice.slice
  rw [if_pos ⟨h0, h1, h2⟩]; rfl

theorem Slice.slice_bad {s : Slice} {lo hi : Int} (h : ¬ (0 ≤ lo ∧ lo ≤ hi ∧ hi ≤ (s.cap : Int))) :
    s.slice lo hi = ⟨[], .fault .outOfRange⟩ := by
  unfold Slice.slice
  rw [if_neg h]; rfl

theorem make_ok {n : Int} (h : 0 ≤ n) :
    make n = ⟨[.alloc n.toNat], .ret ⟨List.replicate n.toNat 0, n.toNat, false⟩⟩ := by
  unfold make
  rw [if_neg (by omega)]; rfl

theorem make_bad {n : Int} (h : n < 0) : make n = ⟨[], .fault .makeLen⟩ := by
  unfold make
  rw [if_pos h]; rfl

theorem appendZeros_ok (E : Env) (dst : Slice) {n : Int} (h : 0 ≤ n) :
    appendZeros E dst n =
      ⟨[.alloc n.toNat, .grow (dst.cap + n.toNat)],
        .ret ⟨dst.arr ++ List.replicate n.toNat 0 ++
          List.replicate (E.growSlack (dst.cap + n.toNat)) 0, dst.cap + n.toNat, false⟩⟩ := by
  unfold appendZeros
  rw [Slice.upto_ok (by omega) (le_refl _), make_ok h]
  simp [Run.bind_mk_ret, Run.emit, Run.pure_def, Slice.bytes, Slice.cap]

theorem compressInternal_free (E : Env) (site : Site) {dst src : Slice} (level : Int)
    (hd : dst.len ≠ 0) (hs : src.len ≠ 0) :
    compressInternal E site dst src level false =
      ⟨[.native site dst.len dst.cap (E.ZSTD_compressCCtx dst.cap src.bytes level)],
        .ret ((E.ZSTD_compressCCtx dst.cap src.bytes level).code,
          overwrite dst.arr (E.ZSTD_compressCCtx dst.cap src.bytes level).out)⟩ := by
  unfold compressInternal
  rw [if_neg (by omega)]
  simp [Run.bind_mk_ret, Run.emit, Run.pure_def]


/-! ## C3: the bound formula -/

/-- C3 as stated fails at the top of the `int` range: for `srcSize =
2^63 - 1`, a non-negative `int` that the exported function accepts, the sum
`srcSize + srcSize >> 8` overflows and `CompressBound` returns the negative
number `-9187343239835811842`, not `srcSize + floor(srcSize / 256) + margin`. -/
theorem C3_counterexample :
    (0 : Int) ≤ 9223372036854775807 ∧
    CompressBound 9223372036854775807 = -9187343239835811842 ∧
    CompressBound 9223372036854775807 ≠
      9223372036854775807 + 9223372036854775807 / 256 + specMargin 9223372036854775807 := by
  have h : CompressBound 9223372036854775807 = -9187343239835811842 := by
    rw [CompressBound_eq_wrap _ (by decide) (by decide)]
    unfold wrapInt specMargin
    norm_num
  refine ⟨by decide, h, ?_⟩
  rw [h]; unfold specMargin; norm_num

/-- C3 (as amended): for every non-negative `int` value `srcSize` whose sum
`srcSize + floor(srcSize / 256) + margin` is itself an `int` value, that is
below `2^63`, `CompressBound(srcSize)` is that sum exactly, with `margin =
floor((131072 - srcSize) / 2048)` below `131072` and `0` otherwise and no
`+1`; for a larger `srcSize` it is that sum wrapped around to 64 bits; and the
definition in `encoder.go` computes the same value. -/
theorem C3_CompressBound_formula (srcSize : Int) (h0 : 0 ≤ srcSize)
    (hmax : srcSize < 9223372036854775808) :
    (srcSize + srcSize / 256 + specMargin srcSize < 9223372036854775808 →
        CompressBound srcSize = srcSize + srcSize / 256 + specMargin srcSize)
    ∧ CompressBound srcSize = wrapInt (srcSize + srcSize / 256 + specMargin srcSize)
    ∧ EncoderGo.CompressBound srcSize = CompressBound srcSize := by
  refine ⟨?_, CompressBound_eq_wrap srcSize h0 hmax, rfl⟩
  intro h
  rw [CompressBound_eq_wrap srcSize h0 hmax]
  apply wrapInt_eq
  · unfold specMargin; split_ifs <;> omega
  · exact h

/-- C3 at `srcSize = 1000`: the bound is `1000 + 3 + 63`. -/
theorem C3_CompressBound_formula_witness :
    (0 : Int) ≤ 1000 ∧ (1000 : Int) < 9223372036854775808 ∧
    (1000 : Int) + 1000 / 256 + specMargin 1000 < 9223372036854775808 ∧
    CompressBound 1000 = 1000 + 1000 / 256 + specMargin 1000 :=
  ⟨by decide, by decide, by decide,
    (C3_CompressBound_formula 1000 (by decide) (by decide)).1 (by decide)⟩

/-! ## C4: empty input -/

/-- C4: with an empty `src`, `compress`, `compressDict` and
`Encoder.Compress` return `dst` itself (same backing array, length and
capacity) and `decompress`, `decompressDict` and `Decoder.Decompress` return
`dst` itself with a nil error; the run has no event, so no native call is
issued and nothing is allocated. -/
theorem C4_empty_input_identity (E : Env) (e : Encoder) (dst src : Slice) (level : Int)
    (cd : CDict) (dd : DDict) (h : src.len = 0) :
    compress E dst src level = ⟨[], .ret dst⟩ ∧
    compressDict E dst src cd = ⟨[], .ret dst⟩ ∧
    Encoder.Compress E e dst src = ⟨[], .ret dst⟩ ∧
    decompress E dst src = ⟨[], .ret (dst, none)⟩ ∧
    decompressDict E dst src dd = ⟨[], .ret (dst, none)⟩ ∧
    Decoder.Decompress E dst src = ⟨[], .ret (dst, none)⟩ := by
  simp [compress, compressDict, Encoder.Compress, decompress, decompressDict,
    Decoder.Decompress, h, pure]

/-- C4 on a `dst` of length 5 and capacity 7 and the nil `src`. -/
theorem C4_empty_input_identity_witness :
    Slice.null.len = 0 ∧
    compress refEnv ⟨[1, 2, 3, 4, 5, 6, 7], 5, false⟩ Slice.null 3 =
      ⟨[], .ret ⟨[1, 2, 3, 4, 5, 6, 7], 5, false⟩⟩ :=
  ⟨rfl, (C4_empty_input_identity refEnv ⟨3⟩ ⟨[1, 2, 3, 4, 5, 6, 7], 5, false⟩ Slice.null 3
    ⟨0⟩ ⟨0⟩ rfl).1⟩

theorem decompressInternal_eq (E : Env) (site : Site) {dst src : Slice}
    (hd : dst.len ≠ 0) (hs : src.len ≠ 0) :
    decompressInternal E site dst src =
      ⟨[.native site dst.len dst.cap (E.ZSTD_decompressDCtx dst.cap src.bytes)],
        .ret ((E.ZSTD_decompressDCtx dst.cap src.bytes).code,
          overwrite dst.arr (E.ZSTD_decompressDCtx dst.cap src.bytes).out)⟩ := by
  unfold decompressInternal
  rw [if_neg (by omega)]
  simp [Run.bind_mk_ret, Run.emit, Run.pure_def]

theorem compressInternalDict_free (E : Env) (site : Site) {dst src : Slice} (cd : CDict)
    (hd : dst.len ≠ 0) (hs : src.len ≠ 0) :
    compressInternalDict E site dst src cd false =
      ⟨[.native site dst.len dst.cap (E.ZSTD_compress_usingCDict dst.cap src.bytes cd)],
        .ret ((E.ZSTD_compress_usingCDict dst.cap src.bytes cd).code,
          overwrite dst.arr (E.ZSTD_compress_usingCDict dst.cap src.bytes cd).out)⟩ := by
  unfold compressInternalDict
  rw [if_neg (by omega)]
  simp [Run.bind_mk_ret, Run.emit, Run.pure_def]

theorem decompressInternalDict_eq (E : Env) (site : Site) {dst src : Slice} (dd : DDict)
    (hd : dst.len ≠ 0) (hs : src.len ≠ 0) :
    decompressInternalDict E site dst src dd =
      ⟨[.native site dst.len dst.cap (E.ZSTD_decompress_usingDDict dst.cap src.bytes dd)],
        .ret ((E.ZSTD_decompress_usingDDict dst.cap src.bytes dd).code,
          overwrite dst.arr (E.ZSTD_decompress_usingDDict dst.cap src.bytes dd).out)⟩ := by
  unfold decompressInternalDict
  rw [if_neg (by omega)]
  simp [Run.bind_mk_ret, Run.emit, Run.pure_def]

theorem compressInternalE_eq (E : Env) (site : Site) {dst src : Slice} (level : Int)
    (hd : dst.len ≠ 0) (hs : src.len ≠ 0) :
    compressInternalE E site dst src level =
      ⟨[.native site dst.len dst.cap (E.ZSTD_compressCCtx dst.cap src.bytes level)],
        .ret ((E.ZSTD_compressCCtx dst.cap src.bytes level).code,
          overwrite dst.arr (E.ZSTD_compressCCtx dst.cap src.bytes level).out)⟩ := by
  unfold compressInternalE
  rw [if_neg (by omega)]
  simp [Run.bind_mk_ret, Run.emit, Run.pure_def]

/-! ## Sequencing lemmas -/

theorem Run.bind_ret {α β : Type} {x : Run α} {f : α → Run β} {es es2 : List Event} {v : α}
    {o : Outcome β} (hx : x = ⟨es, .ret v⟩) (hf : f v = ⟨es2, o⟩) :
    x >>= f = ⟨es ++ es2, o⟩ := by
  subst hx
  show (⟨es ++ (f v).events, (f v).out⟩ : Run β) = _
  rw [hf]

theorem Run.bind_nil_ret {α β : Type} {x : Run α} {f : α → Run β} {v : α}
    (hx : x = ⟨[], .ret v⟩) : x >>= f = f v := by
  subst hx
  show (⟨[] ++ (f v).events, (f v).out⟩ : Run β) = f v
  rw [List.nil_append]

theorem Run.bind_fault {α β : Type} {x : Run α} {f : α → Run β} {es : List Event} {e : Fault}
    (hx : x = ⟨es, .fault e⟩) : x >>= f = ⟨es, .fault e⟩ := by
  subst hx; rfl

/-! ## Arithmetic of lengths -/

theorem wrap_len_add (dst : Slice) (hcap : dst.cap ≤ sizeLimit) (hw : dst.WF) :
    wrapInt ((dst.len : Int) + 1024) = dst.len + 1024 := by
  have := hw.1
  unfold sizeLimit at hcap
  apply wrapInt_eq <;> omega

theorem toInt_of_lt {x : Nat} (h : x < 9223372036854775808) : toInt x = x := by
  unfold toInt; apply wrapInt_eq <;> omega

theorem toUint_of_lt {x : Nat} (h : x < 18446744073709551616) : toUint x = x := by
  unfold toUint; apply wrapUint_eq <;> omega

/-- With the header constants in range, `minErrCode` is `2^64 - maxCode`. -/
theorem minErrCode_eq (E : Env) (hk : E.HeaderConsts) :
    minErrCode E = 18446744073709551616 - (E.ZSTD_error_maxCode : Int) := by
  obtain ⟨_, _, h1, h2⟩ := hk
  unfold minErrCode wrapUint; omega

/-- A native error result is negative as an `int`. -/
theorem toInt_neg_of_isError (E : Env) (hk : E.HeaderConsts) {code : Nat}
    (h : isError E code) : toInt code < 0 := by
  unfold isError at h
  rw [minErrCode_eq E hk] at h
  obtain ⟨_, _, h1, h2⟩ := hk
  unfold toUint wrapUint at h
  unfold toInt wrapInt
  omega

/-- The bound `CompressBound(len(src)) + 1` for an addressable `src`. -/
theorem bound_range (n : Nat) (h : n ≤ sizeLimit) :
    wrapInt (CompressBound n + 1) = CompressBound n + 1 ∧
    (n : Int) + 1 ≤ CompressBound n + 1 ∧
    CompressBound n + 1 ≤ (n : Int) + (n : Int) / 256 + 65 := by
  have hr := CompressBound_range n h
  unfold sizeLimit at h
  refine ⟨?_, by omega, by omega⟩
  apply wrapInt_eq <;> omega

/-! ## The resize step and the slow-path window -/

theorem resize_eq (E : Env) (d : Slice) (n : Int) :
    (if n > 0 then appendZeros E d n else pure d) = ⟨growEvents d n, .ret (grownBy E d n)⟩ := by
  unfold growEvents grownBy
  by_cases h : n > 0
  · rw [if_pos h, if_pos h, if_pos h, appendZeros_ok E d (by omega)]
  · rw [if_neg h, if_neg h, if_neg h]; rfl

theorem grownBy_cap (E : Env) (d : Slice) (n : Int) :
    (grownBy E d n).cap =
      if n > 0 then d.cap + n.toNat + E.growSlack (d.cap + n.toNat) else d.cap := by
  unfold grownBy
  by_cases h : n > 0
  · rw [if_pos h, if_pos h]
    simp [Slice.cap]
    omega
  · rw [if_neg h, if_neg h]

/-- Growing keeps the bytes below the old capacity. -/
theorem grownBy_take (E : Env) (d : Slice) (n : Int) {L : Nat} (hL : L ≤ d.cap) :
    (grownBy E d n).arr.take L = d.arr.take L := by
  unfold grownBy
  by_cases h : n > 0
  · rw [if_pos h]
    show (d.arr ++ List.replicate n.toNat 0 ++ _).take L = _
    rw [List.append_assoc, List.take_append_of_le_length hL]
  · rw [if_neg h]

/-- The resize step followed by the window `dst[dstLen:hi]`. -/
theorem slow_window {β : Type} (E : Env) (d : Slice) (n hi : Int) (L bN : Nat)
    {K : Slice → Slice → Run β} {es : List Event} {o : Outcome β}
    (hhi : hi = (L : Int) + bN) (hfit : L + bN ≤ (grownBy E d n).cap)
    (hK : K (grownBy E d n)
      ⟨(grownBy E d n).arr.drop L, bN, (grownBy E d n).isNil⟩ = ⟨es, o⟩) :
    ((if n > 0 then appendZeros E d n else pure d) >>= fun g =>
      g.slice (L : Int) hi >>= fun region => K g region) = ⟨growEvents d n ++ es, o⟩ := by
  refine Run.bind_ret (resize_eq E d n) ?_
  have hs : (grownBy E d n).slice (L : Int) hi =
      ⟨[], .ret ⟨(grownBy E d n).arr.drop L, bN, (grownBy E d n).isNil⟩⟩ := by
    rw [Slice.slice_ok (by omega) (by omega) (by omega)]
    congr 3
    omega
  rw [Run.bind_nil_ret hs]
  exact hK

/-! ## Native calls that must succeed -/

theorem Run.emit_bind {β : Type} (ev : Event) {f : Unit → Run β} {es : List Event}
    {o : Outcome β} (hf : f () = ⟨es, o⟩) : Run.emit ev >>= f = ⟨ev :: es, o⟩ := by
  show (⟨[ev] ++ (f ()).events, (f ()).out⟩ : Run β) = _
  rw [hf]; rfl

theorem ensureNoError_pass (E : Env) {code : Nat}
    (h : toInt code ≥ 0 ∨ ¬ isError E code) : ensureNoError E code = ⟨[], .ret ()⟩ := by
  unfold ensureNoError
  by_cases h1 : toInt code ≥ 0
  · rw [if_pos h1]; rfl
  · rw [if_neg h1]
    have h2 : ¬ toUint code > minErrCode E := by
      rcases h with h | h
      · exact absurd h h1
      · exact h
    rw [if_neg h2]; rfl

theorem ensureNoError_bug (E : Env) {code : Nat}
    (h1 : toInt code < 0) (h2 : isError E code) :
    ensureNoError E code = ⟨[], .fault (.bug code)⟩ := by
  unfold ensureNoError
  unfold isError at h2
  rw [if_neg (by omega), if_pos h2]; rfl

theorem compressInternal_must_pass (E : Env) (site : Site) {dst src : Slice} (level : Int)
    (hd : dst.len ≠ 0) (hs : src.len ≠ 0)
    (h : toInt (E.ZSTD_compressCCtx dst.cap src.bytes level).code ≥ 0 ∨
      ¬ isError E (E.ZSTD_compressCCtx dst.cap src.bytes level).code) :
    compressInternal E site dst src level true =
      ⟨[.native site dst.len dst.cap (E.ZSTD_compressCCtx dst.cap src.bytes level)],
        .ret ((E.ZSTD_compressCCtx dst.cap src.bytes level).code,
          overwrite dst.arr (E.ZSTD_compressCCtx dst.cap src.bytes level).out)⟩ := by
  unfold compressInternal
  rw [if_neg (by omega)]
  refine Run.emit_bind _ ?_
  rw [if_pos rfl, Run.bind_nil_ret (ensureNoError_pass E h)]
  rfl

theorem compressInternal_must_bug (E : Env) (site : Site) {dst src : Slice} (level : Int)
    (hd : dst.len ≠ 0) (hs : src.len ≠ 0)
    (h1 : toInt (E.ZSTD_compressCCtx dst.cap src.bytes level).code < 0)
    (h2 : isError E (E.ZSTD_compressCCtx dst.cap src.bytes level).code) :
    compressInternal E site dst src level true =
      ⟨[.native site dst.len dst.cap (E.ZSTD_compressCCtx dst.cap src.bytes level)],
        .fault (.bug (E.ZSTD_compressCCtx dst.cap src.bytes level).code)⟩ := by
  unfold compressInternal
  rw [if_neg (by omega)]
  refine Run.emit_bind _ ?_
  rw [if_pos rfl]
  exact Run.bind_fault (ensureNoError_bug E h1 h2)

/-! ## The spare region -/

/-- The spare region `dst[len(dst):cap(dst)]` of a slice with spare capacity. -/
theorem spare_region {dst : Slice} (hlt : dst.len < dst.cap) :
    dst.slice (dst.len : Int) (dst.cap : Int) =
      ⟨[], .ret ⟨dst.arr.drop dst.len, dst.cap - dst.len, dst.isNil⟩⟩ := by
  rw [Slice.slice_ok (by omega) (by omega) (le_refl _)]
  congr 3
  omega

theorem spare_region_len {dst : Slice} (hlt : dst.len < dst.cap) :
    (⟨dst.arr.drop dst.len, dst.cap - dst.len, dst.isNil⟩ : Slice).len ≠ 0 := by
  show dst.cap - dst.len ≠ 0
  omega

theorem spare_region_cap (dst : Slice) :
    (⟨dst.arr.drop dst.len, dst.cap - dst.len, dst.isNil⟩ : Slice).cap = dst.cap - dst.len := by
  simp [Slice.cap]

theorem compressInternal_spare (E : Env) {dst src : Slice} (level : Int) (b : Bool)
    (hlt : dst.len < dst.cap) (hs : src.len ≠ 0) (hb : b = false) :
    compressInternal E .fast ⟨dst.arr.drop dst.len, dst.cap - dst.len, dst.isNil⟩ src level b =
      ⟨[.native .fast (dst.cap - dst.len) (dst.cap - dst.len)
          (E.ZSTD_compressCCtx (dst.cap - dst.len) src.bytes level)],
        .ret ((E.ZSTD_compressCCtx (dst.cap - dst.len) src.bytes level).code,
          overwrite (dst.arr.drop dst.len)
            (E.ZSTD_compressCCtx (dst.cap - dst.len) src.bytes level).out)⟩ := by
  subst hb
  rw [compressInternal_free E .fast level (spare_region_len hlt) hs, spare_region_cap]

theorem compressInternalE_spare (E : Env) {dst src : Slice} (level : Int)
    (hlt : dst.len < dst.cap) (hs : src.len ≠ 0) :
    compressInternalE E .fast ⟨dst.arr.drop dst.len, dst.cap - dst.len, dst.isNil⟩ src level =
      ⟨[.native .fast (dst.cap - dst.len) (dst.cap - dst.len)
          (E.ZSTD_compressCCtx (dst.cap - dst.len) src.bytes level)],
        .ret ((E.ZSTD_compressCCtx (dst.cap - dst.len) src.bytes level).code,
          overwrite (dst.arr.drop dst.len)
            (E.ZSTD_compressCCtx (dst.cap - dst.len) src.bytes level).out)⟩ := by
  rw [compressInternalE_eq E .fast level (spare_region_len hlt) hs, spare_region_cap]

theorem compressInternalDict_spare (E : Env) {dst src : Slice} (cd : CDict)
    (hlt : dst.len < dst.cap) (hs : src.len ≠ 0) :
    compressInternalDict E .fast ⟨dst.arr.drop dst.len, dst.cap - dst.len, dst.isNil⟩ src cd
        false =
      ⟨[.native .fast (dst.cap - dst.len) (dst.cap - dst.len)
          (E.ZSTD_compress_usingCDict (dst.cap - dst.len) src.bytes cd)],
        .ret ((E.ZSTD_compress_usingCDict (dst.cap - dst.len) src.bytes cd).code,
          overwrite (dst.arr.drop dst.len)
            (E.ZSTD_compress_usingCDict (dst.cap - dst.len) src.bytes cd).out)⟩ := by
  rw [compressInternalDict_free E .fast cd (spare_region_len hlt) hs, spare_region_cap]

theorem decompressInternal_spare (E : Env) {dst src : Slice}
    (hlt : dst.len < dst.cap) (hs : src.len ≠ 0) :
    decompressInternal E .fast ⟨dst.arr.drop dst.len, dst.cap - dst.len, dst.isNil⟩ src =
      ⟨[.native .fast (dst.cap - dst.len) (dst.cap - dst.len)
          (E.ZSTD_decompressDCtx (dst.cap - dst.len) src.bytes)],
        .ret ((E.ZSTD_decompressDCtx (dst.cap - dst.len) src.bytes).code,
          overwrite (dst.arr.drop dst.len)
            (E.ZSTD_decompressDCtx (dst.cap - dst.len) src.bytes).out)⟩ := by
  rw [decompressInternal_eq E .fast (spare_region_len hlt) hs, spare_region_cap]

theorem decompressInternalDict_spare (E : Env) {dst src : Slice} (dd : DDict)
    (hlt : dst.len < dst.cap) (hs : src.len ≠ 0) :
    decompressInternalDict E .fast ⟨dst.arr.drop dst.len, dst.cap - dst.len, dst.isNil⟩ src
        dd =
      ⟨[.native .fast (dst.cap - dst.len) (dst.cap - dst.len)
          (E.ZSTD_decompress_usingDDict (dst.cap - dst.len) src.bytes dd)],
        .ret ((E.ZSTD_decompress_usingDDict (dst.cap - dst.len) src.bytes dd).code,
          overwrite (dst.arr.drop dst.len)
            (E.ZSTD_decompress_usingDDict (dst.cap - dst.len) src.bytes dd).out)⟩ := by
  rw [decompressInternalDict_eq E .fast dd (spare_region_len hlt) hs, spare_region_cap]

/-- C5 fails on the streaming fallback: with a one-byte dst and a frame of
undeclared size whose second block is corrupt, Decompress, DecompressDict
and Decoder.Decompress return a non-nil error together with a buffer of
length 2 that carries the byte decoded before the error, not the pre-call
length 1. -/
theorem C5_stream_error_keeps_partial_output :
    (Decompress streamFailEnv (Slice.ofBytes [9]) (Slice.ofBytes [40, 7])).out =
      .ret (⟨[9, 1], 2, false⟩, some (.reader 0)) ∧
    (DecompressDict streamFailEnv (Slice.ofBytes [9]) (Slice.ofBytes [40, 7]) ⟨0⟩).out =
      .ret (⟨[9, 1], 2, false⟩, some (.reader 0)) ∧
    (Decoder.Decompress streamFailEnv (Slice.ofBytes [9]) (Slice.ofBytes [40, 7])).out =
      .ret (⟨[9, 1], 2, false⟩, some (.reader 0)) ∧
    (Slice.ofBytes [9]).len = 1 := by
  with_unfolding_all decide

/-- C6 fails on a frame whose header declares a content size of 2^63: the
probe result is negative as an int, is neither of the two sentinels, and
after the increment it reaches make (for a nil dst) or the slice
expression dst[dstLen:dstLen+decompressBound] (otherwise), which panic; no
(buffer, error) pair is returned. -/
theorem C6_declared_size_faults :
    hugeSizeEnv.ZSTD_getFrameContentSize hugeFrame.bytes ≠ hugeSizeEnv.ZSTD_CONTENTSIZE_UNKNOWN ∧
    hugeSizeEnv.ZSTD_getFrameContentSize hugeFrame.bytes ≠ hugeSizeEnv.ZSTD_CONTENTSIZE_ERROR ∧
    (Decompress hugeSizeEnv Slice.null hugeFrame).out = .fault .makeLen ∧
    (Decompress hugeSizeEnv (Slice.ofBytes [9]) hugeFrame).out = .fault .outOfRange ∧
    (DecompressDict hugeSizeEnv Slice.null hugeFrame ⟨0⟩).out = .fault .outOfRange ∧
    (Decoder.Decompress hugeSizeEnv Slice.null hugeFrame).out = .fault .makeLen := by
  with_unfolding_all decide

/-- C10 fails on the growth amount: with len(dst) = 10, cap(dst) = 75 and
a one-byte src the bound is 65, so cap(dst) = len(dst) + bound already
holds the retry window, yet compress reallocates, and to length
2 * len(dst) + bound = 85; with len(dst) = cap(dst) = 1 it grows to
length 67, not to len(dst) + bound = 66. -/
theorem C10_growth_counts_length_twice :
    wrapInt (CompressBound 1 + 1) = 65 ∧
    dst10of75.len = 10 ∧ dst10of75.cap = 75 ∧
    (compress refEnv dst10of75 (Slice.ofBytes [1]) 3).events =
      [.alloc 10, .grow 85, .native .slow 65 75 ⟨2, [40, 1]⟩] ∧
    (compress refEnv (Slice.ofBytes [9]) (Slice.ofBytes [1]) 3).events =
      [.alloc 66, .grow 67, .native .slow 65 66 ⟨2, [40, 1]⟩] ∧
    (Encoder.Compress refEnv ⟨3⟩ (Slice.ofBytes [9]) (Slice.ofBytes [1])).events =
      [.alloc 66, .grow 67, .native .slow 65 66 ⟨2, [40, 1]⟩] ∧
    (compressDict refEnv (Slice.ofBytes [9]) (Slice.ofBytes [1]) ⟨0⟩).events =
      [.bound 64, .alloc 66, .grow 67, .native .slow 65 66 ⟨2, [40, 1]⟩] := by
  with_unfolding_all decide

theorem srcReader.Read_eq (sr : srcReader) (p : Slice) (hsrc : sr.src.WF)
    (hlim : sr.src.len < 9223372036854775808)
    (h0 : 0 ≤ sr.srcOffset) (h1 : sr.srcOffset ≤ sr.src.len) :
    srcReader.Read sr p =
      ⟨[], .ret (⟨sr.dst, sr.src,
          sr.srcOffset + (min p.len (sr.src.len - sr.srcOffset.toNat) : Nat)⟩,
        ⟨(sr.src.arr.drop sr.srcOffset.toNat).take (min p.len (sr.src.len - sr.srcOffset.toNat))
            ++ p.arr.drop (min p.len (sr.src.len - sr.srcOffset.toNat)), p.len, p.isNil⟩,
        ((min p.len (sr.src.len - sr.srcOffset.toNat) : Nat) : Int),
        if min p.len (sr.src.len - sr.srcOffset.toNat) < p.len then some .EOF else none)⟩ := by
  obtain ⟨d, s, off⟩ := sr
  simp only at hsrc hlim h0 h1 ⊢
  obtain ⟨k, rfl⟩ : ∃ k : Nat, off = k := ⟨off.toNat, by omega⟩
  have hk : k ≤ s.len := by exact_mod_cast h1
  have hcap : ((s.len : Nat) : Int) ≤ (s.cap : Int) := by exact_mod_cast hsrc.1
  have hs := Slice.slice_ok (s := s) h0 h1 hcap
  unfold srcReader.Read
  refine (Run.bind_nil_ret hs).trans ?_
  have hsub : (((s.len : Nat) : Int) - (k : Int)).toNat = s.len - k := by omega
  have htn : ((k : Nat) : Int).toNat = k := by omega
  have hw : wrapInt ((k : Int) + ((min p.len (s.len - k) : Nat) : Int)) =
      (k : Int) + ((min p.len (s.len - k) : Nat) : Int) :=
    wrapInt_eq (by omega) (by omega)
  simp only [copy, hsub, htn, hw]
  by_cases hc : min p.len (s.len - k) < p.len
  · have hc2 : ((min p.len (s.len - k) : Nat) : Int) < (p.len : Int) := by exact_mod_cast hc
    simp only [hc, hc2, if_true, Run.pure_def]
  · have hc2 : ¬ ((min p.len (s.len - k) : Nat) : Int) < (p.len : Int) := by
      intro h; exact hc (by exact_mod_cast h)
    simp only [hc, hc2, if_false, Run.pure_def]

/-- C11: with `0 <= srcOffset <= len(src)`, `srcReader.Read` returns without
fault and copies `n = min(len(p), len(src) - srcOffset)` bytes, namely
`src[srcOffset : srcOffset+n]`, into the front of `p`, leaving the rest of `p`
as it was; it advances `srcOffset` by `n`, so that `srcOffset <= len(src)`
still holds and the bytes read so far followed by this chunk are the bytes
read after the call; the error is `io.EOF` exactly when `n < len(p)`, in which
case the source is exhausted after the call, and a read with a non-empty `p`
on an exhausted source returns 0 and `io.EOF`. -/
theorem C11_srcReader_Read (sr : srcReader) (p : Slice) (hsrc : sr.src.WF) (hp : p.WF)
    (hlim : sr.src.len < 9223372036854775808)
    (h0 : 0 ≤ sr.srcOffset) (h1 : sr.srcOffset ≤ sr.src.len) :
    ∃ (n : Nat) (p2 : Slice) (err : Option IoError),
      srcReader.Read sr p =
        ⟨[], .ret (⟨sr.dst, sr.src, sr.srcOffset + n⟩, p2, (n : Int), err)⟩ ∧
      n = min p.len (sr.src.len - sr.srcOffset.toNat) ∧
      p2.len = p.len ∧ p2.cap = p.cap ∧ p2.isNil = p.isNil ∧
      p2.arr.take n = (sr.src.bytes.drop sr.srcOffset.toNat).take n ∧
      p2.arr.drop n = p.arr.drop n ∧
      sr.src.bytes.take sr.srcOffset.toNat ++ p2.arr.take n =
        sr.src.bytes.take (sr.srcOffset.toNat + n) ∧
      sr.srcOffset + n ≤ sr.src.len ∧
      (err = some .EOF ↔ n < p.len) ∧
      (err = none ↔ n = p.len) ∧
      (err = some .EOF → sr.srcOffset + n = sr.src.len) ∧
      (sr.srcOffset = sr.src.len → 0 < p.len → n = 0 ∧ err = some .EOF) := by
  have hread := srcReader.Read_eq sr p hsrc hlim h0 h1
  obtain ⟨d, s, off⟩ := sr
  simp only at hsrc hlim h0 h1 hread ⊢
  obtain ⟨k, rfl⟩ : ∃ k : Nat, off = k := ⟨off.toNat, by omega⟩
  have hk : k ≤ s.len := by exact_mod_cast h1
  have htn : ((k : Nat) : Int).toNat = k := by omega
  rw [htn] at hread ⊢
  have hcap : s.len ≤ s.arr.length := hsrc.1
  have hpcap : p.len ≤ p.arr.length := hp.1
  have hn1 : min p.len (s.len - k) ≤ p.len := Nat.min_le_left _ _
  have hn2 : min p.len (s.len - k) ≤ s.len - k := Nat.min_le_right _ _
  have hlen : ((s.arr.drop k).take (min p.len (s.len - k))).length = min p.len (s.len - k) := by
    rw [List.length_take, List.length_drop]; omega
  have hchunk : (s.bytes.drop k).take (min p.len (s.len - k)) =
      (s.arr.drop k).take (min p.len (s.len - k)) := by
    unfold Slice.bytes
    rw [List.drop_take, List.take_take, Nat.min_eq_left hn2]
  have hfront : (((s.arr.drop k).take (min p.len (s.len - k)) ++
      p.arr.drop (min p.len (s.len - k))).take (min p.len (s.len - k))) =
      (s.bytes.drop k).take (min p.len (s.len - k)) := by
    rw [hchunk, List.take_append_of_le_length (by omega), List.take_of_length_le (by omega)]
  refine ⟨_, _, _, hread, rfl, rfl, ?_, rfl, ?_, ?_, ?_, ?_, ?_, ?_, ?_, ?_⟩
  · show (_ ++ _ : List Byte).length = p.arr.length
    rw [List.length_append, hlen, List.length_drop]; omega
  · exact hfront
  · rw [List.drop_append_of_le_length (by omega), List.drop_of_length_le (by omega),
      List.nil_append]
  · show _ ++ List.take _ (_ ++ _) = _
    rw [hfront, ← List.take_add]
  · omega
  · by_cases hc : min p.len (s.len - k) < p.len <;> simp [hc]
  · by_cases hc : min p.len (s.len - k) < p.len <;> simp [hc] <;> omega
  · intro he
    by_cases hc : min p.len (s.len - k) < p.len
    · have : min p.len (s.len - k) = s.len - k := by omega
      omega
    · simp [hc] at he
  · intro hoff hpos
    have hks : k = s.len := by exact_mod_cast hoff
    have hz : min p.len (s.len - k) = 0 := by omega
    refine ⟨hz, ?_⟩
    rw [hz]; simp [hpos]

/-- C11 at a source of five bytes with two already read and a buffer of
four: three bytes are copied and end-of-data is signalled. -/
theorem C11_srcReader_Read_witness :
    ∃ (n : Nat) (p2 : Slice) (err : Option IoError),
      srcReader.Read ⟨Slice.null, Slice.ofBytes [1, 2, 3, 4, 5], 2⟩ ⟨[9, 9, 9, 9], 4, false⟩ =
        ⟨[], .ret (⟨Slice.null, Slice.ofBytes [1, 2, 3, 4, 5], 2 + n⟩, p2, (n : Int), err)⟩ ∧
      n = 3 ∧ err = some .EOF := by
  obtain ⟨n, p2, err, h, hn, -, -, -, -, -, -, -, he, -⟩ :=
    C11_srcReader_Read ⟨Slice.null, Slice.ofBytes [1, 2, 3, 4, 5], 2⟩ ⟨[9, 9, 9, 9], 4, false⟩
      (by decide) (by decide) (by decide) (by decide) (by decide)
  have hn3 : n = 3 := by rw [hn]; decide
  exact ⟨n, p2, err, h, hn3, he.2 (by rw [hn3]; decide)⟩

theorem Run.eq_mk {α : Type} (x : Run α) : x = ⟨x.events, x.out⟩ := by
  cases x; rfl

theorem Run.bind_inv {α β : Type} {x : Run α} {f : α → Run β} {es : List Event}
    {o : Outcome β} (h : x >>= f = ⟨es, o⟩) :
    (∃ es1 v es2, x = ⟨es1, .ret v⟩ ∧ f v = ⟨es2, o⟩ ∧ es = es1 ++ es2) ∨
    (∃ e, x = ⟨es, .fault e⟩ ∧ o = .fault e) := by
  obtain ⟨xs, xo⟩ := x
  cases xo with
  | ret v =>
    left
    rw [Run.bind_mk_ret] at h
    injection h with h1 h2
    exact ⟨xs, v, (f v).events, rfl, by rw [← h2], h1.symm⟩
  | fault e =>
    right
    rw [Run.bind_mk_fault] at h
    injection h with h1 h2
    exact ⟨e, by rw [h1], h2.symm⟩

theorem Run.bind_inv_ret {α β : Type} {x : Run α} {f : α → Run β} {es : List Event}
    {r : β} (h : x >>= f = ⟨es, .ret r⟩) :
    ∃ es1 v es2, x = ⟨es1, .ret v⟩ ∧ f v = ⟨es2, .ret r⟩ ∧ es = es1 ++ es2 := by
  rcases Run.bind_inv h with h1 | ⟨e, _, h2⟩
  · exact h1
  · cases h2

theorem Slice.upto_inv {s d : Slice} {hi : Int} {es : List Event}
    (h : s.upto hi = ⟨es, .ret d⟩) :
    es = [] ∧ 0 ≤ hi ∧ hi ≤ (s.cap : Int) ∧ d.arr = s.arr ∧ d.len = hi.toNat ∧
      d.isNil = s.isNil ∧ d.cap = s.cap := by
  by_cases hc : 0 ≤ hi ∧ hi ≤ (s.cap : Int)
  · rw [Slice.upto_ok hc.1 hc.2] at h
    injection h with h1 h2
    injection h2 with h3
    subst h3
    exact ⟨h1.symm, hc.1, hc.2, rfl, rfl, rfl, rfl⟩
  · rw [Slice.upto_bad hc] at h
    injection h with h1 h2
    cases h2

theorem overwrite_length (region out : List Byte) :
    (overwrite region out).length = region.length := by
  unfold overwrite
  rw [List.length_take, List.length_append, List.length_drop]; omega

theorem Slice.store_cap (s : Slice) (lo : Nat) (mem : List Byte) (h : lo ≤ s.cap) :
    (s.store lo mem).cap = s.cap := by
  unfold Slice.store Slice.cap at *
  simp only [List.length_append, List.length_take, overwrite_length, List.length_drop]
  omega

theorem copyTight_eq (E : Env) (d : Slice) :
    copyTight E d =
      if d.len = 0 then ⟨[], .ret ⟨[], 0, false⟩⟩
      else ⟨[.grow d.len],
        .ret ⟨d.bytes ++ List.replicate (E.growSlack d.len) 0, d.len, false⟩⟩ := by
  unfold copyTight
  split <;> rfl

theorem Run.bind_ret_nil {α β : Type} {x : Run α} {f : α → Run β} {es : List Event} {v : α}
    {o : Outcome β} (hx : x = ⟨es, .ret v⟩) (hf : f v = ⟨[], o⟩) : x >>= f = ⟨es, o⟩ := by
  rw [Run.bind_ret hx hf, List.append_nil]

theorem compressDict_fast_ok (E : Env) (dst src : Slice) (cd : CDict)
    (hlt : dst.len < dst.cap) (hsrc : src.len ≠ 0)
    (hok : toInt (E.ZSTD_compress_usingCDict (dst.cap - dst.len) src.bytes cd).code ≥ 0)
    (h0 : 0 ≤ wrapInt ((dst.len : Int) +
      toInt (E.ZSTD_compress_usingCDict (dst.cap - dst.len) src.bytes cd).code))
    (h1 : wrapInt ((dst.len : Int) +
      toInt (E.ZSTD_compress_usingCDict (dst.cap - dst.len) src.bytes cd).code) ≤ dst.cap) :
    compressDict E dst src cd =
      ⟨[.native .fast (dst.cap - dst.len) (dst.cap - dst.len)
          (E.ZSTD_compress_usingCDict (dst.cap - dst.len) src.bytes cd)],
        .ret ⟨(dst.store dst.len (overwrite (dst.arr.drop dst.len)
            (E.ZSTD_compress_usingCDict (dst.cap - dst.len) src.bytes cd).out)).arr,
          (wrapInt ((dst.len : Int) +
            toInt (E.ZSTD_compress_usingCDict (dst.cap - dst.len) src.bytes cd).code)).toNat,
          dst.isNil⟩⟩ := by
  have hc : (dst.cap : Int) > dst.len := by exact_mod_cast hlt
  have hcap : (dst.store dst.len (overwrite (dst.arr.drop dst.len)
      (E.ZSTD_compress_usingCDict (dst.cap - dst.len) src.bytes cd).out)).cap = dst.cap :=
    Slice.store_cap _ _ _ (Nat.le_of_lt hlt)
  unfold compressDict
  rw [if_neg hsrc]
  simp only []
  rw [if_pos hc]
  refine (Run.bind_nil_ret (spare_region hlt)).trans ?_
  refine Run.bind_ret_nil (compressInternalDict_spare E cd hlt hsrc) ?_
  simp only [Int.toNat_natCast]
  rw [if_pos hok]
  exact Slice.upto_ok h0 (by rw [hcap]; exact h1)

theorem decompressDict_fast_ok (E : Env) (dst src : Slice) (dd : DDict)
    (hlt : dst.len < dst.cap) (hsrc : src.len ≠ 0)
    (hok : toInt (E.ZSTD_decompress_usingDDict (dst.cap - dst.len) src.bytes dd).code ≥ 0)
    (h0 : 0 ≤ wrapInt ((dst.len : Int) +
      toInt (E.ZSTD_decompress_usingDDict (dst.cap - dst.len) src.bytes dd).code))
    (h1 : wrapInt ((dst.len : Int) +
      toInt (E.ZSTD_decompress_usingDDict (dst.cap - dst.len) src.bytes dd).code) ≤ dst.cap) :
    decompressDict E dst src dd =
      ⟨[.native .fast (dst.cap - dst.len) (dst.cap - dst.len)
          (E.ZSTD_decompress_usingDDict (dst.cap - dst.len) src.bytes dd)],
        .ret (⟨(dst.store dst.len (overwrite (dst.arr.drop dst.len)
            (E.ZSTD_decompress_usingDDict (dst.cap - dst.len) src.bytes dd).out)).arr,
          (wrapInt ((dst.len : Int) +
            toInt (E.ZSTD_decompress_usingDDict (dst.cap - dst.len) src.bytes dd).code)).toNat,
          dst.isNil⟩, none)⟩ := by
  have hc : (dst.cap : Int) > dst.len := by exact_mod_cast hlt
  have hcap : (dst.store dst.len (overwrite (dst.arr.drop dst.len)
      (E.ZSTD_decompress_usingDDict (dst.cap - dst.len) src.bytes dd).out)).cap = dst.cap :=
    Slice.store_cap _ _ _ (Nat.le_of_lt hlt)
  unfold decompressDict
  rw [if_neg hsrc]
  simp only []
  rw [if_pos hc]
  refine (Run.bind_nil_ret (spare_region hlt)).trans ?_
  refine Run.bind_ret_nil (decompressInternalDict_spare E dd hlt hsrc) ?_
  simp only [Int.toNat_natCast]
  rw [if_pos hok]
  exact (Run.bind_nil_ret (Slice.upto_ok h0 (by rw [hcap]; exact h1))).trans (Run.pure_def _)

theorem fit_range (dst : Slice) (hwf : dst.WF) (hcap : dst.cap ≤ sizeLimit) {code : Nat}
    (hfit : code ≤ dst.cap - dst.len) :
    toInt code ≥ 0 ∧ 0 ≤ wrapInt ((dst.len : Int) + toInt code) ∧
      wrapInt ((dst.len : Int) + toInt code) ≤ dst.cap ∧
      (wrapInt ((dst.len : Int) + toInt code)).toNat = dst.len + code := by
  have hle : dst.len ≤ dst.cap := hwf.1
  unfold sizeLimit at hcap
  have ht : toInt code = (code : Int) := toInt_of_lt (by omega)
  have hw : wrapInt ((dst.len : Int) + (code : Int)) = (dst.len : Int) + (code : Int) :=
    wrapInt_eq (by omega) (by omega)
  rw [ht, hw]
  omega

theorem spare4200_cap : spare4200.cap = 4200 := by
  unfold spare4200 Slice.cap
  exact List.length_replicate _ _

theorem Slice.slack_mk (a : List Byte) (l : Nat) (n : Bool) :
    (⟨a, l, n⟩ : Slice).cap - (⟨a, l, n⟩ : Slice).len = a.length - l := rfl

theorem Slice.store_arr_length (s : Slice) (lo : Nat) (mem : List Byte) (h : lo ≤ s.cap) :
    (s.store lo mem).arr.length = s.cap := Slice.store_cap s lo mem h

theorem quiet_mk_nil {α : Type} (o : Outcome α) : (⟨[], o⟩ : Run α).Quiet := by
  intro s l c r; simp

theorem quiet_pure {α : Type} (v : α) : (pure v : Run α).Quiet := quiet_mk_nil _

theorem quiet_panic {α : Type} (e : Fault) : (Run.panic e : Run α).Quiet := quiet_mk_nil _

theorem quiet_ite {α : Type} {c : Prop} [Decidable c] {a b : Run α} (ha : a.Quiet)
    (hb : b.Quiet) : (if c then a else b).Quiet := by
  split <;> assumption

theorem quiet_bind {α β : Type} {x : Run α} {f : α → Run β} (hx : x.Quiet)
    (hf : ∀ v, (f v).Quiet) : (x >>= f).Quiet := by
  intro s l c r hmem
  rw [Run.events_bind, List.mem_append] at hmem
  rcases hmem with h | h
  · exact hx s l c r h
  · split at h
    · exact hf _ s l c r h
    · simp at h

theorem quiet_emit {ev : Event} (h : ∀ s l c r, ev ≠ .native s l c r) :
    (Run.emit ev).Quiet := by
  intro s l c r hm
  simp [Run.emit] at hm
  exact h s l c r hm.symm

theorem quiet_upto (s : Slice) (hi : Int) : (s.upto hi).Quiet := by
  unfold Slice.upto; exact quiet_ite (quiet_pure _) (quiet_panic _)

theorem quiet_slice (s : Slice) (lo hi : Int) : (s.slice lo hi).Quiet := by
  unfold Slice.slice; exact quiet_ite (quiet_pure _) (quiet_panic _)

theorem quiet_make (n : Int) : (make n).Quiet := by
  unfold make
  exact quiet_ite (quiet_panic _) (quiet_bind (quiet_emit (by simp)) fun _ => quiet_pure _)

theorem quiet_appendZeros (E : Env) (dst : Slice) (n : Int) : (appendZeros E dst n).Quiet := by
  unfold appendZeros
  exact quiet_bind (quiet_upto _ _) fun _ => quiet_bind (quiet_make _) fun _ =>
    quiet_bind (quiet_emit (by simp)) fun _ => quiet_pure _

theorem quiet_copyTight (E : Env) (dst : Slice) : (copyTight E dst).Quiet := by
  unfold copyTight
  exact quiet_ite (quiet_pure _) (quiet_bind (quiet_emit (by simp)) fun _ => quiet_pure _)

theorem errEnds_of_quiet {α : Type} (E : Env) (O : Nat → Outcome α) {x : Run α}
    (h : x.Quiet) : x.ErrEnds E O := by
  intro s l c r hm _
  exact absurd hm (h s l c r)

theorem errEnds_ite {α : Type} {E : Env} {O : Nat → Outcome α} {c : Prop} [Decidable c]
    {a b : Run α} (ha : a.ErrEnds E O) (hb : b.ErrEnds E O) :
    (if c then a else b).ErrEnds E O := by
  split <;> assumption

theorem errEnds_bind_quiet {α β : Type} {E : Env} {O : Nat → Outcome β} {x : Run α}
    {f : α → Run β} (hx : x.Quiet) (hf : ∀ v, (f v).ErrEnds E O) :
    (x >>= f).ErrEnds E O := by
  obtain ⟨xs, xo⟩ := x
  cases xo with
  | ret v =>
    rw [Run.bind_mk_ret]
    intro s l c r hm herr
    rcases List.mem_append.1 hm with h | h
    · exact absurd h (hx s l c r)
    · exact hf v s l c r h herr
  | fault e =>
    rw [Run.bind_mk_fault]
    intro s l c r hm _
    exact absurd hm (hx s l c r)

theorem errEnds_fault_nil {α β : Type} {E : Env} {O : Nat → Outcome β} {x : Run α}
    {f : α → Run β} {e : Fault} (hx : x = ⟨[], .fault e⟩) : (x >>= f).ErrEnds E O := by
  subst hx
  rw [Run.bind_mk_fault]
  exact errEnds_of_quiet E O (quiet_mk_nil _)

theorem errEnds_native_bind {α β : Type} {E : Env} {O : Nat → Outcome β} {x : Run α}
    {f : α → Run β} {s : Site} {l c : Nat} {r : NativeResult} {v : α}
    (hx : x = ⟨[.native s l c r], .ret v⟩)
    (h1 : otherError E r.code → (f v).Quiet ∧ (f v).out = O r.code)
    (h2 : ¬ otherError E r.code → (f v).ErrEnds E O) : (x >>= f).ErrEnds E O := by
  subst hx
  rw [Run.bind_mk_ret]
  intro s2 l2 c2 r2 hm herr
  by_cases ho : otherError E r.code
  · obtain ⟨hq, hout⟩ := h1 ho
    rcases List.mem_append.1 hm with h | h
    · simp at h
      obtain ⟨-, -, -, rfl⟩ := h
      exact hout
    · exact absurd h (hq s2 l2 c2 r2)
  · rcases List.mem_append.1 hm with h | h
    · simp at h
      obtain ⟨-, -, -, rfl⟩ := h
      exact absurd herr ho
    · exact h2 ho s2 l2 c2 r2 h herr

theorem errEnds_native_fault {α β : Type} {E : Env} {O : Nat → Outcome β} {x : Run α}
    {f : α → Run β} {s : Site} {l c : Nat} {r : NativeResult} {e : Fault}
    (hx : x = ⟨[.native s l c r], .fault e⟩)
    (h1 : otherError E r.code → O r.code = .fault e) : (x >>= f).ErrEnds E O := by
  subst hx
  rw [Run.bind_mk_fault]
  intro s2 l2 c2 r2 hm herr
  simp at hm
  obtain ⟨-, -, -, rfl⟩ := hm
  exact (h1 herr).symm

theorem compressInternal_bad (E : Env) (site : Site) {dst src : Slice} (level : Int) (b : Bool)
    (h : dst.len = 0 ∨ src.len = 0) :
    compressInternal E site dst src level b = ⟨[], .fault .outOfRange⟩ := by
  unfold compressInternal
  rw [if_pos h]; rfl

theorem compressInternalDict_bad (E : Env) (site : Site) {dst src : Slice} (cd : CDict)
    (b : Bool) (h : dst.len = 0 ∨ src.len = 0) :
    compressInternalDict E site dst src cd b = ⟨[], .fault .outOfRange⟩ := by
  unfold compressInternalDict
  rw [if_pos h]; rfl

theorem compressInternalE_bad (E : Env) (site : Site) {dst src : Slice} (level : Int)
    (h : dst.len = 0 ∨ src.len = 0) :
    compressInternalE E site dst src level = ⟨[], .fault .outOfRange⟩ := by
  unfold compressInternalE
  rw [if_pos h]; rfl

theorem compressInternalDict_must_pass (E : Env) (site : Site) {dst src : Slice} (cd : CDict)
    (hd : dst.len ≠ 0) (hs : src.len ≠ 0)
    (h : toInt (E.ZSTD_compress_usingCDict dst.cap src.bytes cd).code ≥ 0 ∨
      ¬ isError E (E.ZSTD_compress_usingCDict dst.cap src.bytes cd).code) :
    compressInternalDict E site dst src cd true =
      ⟨[.native site dst.len dst.cap (E.ZSTD_compress_usingCDict dst.cap src.bytes cd)],
        .ret ((E.ZSTD_compress_usingCDict dst.cap src.bytes cd).code,
          overwrite dst.arr (E.ZSTD_compress_usingCDict dst.cap src.bytes cd).out)⟩ := by
  unfold compressInternalDict
  rw [if_neg (by omega)]
  refine Run.emit_bind _ ?_
  rw [if_pos rfl, Run.bind_nil_ret (ensureNoError_pass E h)]
  rfl

theorem compressInternalDict_must_bug (E : Env) (site : Site) {dst src : Slice} (cd : CDict)
    (hd : dst.len ≠ 0) (hs : src.len ≠ 0)
    (h1 : toInt (E.ZSTD_compress_usingCDict dst.cap src.bytes cd).code < 0)
    (h2 : isError E (E.ZSTD_compress_usingCDict dst.cap src.bytes cd).code) :
    compressInternalDict E site dst src cd true =
      ⟨[.native site dst.len dst.cap (E.ZSTD_compress_usingCDict dst.cap src.bytes cd)],
        .fault (.bug (E.ZSTD_compress_usingCDict dst.cap src.bytes cd).code)⟩ := by
  unfold compressInternalDict
  rw [if_neg (by omega)]
  refine Run.emit_bind _ ?_
  rw [if_pos rfl]
  exact Run.bind_fault (ensureNoError_bug E h1 h2)

theorem errEnds_compressInternal_must {β : Type} (E : Env) (hk : E.HeaderConsts) (site : Site)
    (region src : Slice) (level : Int) (f : Nat × List Byte → Run β)
    (hf : ∀ v, (f v).Quiet) :
    (compressInternal E site region src level true >>= f).ErrEnds E
      (fun code => .fault (.bug code)) := by
  by_cases hg : region.len = 0 ∨ src.len = 0
  · exact errEnds_fault_nil (compressInternal_bad E site level true hg)
  · have hd : region.len ≠ 0 := fun h => hg (Or.inl h)
    have hs : src.len ≠ 0 := fun h => hg (Or.inr h)
    by_cases hp : toInt (E.ZSTD_compressCCtx region.cap src.bytes level).code ≥ 0 ∨
        ¬ isError E (E.ZSTD_compressCCtx region.cap src.bytes level).code
    · refine errEnds_native_bind (compressInternal_must_pass E site level hd hs hp) ?_ ?_
      · intro ho
        have := toInt_neg_of_isError E hk ho.1
        rcases hp with hp | hp
        · omega
        · exact absurd ho.1 hp
      · intro _
        exact errEnds_of_quiet E _ (hf _)
    · have h1 : toInt (E.ZSTD_compressCCtx region.cap src.bytes level).code < 0 := by
        by_contra hc; exact hp (Or.inl (by omega))
      have h2 : isError E (E.ZSTD_compressCCtx region.cap src.bytes level).code := by
        by_contra hc; exact hp (Or.inr hc)
      exact errEnds_native_fault (compressInternal_must_bug E site level hd hs h1 h2)
        (fun _ => rfl)

theorem errEnds_compressInternalDict_must {β : Type} (E : Env) (hk : E.HeaderConsts)
    (site : Site) (region src : Slice) (cd : CDict) (f : Nat × List Byte → Run β)
    (hf : ∀ v, (f v).Quiet) :
    (compressInternalDict E site region src cd true >>= f).ErrEnds E
      (fun code => .fault (.bug code)) := by
  by_cases hg : region.len = 0 ∨ src.len = 0
  · exact errEnds_fault_nil (compressInternalDict_bad E site cd true hg)
  · have hd : region.len ≠ 0 := fun h => hg (Or.inl h)
    have hs : src.len ≠ 0 := fun h => hg (Or.inr h)
    by_cases hp : toInt (E.ZSTD_compress_usingCDict region.cap src.bytes cd).code ≥ 0 ∨
        ¬ isError E (E.ZSTD_compress_usingCDict region.cap src.bytes cd).code
    · refine errEnds_native_bind (compressInternalDict_must_pass E site cd hd hs hp) ?_ ?_
      · intro ho
        have := toInt_neg_of_isError E hk ho.1
        rcases hp with hp | hp
        · omega
        · exact absurd ho.1 hp
      · intro _
        exact errEnds_of_quiet E _ (hf _)
    · have h1 : toInt (E.ZSTD_compress_usingCDict region.cap src.bytes cd).code < 0 := by
        by_contra hc; exact hp (Or.inl (by omega))
      have h2 : isError E (E.ZSTD_compress_usingCDict region.cap src.bytes cd).code := by
        by_contra hc; exact hp (Or.inr hc)
      exact errEnds_native_fault (compressInternalDict_must_bug E site cd hd hs h1 h2)
        (fun _ => rfl)

theorem quiet_resize (E : Env) (dst : Slice) (n : Int) :
    (if n > 0 then appendZeros E dst n else pure dst).Quiet :=
  quiet_ite (quiet_appendZeros _ _ _) (quiet_pure _)

theorem errEnds_compressSlow (E : Env) (hk : E.HeaderConsts) (dstLen : Int) (dst src : Slice)
    (level : Int) :
    (compressSlow E dstLen dst src level).ErrEnds E (fun code => .fault (.bug code)) := by
  unfold compressSlow
  exact errEnds_bind_quiet (quiet_resize _ _ _) fun _ =>
    errEnds_bind_quiet (quiet_slice _ _ _) fun _ =>
    errEnds_compressInternal_must E hk _ _ _ _ _ fun _ => quiet_upto _ _

theorem errEnds_compressDictSlow (E : Env) (hk : E.HeaderConsts) (dstLen : Int)
    (dst src : Slice) (cd : CDict) :
    (compressDictSlow E dstLen dst src cd).ErrEnds E (fun code => .fault (.bug code)) := by
  unfold compressDictSlow
  exact errEnds_bind_quiet (quiet_emit (by simp)) fun _ =>
    errEnds_bind_quiet (quiet_resize _ _ _) fun _ =>
    errEnds_bind_quiet (quiet_slice _ _ _) fun _ =>
    errEnds_compressInternalDict_must E hk _ _ _ _ _ fun _ =>
      quiet_bind (quiet_upto _ _) fun _ => quiet_ite (quiet_copyTight _ _) (quiet_pure _)

theorem errEnds_compress (E : Env) (hk : E.HeaderConsts) (dst src : Slice) (level : Int) :
    (compress E dst src level).ErrEnds E (fun code => .fault (.bug code)) := by
  unfold compress
  simp only []
  refine errEnds_ite (errEnds_of_quiet E _ (quiet_pure _)) (errEnds_ite ?_ (errEnds_ite ?_
    (errEnds_compressSlow E hk _ _ _ _)))
  · refine errEnds_bind_quiet (quiet_slice _ _ _) fun region => ?_
    by_cases hg : region.len = 0 ∨ src.len = 0
    · exact errEnds_fault_nil (compressInternal_bad E .fast level false hg)
    · have hd : region.len ≠ 0 := fun h => hg (Or.inl h)
      have hs : src.len ≠ 0 := fun h => hg (Or.inr h)
      refine errEnds_native_bind (compressInternal_free E .fast level hd hs) ?_ ?_
      · intro ho
        have hneg := toInt_neg_of_isError E hk ho.1
        simp only []
        rw [if_neg (by omega), if_pos ho.2]
        exact ⟨quiet_panic _, rfl⟩
      · intro _
        simp only []
        exact errEnds_ite (errEnds_of_quiet E _ (quiet_upto _ _))
          (errEnds_ite (errEnds_of_quiet E _ (quiet_panic _))
            (errEnds_compressSlow E hk _ _ _ _))
  · exact errEnds_bind_quiet (quiet_make _) fun _ =>
      errEnds_compressInternal_must E hk _ _ _ _ _ fun _ => quiet_upto _ _

theorem errEnds_compressDict (E : Env) (hk : E.HeaderConsts) (dst src : Slice) (cd : CDict) :
    (compressDict E dst src cd).ErrEnds E (fun code => .fault (.bug code)) := by
  unfold compressDict
  simp only []
  refine errEnds_ite (errEnds_of_quiet E _ (quiet_pure _)) (errEnds_ite ?_
    (errEnds_compressDictSlow E hk _ _ _ _))
  refine errEnds_bind_quiet (quiet_slice _ _ _) fun region => ?_
  by_cases hg : region.len = 0 ∨ src.len = 0
  · exact errEnds_fault_nil (compressInternalDict_bad E .fast cd false hg)
  · have hd : region.len ≠ 0 := fun h => hg (Or.inl h)
    have hs : src.len ≠ 0 := fun h => hg (Or.inr h)
    refine errEnds_native_bind (compressInternalDict_free E .fast cd hd hs) ?_ ?_
    · intro ho
      have hneg := toInt_neg_of_isError E hk ho.1
      simp only []
      rw [if_neg (by omega), if_pos ho.2]
      exact ⟨quiet_panic _, rfl⟩
    · intro _
      simp only []
      exact errEnds_ite (errEnds_of_quiet E _ (quiet_upto _ _))
        (errEnds_ite (errEnds_of_quiet E _ (quiet_panic _))
          (errEnds_compressDictSlow E hk _ _ _ _))

theorem errEnds_compressInternalE {β : Type} (E : Env) (O : Nat → Outcome β) (site : Site)
    (region src : Slice) (level : Int) (f : Nat × List Byte → Run β)
    (h1 : ∀ mem, otherError E (E.ZSTD_compressCCtx region.cap src.bytes level).code →
      (f ((E.ZSTD_compressCCtx region.cap src.bytes level).code, mem)).Quiet ∧
      (f ((E.ZSTD_compressCCtx region.cap src.bytes level).code, mem)).out =
        O (E.ZSTD_compressCCtx region.cap src.bytes level).code)
    (h2 : ∀ v, (f v).ErrEnds E O) :
    (compressInternalE E site region src level >>= f).ErrEnds E O := by
  by_cases hg : region.len = 0 ∨ src.len = 0
  · exact errEnds_fault_nil (compressInternalE_bad E site level hg)
  · have hd : region.len ≠ 0 := fun h => hg (Or.inl h)
    have hs : src.len ≠ 0 := fun h => hg (Or.inr h)
    exact errEnds_native_bind (compressInternalE_eq E site level hd hs) (h1 _) (fun _ => h2 _)

theorem errEnds_Encoder_compressSlow (E : Env) (e : Encoder) (dstLen : Int) (dst src : Slice) :
    (Encoder.compressSlow E e dstLen dst src).ErrEnds E (fun _ => .ret src) := by
  unfold Encoder.compressSlow
  refine errEnds_bind_quiet (quiet_resize _ _ _) fun _ =>
    errEnds_bind_quiet (quiet_slice _ _ _) fun _ =>
    errEnds_compressInternalE E _ _ _ _ _ _ ?_ ?_
  · intro mem ho
    have hi : toUint (E.ZSTD_compressCCtx _ src.bytes e.compressionLevel).code > minErrCode E :=
      ho.1
    simp only []
    rw [if_pos hi]
    exact ⟨quiet_pure _, rfl⟩
  · intro v
    exact errEnds_of_quiet E _ (quiet_ite (quiet_pure _) (quiet_upto _ _))

theorem errEnds_Encoder_Compress (E : Env) (e : Encoder) (dst src : Slice) :
    (Encoder.Compress E e dst src).ErrEnds E (fun _ => .ret src) := by
  unfold Encoder.Compress
  simp only []
  refine errEnds_ite (errEnds_of_quiet E _ (quiet_pure _)) (errEnds_ite ?_ (errEnds_ite ?_
    (errEnds_Encoder_compressSlow E e _ _ _)))
  · refine errEnds_bind_quiet (quiet_slice _ _ _) fun region =>
      errEnds_compressInternalE E _ _ _ _ _ _ ?_ ?_
    · intro mem ho
      have hi : ¬ toUint (E.ZSTD_compressCCtx region.cap src.bytes e.compressionLevel).code ≤
          minErrCode E := by
        have := ho.1
        unfold isError at this
        omega
      simp only []
      rw [if_neg hi, if_pos ho.2]
      exact ⟨quiet_pure _, rfl⟩
    · intro v
      exact errEnds_ite (errEnds_of_quiet E _ (quiet_upto _ _))
        (errEnds_ite (errEnds_of_quiet E _ (quiet_pure _))
          (errEnds_Encoder_compressSlow E e _ _ _))
  · refine errEnds_bind_quiet (quiet_make _) fun _ =>
      errEnds_compressInternalE E _ _ _ _ _ _ ?_ ?_
    · intro mem ho
      have hi : toUint (E.ZSTD_compressCCtx _ src.bytes e.compressionLevel).code >
          minErrCode E := ho.1
      simp only []
      rw [if_pos hi]
      exact ⟨quiet_pure _, rfl⟩
    · intro v
      exact errEnds_of_quiet E _ (quiet_ite (quiet_pure _) (quiet_upto _ _))

/-- C9 as stated fails for `CompressLevel`: when the native compressor reports
a memory-allocation error (not destination-too-small) for a 3-byte `src` and a
nil `dst`, `CompressLevel` makes the call on the fresh buffer and then panics
with the reported result; it does not return `src`. -/
theorem C9_counterexample :
    CompressLevel errEnv Slice.null (Slice.ofBytes [1, 2, 3]) 3 =
      ⟨[.alloc 67, .native .fresh 67 67 ⟨errResult 64, []⟩], .fault (.bug (errResult 64))⟩ ∧
    otherError errEnv (errResult 64) :=
  ⟨by with_unfolding_all rfl, by with_unfolding_all decide⟩

/-- C9, amended: when a native call of the run reports an error other than
destination-too-small, `Encoder.Compress` returns `src` itself, whereas
`CompressLevel` and `CompressDict` both abort with a panic that carries the
reported result. -/
theorem C9_error_other_than_too_small (E : Env) (hk : E.HeaderConsts) (e : Encoder)
    (dst src : Slice) (level : Int) (cd : CDict) (s : Site) (l c : Nat) (res : NativeResult)
    (herr : otherError E res.code) :
    (Event.native s l c res ∈ (Encoder.Compress E e dst src).events →
      (Encoder.Compress E e dst src).out = .ret src) ∧
    (Event.native s l c res ∈ (CompressLevel E dst src level).events →
      (CompressLevel E dst src level).out = .fault (.bug res.code)) ∧
    (Event.native s l c res ∈ (CompressDict E dst src cd).events →
      (CompressDict E dst src cd).out = .fault (.bug res.code)) :=
  ⟨fun h => errEnds_Encoder_Compress E e dst src s l c res h herr,
    fun h => errEnds_compress E hk dst src level s l c res h herr,
    fun h => errEnds_compressDict E hk dst src cd s l c res h herr⟩

/-- C9 at a compressor that reports a memory-allocation error: `Encoder.Compress`
returns the 3-byte `src`. -/
theorem C9_error_other_than_too_small_witness :
    (Encoder.Compress errEnv ⟨3⟩ Slice.null (Slice.ofBytes [1, 2, 3])).out =
      .ret (Slice.ofBytes [1, 2, 3]) := by
  have hev : (Encoder.Compress errEnv ⟨3⟩ Slice.null (Slice.ofBytes [1, 2, 3])).events =
      [.alloc 67, .native .fresh 67 67 ⟨errResult 64, []⟩] := by with_unfolding_all rfl
  exact (C9_error_other_than_too_small errEnv (by decide) ⟨3⟩ Slice.null
    (Slice.ofBytes [1, 2, 3]) 3 ⟨0⟩ .fresh 67 67 ⟨errResult 64, []⟩
    (by with_unfolding_all decide)).1
    (by rw [hev]; exact List.mem_cons_of_mem _ (List.mem_cons_self _ _))

theorem EncoderGo.CompressBound_eq (n : Int) : EncoderGo.CompressBound n = CompressBound n :=
  rfl

theorem null_guard : ¬ ((Slice.null.cap : Int) > wrapInt ((Slice.null.len : Int) + 1024)) := by
  rw [wrap_len_add Slice.null (by decide) (by decide)]
  decide

theorem make_bound (n : Nat) (h : n ≤ sizeLimit) :
    make (wrapInt (CompressBound n + 1)) =
      ⟨[.alloc (CompressBound n + 1).toNat],
        .ret ⟨List.replicate (CompressBound n + 1).toNat 0, (CompressBound n + 1).toNat, false⟩⟩ := by
  have hb := bound_range n h
  rw [hb.1]
  exact make_ok (by omega)

theorem fresh_cap (B : Nat) : (⟨List.replicate B 0, B, false⟩ : Slice).cap = B := by
  unfold Slice.cap
  exact List.length_replicate _ _

theorem compress_nil (E : Env) (src : Slice) (level : Int) (hsrc : src.len ≠ 0)
    (hlim : src.len ≤ sizeLimit) {es : List Event} {o : Outcome Slice}
    (hK : (compressInternal E .fresh
        ⟨List.replicate (CompressBound src.len + 1).toNat 0, (CompressBound src.len + 1).toNat,
          false⟩ src level true >>= fun r =>
        (Slice.store ⟨List.replicate (CompressBound src.len + 1).toNat 0,
          (CompressBound src.len + 1).toNat, false⟩ 0 r.2).upto (toUint r.1)) = ⟨es, o⟩) :
    compress E Slice.null src level = ⟨[.alloc (CompressBound src.len + 1).toNat] ++ es, o⟩ := by
  have h1 : ¬ ((src.len : Int) = 0) := by exact_mod_cast hsrc
  have h3 : Slice.null.isNil = true := rfl
  unfold compress
  simp only []
  rw [if_neg h1, if_neg null_guard, if_pos h3]
  exact Run.bind_ret (make_bound src.len hlim) hK

theorem Encoder.Compress_nil (E : Env) (e : Encoder) (src : Slice) (hsrc : src.len ≠ 0)
    (hlim : src.len ≤ sizeLimit) {es : List Event} {o : Outcome Slice}
    (hK : (compressInternalE E .fresh
        ⟨List.replicate (CompressBound src.len + 1).toNat 0, (CompressBound src.len + 1).toNat,
          false⟩ src e.compressionLevel >>= fun r =>
        if toUint r.1 > minErrCode E then pure src
        else (Slice.store ⟨List.replicate (CompressBound src.len + 1).toNat 0,
          (CompressBound src.len + 1).toNat, false⟩ 0 r.2).upto (toUint r.1)) = ⟨es, o⟩) :
    Encoder.Compress E e Slice.null src =
      ⟨[.alloc (CompressBound src.len + 1).toNat] ++ es, o⟩ := by
  have h1 : ¬ ((src.len : Int) = 0) := by exact_mod_cast hsrc
  have h3 : Slice.null.isNil = true := rfl
  unfold Encoder.Compress
  simp only []
  rw [if_neg h1, if_neg null_guard, if_pos h3, EncoderGo.CompressBound_eq]
  exact Run.bind_ret (make_bound src.len hlim) hK

theorem Run.of_out {α : Type} {x : Run α} {o : Outcome α} (h : x.out = o) :
    x = ⟨x.events, o⟩ := by
  subst h; rfl

theorem compress_nil_inv (E : Env) (src : Slice) (level : Int) (hsrc : src.len ≠ 0)
    (hlim : src.len ≤ sizeLimit) {es : List Event} {o : Outcome Slice}
    (h : compress E Slice.null src level = ⟨es, o⟩) :
    ∃ es2, (compressInternal E .fresh
        ⟨List.replicate (CompressBound src.len + 1).toNat 0, (CompressBound src.len + 1).toNat,
          false⟩ src level true >>= fun r =>
        (Slice.store ⟨List.replicate (CompressBound src.len + 1).toNat 0,
          (CompressBound src.len + 1).toNat, false⟩ 0 r.2).upto (toUint r.1)) = ⟨es2, o⟩ ∧
      es = [.alloc (CompressBound src.len + 1).toNat] ++ es2 := by
  have hf := compress_nil E src level hsrc hlim (Run.eq_mk (compressInternal E .fresh
        ⟨List.replicate (CompressBound src.len + 1).toNat 0, (CompressBound src.len + 1).toNat,
          false⟩ src level true >>= fun r =>
        (Slice.store ⟨List.replicate (CompressBound src.len + 1).toNat 0,
          (CompressBound src.len + 1).toNat, false⟩ 0 r.2).upto (toUint r.1)))
  rw [hf] at h
  injection h with h1 h2
  exact ⟨_, Run.of_out h2, h1.symm⟩

theorem fresh_bound (n : Nat) (h : n ≤ sizeLimit) :
    ((CompressBound n + 1).toNat : Int) = CompressBound n + 1 ∧
    (CompressBound n + 1).toNat ≠ 0 ∧
    (CompressBound n + 1).toNat < 9223372036854775808 ∧
    (n : Int) ≤ CompressBound n := by
  have hb := bound_range n h
  unfold sizeLimit at h
  omega

theorem fresh_store_cap (B : Nat) (mem : List Byte) :
    (Slice.store ⟨List.replicate B 0, B, false⟩ 0 mem).cap = B := by
  rw [Slice.store_cap _ _ _ (Nat.zero_le _), fresh_cap]

theorem compress_nil_len (E : Env) (src : Slice) (level : Int) (hsrc : src.len ≠ 0)
    (hlim : src.len ≤ sizeLimit) {es : List Event} {r : Slice}
    (h : compress E Slice.null src level = ⟨es, .ret r⟩) :
    (r.len : Int) ≤ CompressBound src.len + 1 := by
  obtain ⟨es2, hK, -⟩ := compress_nil_inv E src level hsrc hlim h
  obtain ⟨e1, v, e2, -, hup, -⟩ := Run.bind_inv_ret hK
  obtain ⟨-, h0, hle, -, hlen, -, -⟩ := Slice.upto_inv hup
  rw [fresh_store_cap] at hle
  have hb := (fresh_bound src.len hlim).1
  rw [hlen]
  omega

theorem fresh_upto (B code : Nat) (mem : List Byte) (hfit : code ≤ B)
    (hB : B < 9223372036854775808) :
    (Slice.store ⟨List.replicate B 0, B, false⟩ 0 mem).upto (toUint code) =
      ⟨[], .ret ⟨(Slice.store ⟨List.replicate B 0, B, false⟩ 0 mem).arr, code, false⟩⟩ := by
  rw [toUint_of_lt (by omega)]
  have h := @Slice.upto_ok (Slice.store ⟨List.replicate B 0, B, false⟩ 0 mem)
    (code : Int) (by omega) (by rw [fresh_store_cap]; exact_mod_cast hfit)
  rw [Int.toNat_natCast] at h
  exact h

theorem compress_nil_ok (E : Env) (src : Slice) (level : Int) (hsrc : src.len ≠ 0)
    (hlim : src.len ≤ sizeLimit)
    (hpass : ¬ isError E
      (E.ZSTD_compressCCtx (CompressBound src.len + 1).toNat src.bytes level).code)
    (hfit : (E.ZSTD_compressCCtx (CompressBound src.len + 1).toNat src.bytes level).code ≤
      (CompressBound src.len + 1).toNat) :
    compress E Slice.null src level =
      ⟨[.alloc (CompressBound src.len + 1).toNat,
          .native .fresh (CompressBound src.len + 1).toNat (CompressBound src.len + 1).toNat
            (E.ZSTD_compressCCtx (CompressBound src.len + 1).toNat src.bytes level)],
        .ret ⟨(Slice.store ⟨List.replicate (CompressBound src.len + 1).toNat 0,
            (CompressBound src.len + 1).toNat, false⟩ 0
            (overwrite (List.replicate (CompressBound src.len + 1).toNat 0)
              (E.ZSTD_compressCCtx (CompressBound src.len + 1).toNat src.bytes level).out)).arr,
          (E.ZSTD_compressCCtx (CompressBound src.len + 1).toNat src.bytes level).code,
          false⟩⟩ := by
  obtain ⟨-, hB0, hBlt, -⟩ := fresh_bound src.len hlim
  have hx := @compressInternal_must_pass E .fresh
    ⟨List.replicate (CompressBound src.len + 1).toNat 0,
      (CompressBound src.len + 1).toNat, false⟩ src level hB0 hsrc
    (by rw [fresh_cap]; exact Or.inr hpass)
  rw [fresh_cap] at hx
  exact compress_nil E src level hsrc hlim
    (Run.bind_ret_nil hx (fresh_upto _ _ _ hfit hBlt))

theorem Encoder.Compress_nil_ok (E : Env) (e : Encoder) (src : Slice) (hsrc : src.len ≠ 0)
    (hlim : src.len ≤ sizeLimit)
    (hpass : ¬ isError E (E.ZSTD_compressCCtx (CompressBound src.len + 1).toNat src.bytes
      e.compressionLevel).code)
    (hfit : (E.ZSTD_compressCCtx (CompressBound src.len + 1).toNat src.bytes
      e.compressionLevel).code ≤ (CompressBound src.len + 1).toNat) :
    Encoder.Compress E e Slice.null src =
      ⟨[.alloc (CompressBound src.len + 1).toNat,
          .native .fresh (CompressBound src.len + 1).toNat (CompressBound src.len + 1).toNat
            (E.ZSTD_compressCCtx (CompressBound src.len + 1).toNat src.bytes
              e.compressionLevel)],
        .ret ⟨(Slice.store ⟨List.replicate (CompressBound src.len + 1).toNat 0,
            (CompressBound src.len + 1).toNat, false⟩ 0
            (overwrite (List.replicate (CompressBound src.len + 1).toNat 0)
              (E.ZSTD_compressCCtx (CompressBound src.len + 1).toNat src.bytes
                e.compressionLevel).out)).arr,
          (E.ZSTD_compressCCtx (CompressBound src.len + 1).toNat src.bytes
            e.compressionLevel).code,
          false⟩⟩ := by
  obtain ⟨-, hB0, hBlt, -⟩ := fresh_bound src.len hlim
  have hx := @compressInternalE_eq E .fresh
    ⟨List.replicate (CompressBound src.len + 1).toNat 0,
      (CompressBound src.len + 1).toNat, false⟩ src e.compressionLevel hB0 hsrc
  rw [fresh_cap] at hx
  refine Encoder.Compress_nil E e src hsrc hlim (Run.bind_ret_nil hx ?_)
  have hp : ¬ toUint (E.ZSTD_compressCCtx (CompressBound src.len + 1).toNat src.bytes
      e.compressionLevel).code > minErrCode E := hpass
  simp only []
  rw [if_neg hp]
  exact fresh_upto _ _ _ hfit hBlt

theorem Encoder.Compress_nil_err (E : Env) (e : Encoder) (src : Slice) (hsrc : src.len ≠ 0)
    (hlim : src.len ≤ sizeLimit)
    (herr : isError E (E.ZSTD_compressCCtx (CompressBound src.len + 1).toNat src.bytes
      e.compressionLevel).code) :
    Encoder.Compress E e Slice.null src =
      ⟨[.alloc (CompressBound src.len + 1).toNat,
          .native .fresh (CompressBound src.len + 1).toNat (CompressBound src.len + 1).toNat
            (E.ZSTD_compressCCtx (CompressBound src.len + 1).toNat src.bytes
              e.compressionLevel)],
        .ret src⟩ := by
  obtain ⟨-, hB0, hBlt, -⟩ := fresh_bound src.len hlim
  have hx := @compressInternalE_eq E .fresh
    ⟨List.replicate (CompressBound src.len + 1).toNat 0,
      (CompressBound src.len + 1).toNat, false⟩ src e.compressionLevel hB0 hsrc
  rw [fresh_cap] at hx
  refine Encoder.Compress_nil E e src hsrc hlim (Run.bind_ret_nil hx ?_)
  have hp : toUint (E.ZSTD_compressCCtx (CompressBound src.len + 1).toNat src.bytes
      e.compressionLevel).code > minErrCode E := herr
  simp only []
  rw [if_pos hp]
  rfl

theorem refEnv_fits (src : Slice) (k : Nat) (lvl : Int)
    (h : ¬ isError refEnv (refEnv.ZSTD_compressCCtx k src.bytes lvl).code) :
    (refEnv.ZSTD_compressCCtx k src.bytes lvl).code ≤ k := by
  have he : isError refEnv (errResult 70) := by with_unfolding_all decide
  change ¬ isError refEnv (refCompress k src.bytes).code at h
  change (refCompress k src.bytes).code ≤ k
  unfold refCompress at h ⊢
  split
  · assumption
  · rename_i hc
    rw [if_neg hc] at h
    exact absurd he h

/-- C2: for a non-empty `src` of addressable length, when a native compress
call that reports no error reports a size within the capacity it was given,
`Encoder.Compress(nil, src)` returns a buffer of length at most
`CompressBound(len(src)) + 1` (the compressed bytes, or `src` itself, whose
length is at most `CompressBound(len(src))`); every buffer that
`CompressLevel(nil, src, level)` returns has length at most
`CompressBound(len(src)) + 1`, and it does return one when the native call
reports no error. -/
theorem C2_bound_correctness (E : Env) (e : Encoder) (src : Slice) (level : Int)
    (hsrc : src.len ≠ 0) (hlim : src.len ≤ sizeLimit)
    (hfit : ∀ k lvl, ¬ isError E (E.ZSTD_compressCCtx k src.bytes lvl).code →
      (E.ZSTD_compressCCtx k src.bytes lvl).code ≤ k) :
    (∃ es r, Encoder.Compress E e Slice.null src = ⟨es, .ret r⟩ ∧
      (r.len : Int) ≤ CompressBound src.len + 1) ∧
    (∀ es r, CompressLevel E Slice.null src level = ⟨es, .ret r⟩ →
      (r.len : Int) ≤ CompressBound src.len + 1) ∧
    (¬ isError E (E.ZSTD_compressCCtx (CompressBound src.len + 1).toNat src.bytes level).code →
      ∃ es r, CompressLevel E Slice.null src level = ⟨es, .ret r⟩) ∧
    (src.len : Int) ≤ CompressBound src.len := by
  obtain ⟨hB, -, -, hge⟩ := fresh_bound src.len hlim
  refine ⟨?_, fun es r h => compress_nil_len E src level hsrc hlim h, ?_, hge⟩
  · by_cases herr : isError E (E.ZSTD_compressCCtx (CompressBound src.len + 1).toNat src.bytes
        e.compressionLevel).code
    · exact ⟨_, _, Encoder.Compress_nil_err E e src hsrc hlim herr, by omega⟩
    · have hc := hfit _ _ herr
      refine ⟨_, _, Encoder.Compress_nil_ok E e src hsrc hlim herr hc, ?_⟩
      exact (Int.ofNat_le.2 hc).trans (le_of_eq hB)
  · intro hpass
    exact ⟨_, _, compress_nil_ok E src level hsrc hlim hpass (hfit _ _ hpass)⟩

/-- C2 at the reference codec and a 3-byte `src`. -/
theorem C2_bound_correctness_witness :
    ∃ es r, Encoder.Compress refEnv ⟨3⟩ Slice.null (Slice.ofBytes [1, 2, 3]) = ⟨es, .ret r⟩ ∧
      (r.len : Int) ≤ CompressBound (Slice.ofBytes [1, 2, 3]).len + 1 :=
  (C2_bound_correctness refEnv ⟨3⟩ (Slice.ofBytes [1, 2, 3]) 3 (by decide) (by decide)
    (fun k lvl h => refEnv_fits _ k lvl h)).1

theorem overwrite_take (region out : List Byte) (h : out.length ≤ region.length) :
    (overwrite region out).take out.length = out := by
  unfold overwrite
  rw [List.take_take, Nat.min_eq_left h, List.take_append_of_le_length (Nat.le_refl _),
    List.take_length]

theorem overwrite_overwrite (region out : List Byte) :
    overwrite region (overwrite region out) = overwrite region out := by
  have hl := overwrite_length region out
  generalize overwrite region out = m at hl
  unfold overwrite
  rw [List.take_append_of_le_length (by omega), List.take_of_length_le (by omega)]

theorem store_take (s : Slice) (L : Nat) (out : List Byte) (hL : L + out.length ≤ s.cap) :
    (s.store L (overwrite (s.arr.drop L) out)).arr.take (L + out.length) =
      s.arr.take L ++ out := by
  unfold Slice.cap at hL
  unfold Slice.store
  simp only []
  rw [overwrite_overwrite]
  have h1 : (s.arr.take L).length = L := by rw [List.length_take]; omega
  rw [List.take_append_eq_append_take, h1, List.take_of_length_le (by omega)]
  have h2 : L + out.length - L = out.length := by omega
  rw [h2, overwrite_take _ _ (by rw [List.length_drop]; omega)]

theorem appends_finish (dst s : Slice) (res : NativeResult) (b : Bool)
    (hs : s.arr.take dst.len = dst.bytes) (hfit : dst.len + res.code ≤ s.cap)
    (hout : res.out.length = res.code) :
    Appends dst res
      ⟨(s.store dst.len (overwrite (s.arr.drop dst.len) res.out)).arr, dst.len + res.code, b⟩ := by
  have hcap : (s.store dst.len (overwrite (s.arr.drop dst.len) res.out)).arr.length = s.cap :=
    Slice.store_cap s dst.len _ (by omega)
  refine ⟨rfl, ?_, ?_⟩
  · show dst.len + res.code ≤ List.length _
    rw [hcap]; exact hfit
  · show List.take (dst.len + res.code) _ = _
    rw [← hout, store_take s dst.len res.out (by rw [hout]; exact hfit), hs]

theorem lastNative_append_native (es : List Event) (s : Site) (l c : Nat) (r : NativeResult) :
    lastNative (es ++ [.native s l c r]) = some (c, r) := by
  unfold lastNative
  rw [List.foldl_append]
  rfl

theorem upto_fit (s : Slice) (L code : Nat) (hfit : L + code ≤ s.cap)
    (hcap : s.cap < 9223372036854775808) :
    s.upto (wrapInt ((L : Int) + toInt code)) = ⟨[], .ret ⟨s.arr, L + code, s.isNil⟩⟩ := by
  have ht : toInt code = (code : Int) := toInt_of_lt (by omega)
  have hw : wrapInt ((L : Int) + (code : Int)) = ((L + code : Nat) : Int) := by
    rw [wrapInt_eq (by omega) (by omega)]; push_cast; rfl
  rw [ht, hw]
  have h := @Slice.upto_ok s ((L + code : Nat) : Int) (by omega)
    (by exact_mod_cast hfit)
  rw [Int.toNat_natCast] at h
  exact h

theorem toInt_fit {code k : Nat} (h : code ≤ k) (hk : k < 9223372036854775808) :
    toInt code ≥ 0 := by
  rw [toInt_of_lt (by omega)]; omega

theorem slowN (L cap : Nat) (c : Int) (hc0 : 0 ≤ c) (hc : c ≤ 2 * (sizeLimit : Int))
    (hL : L ≤ cap) (hcap : cap ≤ sizeLimit) :
    wrapInt (wrapInt (wrapInt ((L : Int) + c) - cap) + L) = (L : Int) + c - cap + L ∧
      wrapInt ((L : Int) + c) = (L : Int) + c := by
  unfold sizeLimit at hc hcap
  have hw1 : wrapInt ((L : Int) + c) = (L : Int) + c := wrapInt_eq (by omega) (by omega)
  have hw2 : wrapInt ((L : Int) + c - cap) = (L : Int) + c - cap :=
    wrapInt_eq (by omega) (by omega)
  have hw3 : wrapInt ((L : Int) + c - cap + L) = (L : Int) + c - cap + L :=
    wrapInt_eq (by omega) (by omega)
  rw [hw1, hw2, hw3]
  exact ⟨rfl, rfl⟩

theorem decompN (L cap : Nat) (c : Int) (hc0 : 0 ≤ c) (hc : c ≤ 2 * (sizeLimit : Int))
    (hL : L ≤ cap) (hcap : cap ≤ sizeLimit) :
    wrapInt (wrapInt ((L : Int) + c) - cap) = (L : Int) + c - cap ∧
      wrapInt ((L : Int) + c) = (L : Int) + c := by
  unfold sizeLimit at hc hcap
  have hw1 : wrapInt ((L : Int) + c) = (L : Int) + c := wrapInt_eq (by omega) (by omega)
  have hw2 : wrapInt ((L : Int) + c - cap) = (L : Int) + c - cap :=
    wrapInt_eq (by omega) (by omega)
  rw [hw1, hw2]
  exact ⟨rfl, rfl⟩

theorem grown_fit (E : Env) (d : Slice) (L B : Nat) (n : Int) (hs : E.SlackBounded)
    (hL : L ≤ d.cap) (hcap : d.cap ≤ sizeLimit) (hB : B ≤ 2 * sizeLimit)
    (hn1 : (L : Int) + B - d.cap ≤ n) (hn2 : n ≤ (L : Int) + B - d.cap + L) :
    L + B ≤ (grownBy E d n).cap ∧ (grownBy E d n).cap < 9223372036854775808 := by
  have hS := hs (d.cap + n.toNat)
  rw [grownBy_cap]
  unfold sizeLimit at hcap hB hS
  split <;> omega

theorem window_cap (g : Slice) (L B : Nat) (b : Bool) :
    (⟨g.arr.drop L, B, b⟩ : Slice).cap = g.cap - L := by
  unfold Slice.cap
  exact List.length_drop _ _

theorem compress_window (E : Env) (g src : Slice) (level : Int) (L B : Nat) (hB0 : B ≠ 0)
    (hsrc : src.len ≠ 0) (hLg : L ≤ g.cap) (hg2 : g.cap < 9223372036854775808)
    (hF : Fits (E.ZSTD_compressCCtx (g.cap - L) src.bytes level) (g.cap - L)) :
    (compressInternal E .slow ⟨g.arr.drop L, B, g.isNil⟩ src level true >>= fun r =>
      (g.store (Int.toNat (L : Int)) r.2).upto (wrapInt ((L : Int) + toInt r.1))) =
      ⟨[.native .slow B (g.cap - L) (E.ZSTD_compressCCtx (g.cap - L) src.bytes level)],
        .ret ⟨(g.store L (overwrite (g.arr.drop L)
            (E.ZSTD_compressCCtx (g.cap - L) src.bytes level).out)).arr,
          L + (E.ZSTD_compressCCtx (g.cap - L) src.bytes level).code, g.isNil⟩⟩ := by
  have hcapw := window_cap g L B g.isNil
  have hc := hF.1
  have hx := @compressInternal_must_pass E .slow ⟨g.arr.drop L, B, g.isNil⟩ src
    level hB0 hsrc (by rw [hcapw]; exact Or.inl (toInt_fit hc (by omega)))
  rw [hcapw] at hx
  refine Run.bind_ret_nil hx ?_
  simp only [Int.toNat_natCast]
  exact upto_fit _ L _ (by rw [Slice.store_cap _ _ _ hLg]; omega)
    (by rw [Slice.store_cap _ _ _ hLg]; exact hg2)

theorem lastNative_growEvents (d : Slice) (n : Int) : lastNative (growEvents d n) = none := by
  unfold growEvents lastNative
  split <;> rfl

theorem compressSlow_ok (E : Env) (d src : Slice) (level : Int) (L : Nat) (hs : E.SlackBounded)
    (hL : L ≤ d.cap) (hcap : d.cap ≤ sizeLimit) (hsrc : src.len ≠ 0)
    (hlim : src.len ≤ sizeLimit)
    (hfit : ∀ k, (CompressBound src.len + 1).toNat ≤ k →
      Fits (E.ZSTD_compressCCtx k src.bytes level) k) :
    ∃ (es : List Event) (g : Slice) (k : Nat), compressSlow E (L : Int) d src level =
        ⟨es ++ [.native .slow (CompressBound src.len + 1).toNat k
            (E.ZSTD_compressCCtx k src.bytes level)],
          .ret ⟨(g.store L (overwrite (g.arr.drop L)
              (E.ZSTD_compressCCtx k src.bytes level).out)).arr,
            L + (E.ZSTD_compressCCtx k src.bytes level).code, g.isNil⟩⟩ ∧
      lastNative es = none ∧
      g.arr.take L = d.arr.take L ∧
      L + (E.ZSTD_compressCCtx k src.bytes level).code ≤ g.cap ∧
      Fits (E.ZSTD_compressCCtx k src.bytes level) k := by
  obtain ⟨hbw, -, -⟩ := bound_range src.len hlim
  obtain ⟨hBI, hB0, -, -⟩ := fresh_bound src.len hlim
  have hB2 : (CompressBound src.len + 1).toNat ≤ 2 * sizeLimit := by
    have := (bound_range src.len hlim).2.2
    unfold sizeLimit at hlim ⊢; omega
  revert hfit hBI hB0 hB2
  generalize (CompressBound src.len + 1).toNat = B
  intro hfit hBI hB0 hB2
  have hBI2 : ((B : Nat) : Int) ≤ 2 * (sizeLimit : Int) := by exact_mod_cast hB2
  obtain ⟨hn, hhi⟩ := slowN L d.cap (B : Int) (by omega) hBI2 hL hcap
  obtain ⟨hg1, hg2⟩ := grown_fit E d L B ((L : Int) + (B : Int) - d.cap + L) hs hL hcap hB2
    (by omega) (Int.le_refl _)
  have htake := grownBy_take E d ((L : Int) + (B : Int) - d.cap + L) hL
  have hev := lastNative_growEvents d ((L : Int) + (B : Int) - d.cap + L)
  have hunf : compressSlow E (L : Int) d src level =
      ((if (L : Int) + (B : Int) - d.cap + L > 0
          then appendZeros E d ((L : Int) + (B : Int) - d.cap + L) else pure d) >>= fun g =>
        g.slice (L : Int) ((L : Int) + (B : Int)) >>= fun region =>
          compressInternal E .slow region src level true >>= fun r =>
            (g.store (Int.toNat (L : Int)) r.2).upto (wrapInt ((L : Int) + toInt r.1))) := by
    unfold compressSlow
    simp only []
    rw [hbw, ← hBI, hn, hhi]
  revert hg1 hg2 htake hev hunf
  generalize hevdef : growEvents d ((L : Int) + (B : Int) - d.cap + L) = ev
  generalize hgdef : grownBy E d ((L : Int) + (B : Int) - d.cap + L) = g
  intro hg1 hg2 htake hev hunf
  have hLg : L ≤ g.cap := by omega
  have hF := hfit (g.cap - L) (by omega)
  have hc := hF.1
  refine ⟨ev, g, g.cap - L, ?_, hev, htake, by omega, hF⟩
  rw [hunf]
  have hK := compress_window E g src level L B hB0 hsrc hLg hg2 hF
  have hw := @slow_window _ E d ((L : Int) + (B : Int) - d.cap + L) ((L : Int) + (B : Int)) L B
    (fun g region => compressInternal E .slow region src level true >>= fun r =>
      (g.store (Int.toNat (L : Int)) r.2).upto (wrapInt ((L : Int) + toInt r.1)))
    [.native .slow B (g.cap - L) (E.ZSTD_compressCCtx (g.cap - L) src.bytes level)]
    (.ret ⟨(g.store L (overwrite (g.arr.drop L)
            (E.ZSTD_compressCCtx (g.cap - L) src.bytes level).out)).arr,
          L + (E.ZSTD_compressCCtx (g.cap - L) src.bytes level).code, g.isNil⟩)
    rfl (by rw [hgdef]; exact hg1) (by rw [hgdef]; exact hK)
  rw [hevdef] at hw
  exact hw

theorem store_front (s : Slice) (L : Nat) (mem : List Byte) (hL : L ≤ s.cap) :
    (s.store L mem).arr.take L = s.arr.take L := by
  unfold Slice.cap at hL
  unfold Slice.store
  simp only []
  rw [List.take_append_of_le_length (by rw [List.length_take]; omega), List.take_take,
    Nat.min_self]

theorem guard_iff (dst : Slice) (hwf : dst.WF) (hcap : dst.cap ≤ sizeLimit) :
    ((dst.cap : Int) > wrapInt ((dst.len : Int) + 1024)) ↔ dst.len + 1024 < dst.cap := by
  rw [wrap_len_add dst hcap hwf]
  omega

theorem compress_fast (E : Env) (dst src : Slice) (level : Int) (hwf : dst.WF)
    (hcap : dst.cap ≤ sizeLimit) (hsrc : src.len ≠ 0) (hgt : dst.len + 1024 < dst.cap)
    {e : List Event} {o : Outcome Slice}
    (hT : (if toInt (E.ZSTD_compressCCtx (dst.cap - dst.len) src.bytes level).code ≥ 0 then
        (dst.store dst.len (overwrite (dst.arr.drop dst.len)
          (E.ZSTD_compressCCtx (dst.cap - dst.len) src.bytes level).out)).upto
          (wrapInt ((dst.len : Int) +
            toInt (E.ZSTD_compressCCtx (dst.cap - dst.len) src.bytes level).code))
      else if E.ZSTD_getErrorCode (E.ZSTD_compressCCtx (dst.cap - dst.len) src.bytes level).code
          ≠ E.ZSTD_error_dstSize_tooSmall then
        Run.panic (.bug (E.ZSTD_compressCCtx (dst.cap - dst.len) src.bytes level).code)
      else compressSlow E (dst.len : Int)
        (dst.store dst.len (overwrite (dst.arr.drop dst.len)
          (E.ZSTD_compressCCtx (dst.cap - dst.len) src.bytes level).out)) src level) =
      ⟨e, o⟩) :
    compress E dst src level =
      ⟨[.native .fast (dst.cap - dst.len) (dst.cap - dst.len)
        (E.ZSTD_compressCCtx (dst.cap - dst.len) src.bytes level)] ++ e, o⟩ := by
  have h1 : ¬ ((src.len : Int) = 0) := by exact_mod_cast hsrc
  have hg := (guard_iff dst hwf hcap).2 hgt
  have hlt : dst.len < dst.cap := by omega
  unfold compress
  simp only []
  rw [if_neg h1, if_pos hg]
  refine (Run.bind_nil_ret (spare_region hlt)).trans
    (Run.bind_ret (compressInternal_spare E level false hlt hsrc rfl) ?_)
  simp only [Int.toNat_natCast]
  exact hT

theorem compress_direct (E : Env) (dst src : Slice) (level : Int) (hwf : dst.WF)
    (hcap : dst.cap ≤ sizeLimit) (hsrc : src.len ≠ 0) (hng : ¬ dst.len + 1024 < dst.cap)
    (hnil : dst.isNil = false) :
    compress E dst src level = compressSlow E (dst.len : Int) dst src level := by
  have h1 : ¬ ((src.len : Int) = 0) := by exact_mod_cast hsrc
  have hg : ¬ ((dst.cap : Int) > wrapInt ((dst.len : Int) + 1024)) :=
    fun h => hng ((guard_iff dst hwf hcap).1 h)
  have h3 : ¬ (dst.isNil = true) := by rw [hnil]; decide
  unfold compress
  simp only []
  rw [if_neg h1, if_neg hg, if_neg h3]

theorem nil_eq_null (dst : Slice) (hwf : dst.WF) (hnil : dst.isNil = true) :
    dst = Slice.null := by
  obtain ⟨arr, len, isNil⟩ := dst
  obtain ⟨h1, h2⟩ := hwf
  simp only at hnil
  subst hnil
  have hc := h2 rfl
  unfold Slice.cap at hc h1
  simp only at hc h1
  have ha : arr = [] := List.length_eq_zero.1 hc
  subst ha
  have hl : len = 0 := by simpa using h1
  subst hl
  rfl

theorem not_isError_of_fit (E : Env) (hk : E.HeaderConsts) {code k : Nat} (h : code ≤ k)
    (hlt : k < 9223372036854775808) : ¬ isError E code := by
  intro he
  have h1 := toInt_neg_of_isError E hk he
  have h2 := toInt_fit h hlt
  omega

theorem appends_fresh (B : Nat) (res : NativeResult) (hfit : res.code ≤ B)
    (hout : res.out.length = res.code) :
    Appends Slice.null res
      ⟨(Slice.store ⟨List.replicate B 0, B, false⟩ 0
        (overwrite (List.replicate B 0) res.out)).arr, res.code, false⟩ := by
  have hc : (Slice.store ⟨List.replicate B 0, B, false⟩ 0
      (overwrite (List.replicate B 0) res.out)).arr.length = B := fresh_store_cap B _
  have ht := store_take ⟨List.replicate B 0, B, false⟩ 0 res.out
    (by rw [fresh_cap]; omega)
  rw [List.drop_zero, List.take_zero, List.nil_append, Nat.zero_add, hout] at ht
  refine ⟨(Nat.zero_add _).symm, ?_, ?_⟩
  · show res.code ≤ List.length _
    rw [hc]; exact hfit
  · show List.take res.code _ = [] ++ res.out
    rw [ht]; rfl

theorem compress_appends (E : Env) (hk : E.HeaderConsts) (hs : E.SlackBounded)
    (dst src : Slice) (level : Int) (hwf : dst.WF) (hcap : dst.cap ≤ sizeLimit)
    (hsrc : src.len ≠ 0) (hlim : src.len ≤ sizeLimit)
    (hfast : dst.len + 1024 < dst.cap →
      Fits (E.ZSTD_compressCCtx (dst.cap - dst.len) src.bytes level) (dst.cap - dst.len) ∨
      TooSmall E (E.ZSTD_compressCCtx (dst.cap - dst.len) src.bytes level))
    (hslow : ¬ (dst.len + 1024 < dst.cap ∧
        Fits (E.ZSTD_compressCCtx (dst.cap - dst.len) src.bytes level) (dst.cap - dst.len)) →
      ∀ k, (CompressBound src.len + 1).toNat ≤ k →
        Fits (E.ZSTD_compressCCtx k src.bytes level) k) :
    ∃ (es : List Event) (r : Slice) (k : Nat),
      compress E dst src level = ⟨es, .ret r⟩ ∧
      lastNative es = some (k, E.ZSTD_compressCCtx k src.bytes level) ∧
      Fits (E.ZSTD_compressCCtx k src.bytes level) k ∧
      Appends dst (E.ZSTD_compressCCtx k src.bytes level) r := by
  have hle : dst.len ≤ dst.cap := hwf.1
  have hcaplt : dst.cap < 9223372036854775808 := by unfold sizeLimit at hcap; omega
  by_cases hgt : dst.len + 1024 < dst.cap
  · rcases hfast hgt with hF | hT
    · have hc := hF.1
      have hrun2 := compress_fast E dst src level hwf hcap hsrc hgt (e := []) (o := .ret _) (by
        rw [if_pos (toInt_fit hc (by omega))]
        exact upto_fit _ _ _ (by rw [Slice.store_cap _ _ _ hle]; omega)
          (by rw [Slice.store_cap _ _ _ hle]; exact hcaplt))
      exact ⟨_, _, dst.cap - dst.len, hrun2, lastNative_append_native [] _ _ _ _, hF,
        appends_finish dst dst _ dst.isNil rfl (by omega) hF.2⟩
    · have hneg := toInt_neg_of_isError E hk hT.1
      have hfinal := hslow (fun h => not_isError_of_fit E hk h.2.1 (by omega) hT.1)
      obtain ⟨es, g, k, hrun, hev, htake, hfit, hF⟩ := compressSlow_ok E
        (dst.store dst.len (overwrite (dst.arr.drop dst.len)
          (E.ZSTD_compressCCtx (dst.cap - dst.len) src.bytes level).out)) src level dst.len hs
        (by rw [Slice.store_cap _ _ _ hle]; exact hle)
        (by rw [Slice.store_cap _ _ _ hle]; exact hcap) hsrc hlim hfinal
      have hrun2 := compress_fast E dst src level hwf hcap hsrc hgt (e := es ++ [_])
        (o := .ret _) (by
        rw [if_neg (by omega), if_neg (not_not.2 hT.2)]
        exact hrun)
      refine ⟨_, _, k, hrun2, ?_, hF,
        appends_finish dst g _ g.isNil (by rw [htake, store_front _ _ _ hle]; rfl) hfit hF.2⟩
      rw [← List.append_assoc]
      exact lastNative_append_native _ _ _ _ _
  · have hfinal := hslow (fun h => hgt h.1)
    by_cases hnil : dst.isNil = true
    · have hnull := nil_eq_null dst hwf hnil
      subst hnull
      obtain ⟨-, -, hBlt, -⟩ := fresh_bound src.len hlim
      have hF := hfinal (CompressBound src.len + 1).toNat (Nat.le_refl _)
      refine ⟨_, _, (CompressBound src.len + 1).toNat,
        compress_nil_ok E src level hsrc hlim (not_isError_of_fit E hk hF.1 hBlt) hF.1, ?_, hF,
        appends_fresh _ _ hF.1 hF.2⟩
      exact lastNative_append_native [.alloc _] _ _ _ _
    · have hnil2 : dst.isNil = false := by
        cases h : dst.isNil
        · rfl
        · exact absurd h hnil
      obtain ⟨es, g, k, hrun, hev, htake, hfit, hF⟩ := compressSlow_ok E dst src level dst.len
        hs hle hcap hsrc hlim hfinal
      refine ⟨_, _, k, (compress_direct E dst src level hwf hcap hsrc hgt hnil2).trans hrun,
        lastNative_append_native _ _ _ _ _, hF,
        appends_finish dst g _ g.isNil (by rw [htake]; rfl) hfit hF.2⟩

theorem window_slice (g : Slice) (L B : Nat) (h : L + B ≤ g.cap) :
    g.slice (L : Int) ((L : Int) + (B : Int)) = ⟨[], .ret ⟨g.arr.drop L, B, g.isNil⟩⟩ := by
  rw [Slice.slice_ok (by omega) (by omega) (by omega)]
  congr 3
  omega

theorem decompress_window (E : Env) (g src : Slice) (L B : Nat) (hB0 : B ≠ 0)
    (hsrc : src.len ≠ 0) (hLg : L ≤ g.cap) (hg2 : g.cap < 9223372036854775808)
    (hF : Fits (E.ZSTD_decompressDCtx (g.cap - L) src.bytes) (g.cap - L)) :
    (decompressInternal E .slow ⟨g.arr.drop L, B, g.isNil⟩ src >>= fun r =>
      if toInt r.1 ≥ 0 then
        (g.store (Int.toNat (L : Int)) r.2).upto (wrapInt ((L : Int) + toInt r.1)) >>=
          fun dst => pure (dst, none)
      else
        (g.store (Int.toNat (L : Int)) r.2).upto (L : Int) >>=
          fun dst => pure (dst, some (GoError.decompression r.1))) =
      ⟨[.native .slow B (g.cap - L) (E.ZSTD_decompressDCtx (g.cap - L) src.bytes)],
        .ret (⟨(g.store L (overwrite (g.arr.drop L)
            (E.ZSTD_decompressDCtx (g.cap - L) src.bytes).out)).arr,
          L + (E.ZSTD_decompressDCtx (g.cap - L) src.bytes).code, g.isNil⟩, none)⟩ := by
  have hcapw := window_cap g L B g.isNil
  have hc := hF.1
  have hx := @decompressInternal_eq E .slow ⟨g.arr.drop L, B, g.isNil⟩ src hB0 hsrc
  rw [hcapw] at hx
  refine Run.bind_ret_nil hx ?_
  simp only [Int.toNat_natCast]
  rw [if_pos (toInt_fit hc (by omega))]
  exact (Run.bind_nil_ret (upto_fit _ L _ (by rw [Slice.store_cap _ _ _ hLg]; omega)
    (by rw [Slice.store_cap _ _ _ hLg]; exact hg2))).trans (Run.pure_def _)

theorem probe_known (E : Env) (hk : E.HeaderConsts) (p : Nat) (hp : p ≤ sizeLimit) :
    ¬ wrapUint (toInt p) = toUint E.ZSTD_CONTENTSIZE_UNKNOWN ∧
    ¬ wrapUint (toInt p) = toUint E.ZSTD_CONTENTSIZE_ERROR ∧
    wrapInt (toInt p + 1) = ((p + 1 : Nat) : Int) := by
  obtain ⟨h1, h2, -, -⟩ := hk
  unfold sizeLimit at hp
  have ht : toInt p = (p : Int) := toInt_of_lt (by omega)
  have hu : wrapUint (p : Int) = (p : Int) := wrapUint_eq (by omega) (by omega)
  have hw : wrapInt ((p : Int) + 1) = (p : Int) + 1 := wrapInt_eq (by omega) (by omega)
  rw [ht, hu, hw, h1, h2]
  refine ⟨?_, ?_, by push_cast; rfl⟩
  · rw [toUint_of_lt (by omega)]; omega
  · rw [toUint_of_lt (by omega)]; omega

theorem make_nat (B : Nat) :
    make (B : Int) = ⟨[.alloc B], .ret ⟨List.replicate B 0, B, false⟩⟩ := by
  have h := make_ok (n := (B : Int)) (by omega)
  rw [Int.toNat_natCast] at h
  exact h

theorem decompress_resize (E : Env) (hs : E.SlackBounded) (d : Slice) (L B : Nat)
    (hL : L ≤ d.cap) (hcap : d.cap ≤ sizeLimit) (hB : B ≤ 2 * sizeLimit)
    (hnil : d.isNil = true → d.cap = 0) :
    ∃ (ev : List Event) (g : Slice),
      (if d.isNil = true then make (B : Int)
        else if (L : Int) + (B : Int) - d.cap > 0
          then appendZeros E d ((L : Int) + (B : Int) - d.cap) else pure d) = ⟨ev, .ret g⟩ ∧
      lastNative ev = none ∧ L + B ≤ g.cap ∧ g.cap < 9223372036854775808 ∧
      g.arr.take L = d.arr.take L := by
  by_cases hn : d.isNil = true
  · have hc := hnil hn
    have hL0 : L = 0 := by omega
    subst hL0
    refine ⟨[.alloc B], ⟨List.replicate B 0, B, false⟩, by rw [if_pos hn]; exact make_nat B,
      rfl, ?_, ?_, ?_⟩
    · rw [fresh_cap]; omega
    · rw [fresh_cap]; unfold sizeLimit at hB; omega
    · rw [List.take_zero, List.take_zero]
  · obtain ⟨hg1, hg2⟩ := grown_fit E d L B ((L : Int) + (B : Int) - d.cap) hs hL hcap hB
      (Int.le_refl _) (by omega)
    exact ⟨_, _, by rw [if_neg hn]; exact resize_eq E d _, lastNative_growEvents _ _, hg1, hg2,
      grownBy_take E d _ hL⟩

theorem decompressSlow_ok (E : Env) (hk : E.HeaderConsts) (hs : E.SlackBounded)
    (d src : Slice) (L : Nat) (hL : L ≤ d.cap) (hcap : d.cap ≤ sizeLimit) (hsrc : src.len ≠ 0)
    (hnil : d.isNil = true → d.cap = 0)
    (hp : E.ZSTD_getFrameContentSize src.bytes ≤ sizeLimit)
    (hfit : ∀ k, E.ZSTD_getFrameContentSize src.bytes + 1 ≤ k →
      Fits (E.ZSTD_decompressDCtx k src.bytes) k) :
    ∃ (es : List Event) (g : Slice) (k : Nat), decompressSlow E (L : Int) d src =
        ⟨es ++ [.native .slow (E.ZSTD_getFrameContentSize src.bytes + 1) k
            (E.ZSTD_decompressDCtx k src.bytes)],
          .ret (⟨(g.store L (overwrite (g.arr.drop L)
              (E.ZSTD_decompressDCtx k src.bytes).out)).arr,
            L + (E.ZSTD_decompressDCtx k src.bytes).code, g.isNil⟩, none)⟩ ∧
      lastNative es = none ∧
      g.arr.take L = d.arr.take L ∧
      L + (E.ZSTD_decompressDCtx k src.bytes).code ≤ g.cap ∧
      Fits (E.ZSTD_decompressDCtx k src.bytes) k ∧
      E.ZSTD_getFrameContentSize src.bytes + 1 ≤ k := by
  obtain ⟨hu, he, hdb⟩ := probe_known E hk _ hp
  revert hu he hdb hfit hp
  generalize hpdef : E.ZSTD_getFrameContentSize src.bytes = p
  intro hp hfit hu he hdb
  have hB2 : p + 1 ≤ 2 * sizeLimit := by unfold sizeLimit at hp ⊢; omega
  have hBI2 : ((p + 1 : Nat) : Int) ≤ 2 * (sizeLimit : Int) := by exact_mod_cast hB2
  obtain ⟨hn, hhi⟩ := decompN L d.cap ((p + 1 : Nat) : Int) (by omega) hBI2 hL hcap
  obtain ⟨ev, g, hres, hev, hg1, hg2, htake⟩ :=
    decompress_resize E hs d L (p + 1) hL hcap hB2 hnil
  have hLg : L ≤ g.cap := by omega
  have hF := hfit (g.cap - L) (by omega)
  have hc := hF.1
  refine ⟨.probe p :: ev, g, g.cap - L, ?_, hev, htake, by omega, hF, by omega⟩
  unfold decompressSlow
  simp only []
  rw [hpdef, List.cons_append]
  refine Run.emit_bind _ ?_
  rw [if_neg hu, if_neg he, hdb, hn, hhi]
  exact Run.bind_ret hres ((Run.bind_nil_ret (window_slice g L (p + 1) hg1)).trans
    (decompress_window E g src L (p + 1) (by omega) hsrc hLg hg2 hF))

theorem decompress_fast (E : Env) (dst src : Slice) (hwf : dst.WF)
    (hcap : dst.cap ≤ sizeLimit) (hsrc : src.len ≠ 0) (hgt : dst.len + 1024 < dst.cap)
    {e : List Event} {o : Outcome (Slice × Option GoError)}
    (hT : (if toInt (E.ZSTD_decompressDCtx (dst.cap - dst.len) src.bytes).code ≥ 0 then
        (dst.store dst.len (overwrite (dst.arr.drop dst.len)
          (E.ZSTD_decompressDCtx (dst.cap - dst.len) src.bytes).out)).upto
          (wrapInt ((dst.len : Int) +
            toInt (E.ZSTD_decompressDCtx (dst.cap - dst.len) src.bytes).code)) >>=
          fun dst => pure (dst, none)
      else if E.ZSTD_getErrorCode (E.ZSTD_decompressDCtx (dst.cap - dst.len) src.bytes).code
          ≠ E.ZSTD_error_dstSize_tooSmall then
        (dst.store dst.len (overwrite (dst.arr.drop dst.len)
          (E.ZSTD_decompressDCtx (dst.cap - dst.len) src.bytes).out)).upto (dst.len : Int) >>=
          fun d2 => pure (d2, some (GoError.decompression
            (E.ZSTD_decompressDCtx (dst.cap - dst.len) src.bytes).code))
      else decompressSlow E (dst.len : Int)
        (dst.store dst.len (overwrite (dst.arr.drop dst.len)
          (E.ZSTD_decompressDCtx (dst.cap - dst.len) src.bytes).out)) src) =
      ⟨e, o⟩) :
    decompress E dst src =
      ⟨[.native .fast (dst.cap - dst.len) (dst.cap - dst.len)
        (E.ZSTD_decompressDCtx (dst.cap - dst.len) src.bytes)] ++ e, o⟩ := by
  have hg := (guard_iff dst hwf hcap).2 hgt
  have hlt : dst.len < dst.cap := by omega
  unfold decompress
  simp only []
  rw [if_neg hsrc, if_pos hg]
  refine (Run.bind_nil_ret (spare_region hlt)).trans
    (Run.bind_ret (decompressInternal_spare E hlt hsrc) ?_)
  simp only [Int.toNat_natCast]
  exact hT

theorem decompress_direct (E : Env) (dst src : Slice) (hwf : dst.WF)
    (hcap : dst.cap ≤ sizeLimit) (hsrc : src.len ≠ 0) (hng : ¬ dst.len + 1024 < dst.cap) :
    decompress E dst src = decompressSlow E (dst.len : Int) dst src := by
  have hg : ¬ ((dst.cap : Int) > wrapInt ((dst.len : Int) + 1024)) :=
    fun h => hng ((guard_iff dst hwf hcap).1 h)
  unfold decompress
  simp only []
  rw [if_neg hsrc, if_neg hg]

theorem store_isNil (s : Slice) (L : Nat) (mem : List Byte) :
    (s.store L mem).isNil = s.isNil := rfl

theorem decompress_appends (E : Env) (hk : E.HeaderConsts) (hs : E.SlackBounded)
    (dst src : Slice) (hwf : dst.WF) (hcap : dst.cap ≤ sizeLimit) (hsrc : src.len ≠ 0)
    (hfast : dst.len + 1024 < dst.cap →
      Fits (E.ZSTD_decompressDCtx (dst.cap - dst.len) src.bytes) (dst.cap - dst.len) ∨
      TooSmall E (E.ZSTD_decompressDCtx (dst.cap - dst.len) src.bytes))
    (hslow : ¬ (dst.len + 1024 < dst.cap ∧
        Fits (E.ZSTD_decompressDCtx (dst.cap - dst.len) src.bytes) (dst.cap - dst.len)) →
      E.ZSTD_getFrameContentSize src.bytes ≤ sizeLimit ∧
      ∀ k, E.ZSTD_getFrameContentSize src.bytes + 1 ≤ k →
        Fits (E.ZSTD_decompressDCtx k src.bytes) k) :
    ∃ (es : List Event) (r : Slice) (k : Nat),
      decompress E dst src = ⟨es, .ret (r, none)⟩ ∧
      lastNative es = some (k, E.ZSTD_decompressDCtx k src.bytes) ∧
      Fits (E.ZSTD_decompressDCtx k src.bytes) k ∧
      Appends dst (E.ZSTD_decompressDCtx k src.bytes) r := by
  have hle : dst.len ≤ dst.cap := hwf.1
  have hcaplt : dst.cap < 9223372036854775808 := by unfold sizeLimit at hcap; omega
  by_cases hgt : dst.len + 1024 < dst.cap
  · rcases hfast hgt with hF | hT
    · have hc := hF.1
      have hrun2 := decompress_fast E dst src hwf hcap hsrc hgt (e := []) (o := .ret (_, none))
        (by
          rw [if_pos (toInt_fit hc (by omega))]
          exact (Run.bind_nil_ret (upto_fit _ _ _ (by rw [Slice.store_cap _ _ _ hle]; omega)
            (by rw [Slice.store_cap _ _ _ hle]; exact hcaplt))).trans (Run.pure_def _))
      exact ⟨_, _, dst.cap - dst.len, hrun2, lastNative_append_native [] _ _ _ _, hF,
        appends_finish dst dst _ dst.isNil rfl (by omega) hF.2⟩
    · have hneg := toInt_neg_of_isError E hk hT.1
      obtain ⟨hp, hfinal⟩ := hslow (fun h => not_isError_of_fit E hk h.2.1 (by omega) hT.1)
      obtain ⟨es, g, k, hrun, hev, htake, hfit, hF, -⟩ := decompressSlow_ok E hk hs
        (dst.store dst.len (overwrite (dst.arr.drop dst.len)
          (E.ZSTD_decompressDCtx (dst.cap - dst.len) src.bytes).out)) src dst.len
        (by rw [Slice.store_cap _ _ _ hle]; exact hle)
        (by rw [Slice.store_cap _ _ _ hle]; exact hcap) hsrc
        (by rw [Slice.store_cap _ _ _ hle, store_isNil]; exact hwf.2) hp hfinal
      have hrun2 := decompress_fast E dst src hwf hcap hsrc hgt (e := es ++ [_])
        (o := .ret (_, none)) (by
        rw [if_neg (by omega), if_neg (not_not.2 hT.2)]
        exact hrun)
      refine ⟨_, _, k, hrun2, ?_, hF,
        appends_finish dst g _ g.isNil (by rw [htake, store_front _ _ _ hle]; rfl) hfit hF.2⟩
      rw [← List.append_assoc]
      exact lastNative_append_native _ _ _ _ _
  · obtain ⟨hp, hfinal⟩ := hslow (fun h => hgt h.1)
    obtain ⟨es, g, k, hrun, hev, htake, hfit, hF, -⟩ := decompressSlow_ok E hk hs dst src dst.len
      hle hcap hsrc hwf.2 hp hfinal
    exact ⟨_, _, k, (decompress_direct E dst src hwf hcap hsrc hgt).trans hrun,
      lastNative_append_native _ _ _ _ _, hF,
      appends_finish dst g _ g.isNil (by rw [htake]; rfl) hfit hF.2⟩

theorem lastNative_eq (es : List Event) : lastNative es = es.foldl lastStep none := rfl

theorem foldl_lastStep (es : List Event) (acc : Option (Nat × NativeResult)) :
    es.foldl lastStep acc =
      match es.foldl lastStep none with
      | some v => some v
      | none => acc := by
  induction es generalizing acc with
  | nil => rfl
  | cons e t ih =>
    rw [List.foldl_cons, List.foldl_cons, ih (lastStep acc e), ih (lastStep none e)]
    cases h : List.foldl lastStep none t with
    | some v => rfl
    | none => cases e <;> rfl

theorem lastNative_append_some (xs es : List Event) {v : Nat × NativeResult}
    (h : lastNative es = some v) : lastNative (xs ++ es) = some v := by
  rw [lastNative_eq] at h ⊢
  rw [List.foldl_append, foldl_lastStep, h]

theorem appends_congr {dst d r : Slice} {res : NativeResult} (h : Appends dst res d)
    (h1 : r.len = d.len) (h2 : r.len ≤ r.cap) (h3 : r.bytes = d.bytes) : Appends dst res r :=
  ⟨h1.trans h.1, h2, h3.trans h.2.2⟩

theorem lastNative_append_quiet (xs ev : List Event) (s : Site) (l c : Nat)
    (r : NativeResult) (hev : lastNative ev = none) :
    lastNative (xs ++ [.native s l c r] ++ ev) = some (c, r) := by
  have h1 := lastNative_append_native xs s l c r
  rw [lastNative_eq] at hev h1 ⊢
  rw [List.foldl_append, foldl_lastStep, hev, h1]

theorem defrag_spec (E : Env) (d : Slice) (hle : d.len ≤ d.cap)
    (hcap : d.cap < 9223372036854775808) :
    ∃ (ev : List Event) (r : Slice),
      (if wrapInt ((d.cap : Int) - d.len) > 4096 then copyTight E d else pure d) =
        ⟨ev, .ret r⟩ ∧
      lastNative ev = none ∧ r.len = d.len ∧ r.len ≤ r.cap ∧ r.bytes = d.bytes ∧
      ∀ pre : List Event, DefragOf E d (pre ++ ev) r := by
  have hb : d.bytes.length = d.len := by
    unfold Slice.bytes; rw [List.length_take]; exact Nat.min_eq_left hle
  have hw : wrapInt ((d.cap : Int) - d.len) = (d.cap : Int) - d.len :=
    wrapInt_eq (by omega) (by omega)
  rw [hw]
  by_cases hc : (d.cap : Int) - d.len > 4096
  · rw [if_pos hc, copyTight_eq]
    have hgt : d.cap - d.len > 4096 := by omega
    by_cases hz : d.len = 0
    · rw [if_pos hz]
      have hbz : (⟨[], 0, false⟩ : Slice).bytes = d.bytes := by
        unfold Slice.bytes
        rw [hz]; rfl
      exact ⟨_, _, rfl, rfl, hz.symm, Nat.zero_le _, hbz,
        fun _ => Or.inr ⟨hgt, hz.symm, hbz, rfl, Or.inl ⟨hz, rfl⟩⟩⟩
    · rw [if_neg hz]
      have hbt : (⟨d.bytes ++ List.replicate (E.growSlack d.len) 0, d.len, false⟩ : Slice).bytes
          = d.bytes := by
        show List.take d.len (d.bytes ++ _) = d.bytes
        rw [List.take_append_of_le_length (by omega), List.take_of_length_le (by omega)]
      have hcp : (⟨d.bytes ++ List.replicate (E.growSlack d.len) 0, d.len, false⟩ : Slice).cap
          = d.len + E.growSlack d.len := by
        show (d.bytes ++ _ : List Byte).length = _
        rw [List.length_append, hb, List.length_replicate]
      refine ⟨_, _, rfl, rfl, rfl, ?_, hbt, fun pre => Or.inr ⟨hgt, rfl, hbt, rfl,
        Or.inr ⟨hz, hcp, ?_⟩⟩⟩
      · rw [hcp]; exact Nat.le_add_right _ _
      · simp
  · rw [if_neg hc]
    exact ⟨_, _, Run.pure_def _, rfl, rfl, hle, rfl, fun _ => Or.inl ⟨by omega, rfl⟩⟩

theorem compressDict_window (E : Env) (g src : Slice) (cd : CDict) (L B : Nat) (hB0 : B ≠ 0)
    (hsrc : src.len ≠ 0) (hLg : L ≤ g.cap) (hg2 : g.cap < 9223372036854775808)
    (hF : Fits (E.ZSTD_compress_usingCDict (g.cap - L) src.bytes cd) (g.cap - L)) :
    ∃ (ev : List Event) (r : Slice),
      (compressInternalDict E .slow ⟨g.arr.drop L, B, g.isNil⟩ src cd true >>= fun r =>
        (g.store (Int.toNat (L : Int)) r.2).upto (wrapInt ((L : Int) + toInt r.1)) >>=
          fun dst => if wrapInt ((dst.cap : Int) - dst.len) > 4096 then copyTight E dst
            else pure dst) =
        ⟨[.native .slow B (g.cap - L) (E.ZSTD_compress_usingCDict (g.cap - L) src.bytes cd)]
          ++ ev, .ret r⟩ ∧
      lastNative ev = none ∧
      r.len = L + (E.ZSTD_compress_usingCDict (g.cap - L) src.bytes cd).code ∧
      r.len ≤ r.cap ∧
      r.bytes = (⟨(g.store L (overwrite (g.arr.drop L)
        (E.ZSTD_compress_usingCDict (g.cap - L) src.bytes cd).out)).arr,
        L + (E.ZSTD_compress_usingCDict (g.cap - L) src.bytes cd).code, g.isNil⟩ : Slice).bytes ∧
      ∀ pre : List Event, DefragOf E
        ⟨(g.store L (overwrite (g.arr.drop L)
          (E.ZSTD_compress_usingCDict (g.cap - L) src.bytes cd).out)).arr,
          L + (E.ZSTD_compress_usingCDict (g.cap - L) src.bytes cd).code, g.isNil⟩
        (pre ++ ([.native .slow B (g.cap - L)
          (E.ZSTD_compress_usingCDict (g.cap - L) src.bytes cd)] ++ ev)) r := by
  have hcapw := window_cap g L B g.isNil
  have hc := hF.1
  have hx := @compressInternalDict_must_pass E .slow ⟨g.arr.drop L, B, g.isNil⟩ src
    cd hB0 hsrc (by rw [hcapw]; exact Or.inl (toInt_fit hc (by omega)))
  rw [hcapw] at hx
  have hsc := Slice.store_cap g L (overwrite (g.arr.drop L)
    (E.ZSTD_compress_usingCDict (g.cap - L) src.bytes cd).out) hLg
  have hup := upto_fit (g.store L (overwrite (g.arr.drop L)
    (E.ZSTD_compress_usingCDict (g.cap - L) src.bytes cd).out)) L
    (E.ZSTD_compress_usingCDict (g.cap - L) src.bytes cd).code
    (by rw [hsc]; omega) (by rw [hsc]; exact hg2)
  obtain ⟨ev, r, hdf, hev, h1, h2, h3, h4⟩ := defrag_spec E
    ⟨(g.store L (overwrite (g.arr.drop L)
      (E.ZSTD_compress_usingCDict (g.cap - L) src.bytes cd).out)).arr,
      L + (E.ZSTD_compress_usingCDict (g.cap - L) src.bytes cd).code,
      (g.store L (overwrite (g.arr.drop L)
      (E.ZSTD_compress_usingCDict (g.cap - L) src.bytes cd).out)).isNil⟩
    (show L + _ ≤ List.length (Slice.store _ _ _).arr from by
      rw [Slice.store_arr_length _ _ _ hLg]; omega)
    (show List.length (Slice.store _ _ _).arr < 9223372036854775808 from by
      rw [Slice.store_arr_length _ _ _ hLg]; exact hg2)
  refine ⟨ev, r, Run.bind_ret hx ?_, hev, h1, h2, h3,
    fun pre => by rw [← List.append_assoc]; exact h4 _⟩
  simp only [Int.toNat_natCast]
  exact (Run.bind_nil_ret hup).trans hdf

theorem succ_bound (p : Nat) (hp : p ≤ sizeLimit) :
    wrapInt (toInt p + 1) = ((p + 1 : Nat) : Int) := by
  unfold sizeLimit at hp
  have ht : toInt p = (p : Int) := toInt_of_lt (by omega)
  have hw : wrapInt ((p : Int) + 1) = (p : Int) + 1 := wrapInt_eq (by omega) (by omega)
  rw [ht, hw]; push_cast; rfl

theorem compressDictSlow_ok (E : Env) (hs : E.SlackBounded) (dst d src : Slice) (cd : CDict)
    (hL : dst.len ≤ d.cap) (hcap : d.cap ≤ sizeLimit) (hsrc : src.len ≠ 0)
    (hd : d.arr.take dst.len = dst.bytes)
    (hb : E.ZSTD_compressBound src.len ≤ sizeLimit)
    (hfit : ∀ k, E.ZSTD_compressBound src.len + 1 ≤ k →
      Fits (E.ZSTD_compress_usingCDict k src.bytes cd) k) :
    ∃ (es : List Event) (r : Slice) (k : Nat),
      compressDictSlow E (dst.len : Int) d src cd = ⟨es, .ret r⟩ ∧
      lastNative es = some (k, E.ZSTD_compress_usingCDict k src.bytes cd) ∧
      Fits (E.ZSTD_compress_usingCDict k src.bytes cd) k ∧
      Appends dst (E.ZSTD_compress_usingCDict k src.bytes cd) r ∧
      E.ZSTD_compressBound src.len + 1 ≤ k ∧
      ∃ d : Slice, Appends dst (E.ZSTD_compress_usingCDict k src.bytes cd) d ∧
        d.cap = dst.len + k ∧ DefragOf E d es r := by
  have hcb := succ_bound _ hb
  revert hcb hfit hb
  generalize hbdef : E.ZSTD_compressBound src.len = b
  intro hb hfit hcb
  have hB2 : b + 1 ≤ 2 * sizeLimit := by unfold sizeLimit at hb ⊢; omega
  have hBI2 : ((b + 1 : Nat) : Int) ≤ 2 * (sizeLimit : Int) := by exact_mod_cast hB2
  obtain ⟨hn, hhi⟩ := slowN dst.len d.cap ((b + 1 : Nat) : Int) (by omega) hBI2 hL hcap
  obtain ⟨hg1, hg2⟩ := grown_fit E d dst.len (b + 1)
    ((dst.len : Int) + ((b + 1 : Nat) : Int) - d.cap + dst.len) hs hL hcap hB2
    (by omega) (Int.le_refl _)
  have htake := grownBy_take E d ((dst.len : Int) + ((b + 1 : Nat) : Int) - d.cap + dst.len) hL
  have hres := resize_eq E d ((dst.len : Int) + ((b + 1 : Nat) : Int) - d.cap + dst.len)
  have hev := lastNative_growEvents d
    ((dst.len : Int) + ((b + 1 : Nat) : Int) - d.cap + dst.len)
  revert hg1 hg2 htake hres hev
  generalize growEvents d ((dst.len : Int) + ((b + 1 : Nat) : Int) - d.cap + dst.len) = G
  generalize grownBy E d ((dst.len : Int) + ((b + 1 : Nat) : Int) - d.cap + dst.len) = g
  intro hg1 hg2 htake hres hev
  have hLg : dst.len ≤ g.cap := by omega
  have hF := hfit (g.cap - dst.len) (by omega)
  have hc := hF.1
  obtain ⟨ev, r, hwin, hev2, h1, h2, h3, h4⟩ :=
    compressDict_window E g src cd dst.len (b + 1) (by omega) hsrc hLg hg2 hF
  have hAd := appends_finish dst g _ g.isNil (by rw [htake, hd]) (by omega) hF.2
  have hA := appends_congr hAd h1 h2 h3
  have hdc : (⟨(g.store dst.len (overwrite (g.arr.drop dst.len)
      (E.ZSTD_compress_usingCDict (g.cap - dst.len) src.bytes cd).out)).arr,
      dst.len + (E.ZSTD_compress_usingCDict (g.cap - dst.len) src.bytes cd).code,
      g.isNil⟩ : Slice).cap = dst.len + (g.cap - dst.len) := by
    show List.length (Slice.store _ _ _).arr = _
    rw [Slice.store_arr_length _ _ _ hLg]; omega
  refine ⟨(.bound b :: G) ++ [.native .slow (b + 1) (g.cap - dst.len)
    (E.ZSTD_compress_usingCDict (g.cap - dst.len) src.bytes cd)] ++ ev, r, g.cap - dst.len,
    ?_, lastNative_append_quiet _ _ _ _ _ _ hev2, hF, hA, by omega,
    ⟨_, hAd, hdc, by rw [List.append_assoc]; exact h4 _⟩⟩
  unfold compressDictSlow
  simp only []
  rw [hbdef, List.cons_append, List.cons_append, List.append_assoc]
  refine Run.emit_bind _ ?_
  rw [hcb, hn, hhi]
  exact Run.bind_ret hres ((Run.bind_nil_ret (window_slice g dst.len (b + 1) hg1)).trans hwin)

theorem compressDict_fast (E : Env) (dst src : Slice) (cd : CDict) (hsrc : src.len ≠ 0)
    (hlt : dst.len < dst.cap) {e : List Event} {o : Outcome Slice}
    (hT : (if toInt (E.ZSTD_compress_usingCDict (dst.cap - dst.len) src.bytes cd).code ≥ 0 then
        (dst.store dst.len (overwrite (dst.arr.drop dst.len)
          (E.ZSTD_compress_usingCDict (dst.cap - dst.len) src.bytes cd).out)).upto
          (wrapInt ((dst.len : Int) +
            toInt (E.ZSTD_compress_usingCDict (dst.cap - dst.len) src.bytes cd).code))
      else if E.ZSTD_getErrorCode
          (E.ZSTD_compress_usingCDict (dst.cap - dst.len) src.bytes cd).code
          ≠ E.ZSTD_error_dstSize_tooSmall then
        Run.panic (.bug (E.ZSTD_compress_usingCDict (dst.cap - dst.len) src.bytes cd).code)
      else compressDictSlow E (dst.len : Int)
        (dst.store dst.len (overwrite (dst.arr.drop dst.len)
          (E.ZSTD_compress_usingCDict (dst.cap - dst.len) src.bytes cd).out)) src cd) =
      ⟨e, o⟩) :
    compressDict E dst src cd =
      ⟨[.native .fast (dst.cap - dst.len) (dst.cap - dst.len)
        (E.ZSTD_compress_usingCDict (dst.cap - dst.len) src.bytes cd)] ++ e, o⟩ := by
  have hc : (dst.cap : Int) > dst.len := by exact_mod_cast hlt
  unfold compressDict
  simp only []
  rw [if_neg hsrc, if_pos hc]
  refine (Run.bind_nil_ret (spare_region hlt)).trans
    (Run.bind_ret (compressInternalDict_spare E cd hlt hsrc) ?_)
  simp only [Int.toNat_natCast]
  exact hT

theorem compressDict_direct (E : Env) (dst src : Slice) (cd : CDict) (hsrc : src.len ≠ 0)
    (hng : ¬ dst.len < dst.cap) :
    compressDict E dst src cd = compressDictSlow E (dst.len : Int) dst src cd := by
  have hc : ¬ ((dst.cap : Int) > dst.len) := fun h => hng (by exact_mod_cast h)
  unfold compressDict
  simp only []
  rw [if_neg hsrc, if_neg hc]

theorem compressDict_appends (E : Env) (hk : E.HeaderConsts) (hs : E.SlackBounded)
    (dst src : Slice) (cd : CDict) (hwf : dst.WF) (hcap : dst.cap ≤ sizeLimit)
    (hsrc : src.len ≠ 0)
    (hfast : dst.len < dst.cap →
      Fits (E.ZSTD_compress_usingCDict (dst.cap - dst.len) src.bytes cd) (dst.cap - dst.len) ∨
      TooSmall E (E.ZSTD_compress_usingCDict (dst.cap - dst.len) src.bytes cd))
    (hslow : ¬ (dst.len < dst.cap ∧
        Fits (E.ZSTD_compress_usingCDict (dst.cap - dst.len) src.bytes cd)
          (dst.cap - dst.len)) →
      E.ZSTD_compressBound src.len ≤ sizeLimit ∧
      ∀ k, E.ZSTD_compressBound src.len + 1 ≤ k →
        Fits (E.ZSTD_compress_usingCDict k src.bytes cd) k) :
    ∃ (es : List Event) (r : Slice) (k : Nat),
      compressDict E dst src cd = ⟨es, .ret r⟩ ∧
      lastNative es = some (k, E.ZSTD_compress_usingCDict k src.bytes cd) ∧
      Fits (E.ZSTD_compress_usingCDict k src.bytes cd) k ∧
      Appends dst (E.ZSTD_compress_usingCDict k src.bytes cd) r := by
  have hle : dst.len ≤ dst.cap := hwf.1
  have hcaplt : dst.cap < 9223372036854775808 := by unfold sizeLimit at hcap; omega
  by_cases hlt : dst.len < dst.cap
  · rcases hfast hlt with hF | hT
    · have hc := hF.1
      have hrun2 := compressDict_fast E dst src cd hsrc hlt (e := []) (o := .ret _) (by
        rw [if_pos (toInt_fit hc (by omega))]
        exact upto_fit _ _ _ (by rw [Slice.store_cap _ _ _ hle]; omega)
          (by rw [Slice.store_cap _ _ _ hle]; exact hcaplt))
      exact ⟨_, _, dst.cap - dst.len, hrun2, lastNative_append_native [] _ _ _ _, hF,
        appends_finish dst dst _ dst.isNil rfl (by omega) hF.2⟩
    · have hneg := toInt_neg_of_isError E hk hT.1
      obtain ⟨hb, hfinal⟩ := hslow (fun h => not_isError_of_fit E hk h.2.1 (by omega) hT.1)
      obtain ⟨es, r, k, hrun, hev, hF, hA, -⟩ := compressDictSlow_ok E hs dst
        (dst.store dst.len (overwrite (dst.arr.drop dst.len)
          (E.ZSTD_compress_usingCDict (dst.cap - dst.len) src.bytes cd).out)) src cd
        (by rw [Slice.store_cap _ _ _ hle]; exact hle)
        (by rw [Slice.store_cap _ _ _ hle]; exact hcap) hsrc
        (by rw [store_front _ _ _ hle]; rfl) hb hfinal
      have hrun2 := compressDict_fast E dst src cd hsrc hlt (e := es) (o := .ret r) (by
        rw [if_neg (by omega), if_neg (not_not.2 hT.2)]
        exact hrun)
      exact ⟨_, _, k, hrun2, lastNative_append_some _ _ hev, hF, hA⟩
  · obtain ⟨hb, hfinal⟩ := hslow (fun h => hlt h.1)
    obtain ⟨es, r, k, hrun, hev, hF, hA, -⟩ := compressDictSlow_ok E hs dst dst src cd hle hcap
      hsrc rfl hb hfinal
    exact ⟨_, _, k, (compressDict_direct E dst src cd hsrc hlt).trans hrun, hev, hF, hA⟩

theorem decompressDict_window (E : Env) (g src : Slice) (dd : DDict) (L B : Nat) (hB0 : B ≠ 0)
    (hsrc : src.len ≠ 0) (hLg : L ≤ g.cap) (hg2 : g.cap < 9223372036854775808)
    (hF : Fits (E.ZSTD_decompress_usingDDict (g.cap - L) src.bytes dd) (g.cap - L)) :
    ∃ (ev : List Event) (r : Slice),
      (decompressInternalDict E .slow ⟨g.arr.drop L, B, g.isNil⟩ src dd >>= fun r =>
        if toInt r.1 ≥ 0 then
          (g.store (Int.toNat (L : Int)) r.2).upto (wrapInt ((L : Int) + toInt r.1)) >>=
            fun d1 => (if wrapInt ((d1.cap : Int) - d1.len) > 4096 then copyTight E d1
              else pure d1) >>= fun d2 => pure (d2, none)
        else
          (g.store (Int.toNat (L : Int)) r.2).upto (L : Int) >>=
            fun d1 => pure (d1, some (GoError.decompression r.1))) =
        ⟨[.native .slow B (g.cap - L) (E.ZSTD_decompress_usingDDict (g.cap - L) src.bytes dd)]
          ++ ev, .ret (r, none)⟩ ∧
      lastNative ev = none ∧
      r.len = L + (E.ZSTD_decompress_usingDDict (g.cap - L) src.bytes dd).code ∧
      r.len ≤ r.cap ∧
      r.bytes = (⟨(g.store L (overwrite (g.arr.drop L)
        (E.ZSTD_decompress_usingDDict (g.cap - L) src.bytes dd).out)).arr,
        L + (E.ZSTD_decompress_usingDDict (g.cap - L) src.bytes dd).code, g.isNil⟩ :
          Slice).bytes ∧
      ∀ pre : List Event, DefragOf E
        ⟨(g.store L (overwrite (g.arr.drop L)
          (E.ZSTD_decompress_usingDDict (g.cap - L) src.bytes dd).out)).arr,
          L + (E.ZSTD_decompress_usingDDict (g.cap - L) src.bytes dd).code, g.isNil⟩
        (pre ++ ([.native .slow B (g.cap - L)
          (E.ZSTD_decompress_usingDDict (g.cap - L) src.bytes dd)] ++ ev)) r := by
  have hcapw := window_cap g L B g.isNil
  have hc := hF.1
  have hx := @decompressInternalDict_eq E .slow ⟨g.arr.drop L, B, g.isNil⟩ src dd hB0 hsrc
  rw [hcapw] at hx
  have hsc := Slice.store_cap g L (overwrite (g.arr.drop L)
    (E.ZSTD_decompress_usingDDict (g.cap - L) src.bytes dd).out) hLg
  have hup := upto_fit (g.store L (overwrite (g.arr.drop L)
    (E.ZSTD_decompress_usingDDict (g.cap - L) src.bytes dd).out)) L
    (E.ZSTD_decompress_usingDDict (g.cap - L) src.bytes dd).code
    (by rw [hsc]; omega) (by rw [hsc]; exact hg2)
  obtain ⟨ev, r, hdf, hev, h1, h2, h3, h4⟩ := defrag_spec E
    ⟨(g.store L (overwrite (g.arr.drop L)
      (E.ZSTD_decompress_usingDDict (g.cap - L) src.bytes dd).out)).arr,
      L + (E.ZSTD_decompress_usingDDict (g.cap - L) src.bytes dd).code,
      (g.store L (overwrite (g.arr.drop L)
      (E.ZSTD_decompress_usingDDict (g.cap - L) src.bytes dd).out)).isNil⟩
    (show L + _ ≤ List.length (Slice.store _ _ _).arr from by
      rw [Slice.store_arr_length _ _ _ hLg]; omega)
    (show List.length (Slice.store _ _ _).arr < 9223372036854775808 from by
      rw [Slice.store_arr_length _ _ _ hLg]; exact hg2)
  refine ⟨ev, r, Run.bind_ret hx ?_, hev, h1, h2, h3,
    fun pre => by rw [← List.append_assoc]; exact h4 _⟩
  simp only [Int.toNat_natCast]
  rw [if_pos (toInt_fit hc (by omega))]
  exact (Run.bind_nil_ret hup).trans (Run.bind_ret_nil hdf (Run.pure_def _))

theorem decompressDictSlow_ok (E : Env) (hk : E.HeaderConsts) (hs : E.SlackBounded)
    (dst d src : Slice) (dd : DDict)
    (hL : dst.len ≤ d.cap) (hcap : d.cap ≤ sizeLimit) (hsrc : src.len ≠ 0)
    (hd : d.arr.take dst.len = dst.bytes)
    (hp : E.ZSTD_getFrameContentSize src.bytes ≤ sizeLimit)
    (hfit : ∀ k, E.ZSTD_getFrameContentSize src.bytes + 1 ≤ k →
      Fits (E.ZSTD_decompress_usingDDict k src.bytes dd) k) :
    ∃ (es : List Event) (r : Slice) (k : Nat),
      decompressDictSlow E (dst.len : Int) d src dd = ⟨es, .ret (r, none)⟩ ∧
      lastNative es = some (k, E.ZSTD_decompress_usingDDict k src.bytes dd) ∧
      Fits (E.ZSTD_decompress_usingDDict k src.bytes dd) k ∧
      Appends dst (E.ZSTD_decompress_usingDDict k src.bytes dd) r ∧
      E.ZSTD_getFrameContentSize src.bytes + 1 ≤ k ∧
      ∃ d : Slice, Appends dst (E.ZSTD_decompress_usingDDict k src.bytes dd) d ∧
        d.cap = dst.len + k ∧ DefragOf E d es r := by
  obtain ⟨hu, he, hdb⟩ := probe_known E hk _ hp
  revert hu he hdb hfit hp
  generalize hpdef : E.ZSTD_getFrameContentSize src.bytes = p
  intro hp hfit hu he hdb
  have hB2 : p + 1 ≤ 2 * sizeLimit := by unfold sizeLimit at hp ⊢; omega
  have hBI2 : ((p + 1 : Nat) : Int) ≤ 2 * (sizeLimit : Int) := by exact_mod_cast hB2
  obtain ⟨hn, hhi⟩ := decompN dst.len d.cap ((p + 1 : Nat) : Int) (by omega) hBI2 hL hcap
  obtain ⟨hg1, hg2⟩ := grown_fit E d dst.len (p + 1)
    ((dst.len : Int) + ((p + 1 : Nat) : Int) - d.cap) hs hL hcap hB2
    (Int.le_refl _) (by omega)
  have htake := grownBy_take E d ((dst.len : Int) + ((p + 1 : Nat) : Int) - d.cap) hL
  have hres := resize_eq E d ((dst.len : Int) + ((p + 1 : Nat) : Int) - d.cap)
  have hev := lastNative_growEvents d ((dst.len : Int) + ((p + 1 : Nat) : Int) - d.cap)
  revert hg1 hg2 htake hres hev
  generalize growEvents d ((dst.len : Int) + ((p + 1 : Nat) : Int) - d.cap) = G
  generalize grownBy E d ((dst.len : Int) + ((p + 1 : Nat) : Int) - d.cap) = g
  intro hg1 hg2 htake hres hev
  have hLg : dst.len ≤ g.cap := by omega
  have hF := hfit (g.cap - dst.len) (by omega)
  have hc := hF.1
  obtain ⟨ev, r, hwin, hev2, h1, h2, h3, h4⟩ :=
    decompressDict_window E g src dd dst.len (p + 1) (by omega) hsrc hLg hg2 hF
  have hAd := appends_finish dst g _ g.isNil (by rw [htake, hd]) (by omega) hF.2
  have hA := appends_congr hAd h1 h2 h3
  have hdc : (⟨(g.store dst.len (overwrite (g.arr.drop dst.len)
      (E.ZSTD_decompress_usingDDict (g.cap - dst.len) src.bytes dd).out)).arr,
      dst.len + (E.ZSTD_decompress_usingDDict (g.cap - dst.len) src.bytes dd).code,
      g.isNil⟩ : Slice).cap = dst.len + (g.cap - dst.len) := by
    show List.length (Slice.store _ _ _).arr = _
    rw [Slice.store_arr_length _ _ _ hLg]; omega
  refine ⟨(.probe p :: G) ++ [.native .slow (p + 1) (g.cap - dst.len)
    (E.ZSTD_decompress_usingDDict (g.cap - dst.len) src.bytes dd)] ++ ev, r, g.cap - dst.len,
    ?_, lastNative_append_quiet _ _ _ _ _ _ hev2, hF, hA, by omega,
    ⟨_, hAd, hdc, by rw [List.append_assoc]; exact h4 _⟩⟩
  unfold decompressDictSlow
  simp only []
  rw [hpdef, List.cons_append, List.cons_append, List.append_assoc]
  refine Run.emit_bind _ ?_
  rw [if_neg hu, if_neg he, hdb, hn, hhi]
  exact Run.bind_ret hres ((Run.bind_nil_ret (window_slice g dst.len (p + 1) hg1)).trans hwin)

theorem decompressDict_fast (E : Env) (dst src : Slice) (dd : DDict) (hsrc : src.len ≠ 0)
    (hlt : dst.len < dst.cap) {e : List Event} {o : Outcome (Slice × Option GoError)}
    (hT : (if toInt (E.ZSTD_decompress_usingDDict (dst.cap - dst.len) src.bytes dd).code ≥ 0
      then
        (dst.store dst.len (overwrite (dst.arr.drop dst.len)
          (E.ZSTD_decompress_usingDDict (dst.cap - dst.len) src.bytes dd).out)).upto
          (wrapInt ((dst.len : Int) +
            toInt (E.ZSTD_decompress_usingDDict (dst.cap - dst.len) src.bytes dd).code)) >>=
          fun d1 => pure (d1, none)
      else if E.ZSTD_getErrorCode
          (E.ZSTD_decompress_usingDDict (dst.cap - dst.len) src.bytes dd).code
          ≠ E.ZSTD_error_dstSize_tooSmall then
        (dst.store dst.len (overwrite (dst.arr.drop dst.len)
          (E.ZSTD_decompress_usingDDict (dst.cap - dst.len) src.bytes dd).out)).upto
            (dst.len : Int) >>=
          fun d1 => pure (d1, some (GoError.decompression
            (E.ZSTD_decompress_usingDDict (dst.cap - dst.len) src.bytes dd).code))
      else decompressDictSlow E (dst.len : Int)
        (dst.store dst.len (overwrite (dst.arr.drop dst.len)
          (E.ZSTD_decompress_usingDDict (dst.cap - dst.len) src.bytes dd).out)) src dd) =
      ⟨e, o⟩) :
    decompressDict E dst src dd =
      ⟨[.native .fast (dst.cap - dst.len) (dst.cap - dst.len)
        (E.ZSTD_decompress_usingDDict (dst.cap - dst.len) src.bytes dd)] ++ e, o⟩ := by
  have hc : (dst.cap : Int) > dst.len := by exact_mod_cast hlt
  unfold decompressDict
  simp only []
  rw [if_neg hsrc, if_pos hc]
  refine (Run.bind_nil_ret (spare_region hlt)).trans
    (Run.bind_ret (decompressInternalDict_spare E dd hlt hsrc) ?_)
  simp only [Int.toNat_natCast]
  exact hT

theorem decompressDict_direct (E : Env) (dst src : Slice) (dd : DDict) (hsrc : src.len ≠ 0)
    (hng : ¬ dst.len < dst.cap) :
    decompressDict E dst src dd = decompressDictSlow E (dst.len : Int) dst src dd := by
  have hc : ¬ ((dst.cap : Int) > dst.len) := fun h => hng (by exact_mod_cast h)
  unfold decompressDict
  simp only []
  rw [if_neg hsrc, if_neg hc]

theorem decompressDict_appends (E : Env) (hk : E.HeaderConsts) (hs : E.SlackBounded)
    (dst src : Slice) (dd : DDict) (hwf : dst.WF) (hcap : dst.cap ≤ sizeLimit)
    (hsrc : src.len ≠ 0)
    (hfast : dst.len < dst.cap →
      Fits (E.ZSTD_decompress_usingDDict (dst.cap - dst.len) src.bytes dd) (dst.cap - dst.len) ∨
      TooSmall E (E.ZSTD_decompress_usingDDict (dst.cap - dst.len) src.bytes dd))
    (hslow : ¬ (dst.len < dst.cap ∧
        Fits (E.ZSTD_decompress_usingDDict (dst.cap - dst.len) src.bytes dd)
          (dst.cap - dst.len)) →
      E.ZSTD_getFrameContentSize src.bytes ≤ sizeLimit ∧
      ∀ k, E.ZSTD_getFrameContentSize src.bytes + 1 ≤ k →
        Fits (E.ZSTD_decompress_usingDDict k src.bytes dd) k) :
    ∃ (es : List Event) (r : Slice) (k : Nat),
      decompressDict E dst src dd = ⟨es, .ret (r, none)⟩ ∧
      lastNative es = some (k, E.ZSTD_decompress_usingDDict k src.bytes dd) ∧
      Fits (E.ZSTD_decompress_usingDDict k src.bytes dd) k ∧
      Appends dst (E.ZSTD_decompress_usingDDict k src.bytes dd) r := by
  have hle : dst.len ≤ dst.cap := hwf.1
  have hcaplt : dst.cap < 9223372036854775808 := by unfold sizeLimit at hcap; omega
  by_cases hlt : dst.len < dst.cap
  · rcases hfast hlt with hF | hT
    · have hc := hF.1
      have hrun2 := decompressDict_fast E dst src dd hsrc hlt (e := []) (o := .ret (_, none))
        (by
          rw [if_pos (toInt_fit hc (by omega))]
          exact (Run.bind_nil_ret (upto_fit _ _ _ (by rw [Slice.store_cap _ _ _ hle]; omega)
            (by rw [Slice.store_cap _ _ _ hle]; exact hcaplt))).trans (Run.pure_def _))
      exact ⟨_, _, dst.cap - dst.len, hrun2, lastNative_append_native [] _ _ _ _, hF,
        appends_finish dst dst _ dst.isNil rfl (by omega) hF.2⟩
    · have hneg := toInt_neg_of_isError E hk hT.1
      obtain ⟨hp, hfinal⟩ := hslow (fun h => not_isError_of_fit E hk h.2.1 (by omega) hT.1)
      obtain ⟨es, r, k, hrun, hev, hF, hA, -⟩ := decompressDictSlow_ok E hk hs dst
        (dst.store dst.len (overwrite (dst.arr.drop dst.len)
          (E.ZSTD_decompress_usingDDict (dst.cap - dst.len) src.bytes dd).out)) src dd
        (by rw [Slice.store_cap _ _ _ hle]; exact hle)
        (by rw [Slice.store_cap _ _ _ hle]; exact hcap) hsrc
        (by rw [store_front _ _ _ hle]; rfl) hp hfinal
      have hrun2 := decompressDict_fast E dst src dd hsrc hlt (e := es) (o := .ret (r, none))
        (by
          rw [if_neg (by omega), if_neg (not_not.2 hT.2)]
          exact hrun)
      exact ⟨_, _, k, hrun2, lastNative_append_some _ _ hev, hF, hA⟩
  · obtain ⟨hp, hfinal⟩ := hslow (fun h => hlt h.1)
    obtain ⟨es, r, k, hrun, hev, hF, hA, -⟩ := decompressDictSlow_ok E hk hs dst dst src dd hle
      hcap hsrc rfl hp hfinal
    exact ⟨_, _, k, (decompressDict_direct E dst src dd hsrc hlt).trans hrun, hev, hF, hA⟩


/-! ## C12: defragmentation on the slow paths of the dictionary variants -/

theorem defragOf_append {E : Env} {d r : Slice} {es : List Event} (pre : List Event)
    (h : DefragOf E d es r) : DefragOf E d (pre ++ es) r := by
  rcases h with h | ⟨h1, h2, h3, h4, h5 | ⟨h5, h6, h7⟩⟩
  · exact Or.inl h
  · exact Or.inr ⟨h1, h2, h3, h4, Or.inl h5⟩
  · refine Or.inr ⟨h1, h2, h3, h4, Or.inr ⟨h5, h6, ?_⟩⟩
    cases es with
    | nil => cases h7
    | cons a t =>
      rw [List.getLast?_eq_getLast _ (List.cons_ne_nil _ _)] at h7
      rw [List.getLast?_eq_getLast _ (by simp),
        List.getLast_append_of_ne_nil (List.cons_ne_nil _ _)]
      exact h7

theorem defragOf_slack {E : Env} {d r : Slice} {es : List Event} (h : DefragOf E d es r)
    (hg : E.growSlack r.len ≤ 4096) : r.cap - r.len ≤ 4096 := by
  rcases h with ⟨h1, h2⟩ | ⟨h1, h2, h3, h4, ⟨h5, h6⟩ | ⟨h5, h6, h7⟩⟩
  · rw [h2]; exact h1
  · omega
  · rw [h2] at hg ⊢; omega

theorem compressDict_defrag (E : Env) (hk : E.HeaderConsts) (hs : E.SlackBounded)
    (dst src : Slice) (cd : CDict) (hwf : dst.WF) (hcap : dst.cap ≤ sizeLimit)
    (hsrc : src.len ≠ 0)
    (hfast : dst.len < dst.cap →
      TooSmall E (E.ZSTD_compress_usingCDict (dst.cap - dst.len) src.bytes cd))
    (hb : E.ZSTD_compressBound src.len ≤ sizeLimit)
    (hfinal : ∀ k, E.ZSTD_compressBound src.len + 1 ≤ k →
      Fits (E.ZSTD_compress_usingCDict k src.bytes cd) k) :
    ∃ (es : List Event) (r : Slice) (k : Nat) (d : Slice),
      compressDict E dst src cd = ⟨es, .ret r⟩ ∧
      lastNative es = some (k, E.ZSTD_compress_usingCDict k src.bytes cd) ∧
      E.ZSTD_compressBound src.len + 1 ≤ k ∧
      Appends dst (E.ZSTD_compress_usingCDict k src.bytes cd) d ∧
      d.cap = dst.len + k ∧ DefragOf E d es r ∧
      Appends dst (E.ZSTD_compress_usingCDict k src.bytes cd) r ∧
      (E.growSlack r.len ≤ 4096 → r.cap - r.len ≤ 4096) := by
  have hle : dst.len ≤ dst.cap := hwf.1
  have hcaplt : dst.cap < 9223372036854775808 := by unfold sizeLimit at hcap; omega
  by_cases hlt : dst.len < dst.cap
  · have hT := hfast hlt
    have hneg := toInt_neg_of_isError E hk hT.1
    obtain ⟨es, r, k, hrun, hev, hF, hA, hkb, d, hAd, hdc, hD⟩ := compressDictSlow_ok E hs dst
      (dst.store dst.len (overwrite (dst.arr.drop dst.len)
        (E.ZSTD_compress_usingCDict (dst.cap - dst.len) src.bytes cd).out)) src cd
      (by rw [Slice.store_cap _ _ _ hle]; exact hle)
      (by rw [Slice.store_cap _ _ _ hle]; exact hcap) hsrc
      (by rw [store_front _ _ _ hle]; rfl) hb hfinal
    have hrun2 := compressDict_fast E dst src cd hsrc hlt (e := es) (o := .ret r) (by
      rw [if_neg (by omega), if_neg (not_not.2 hT.2)]
      exact hrun)
    exact ⟨_, _, k, d, hrun2, lastNative_append_some _ _ hev, hkb, hAd, hdc,
      defragOf_append _ hD, hA, defragOf_slack hD⟩
  · obtain ⟨es, r, k, hrun, hev, hF, hA, hkb, d, hAd, hdc, hD⟩ :=
      compressDictSlow_ok E hs dst dst src cd hle hcap hsrc rfl hb hfinal
    exact ⟨_, _, k, d, (compressDict_direct E dst src cd hsrc hlt).trans hrun, hev, hkb, hAd,
      hdc, hD, hA, defragOf_slack hD⟩

theorem decompressDict_defrag (E : Env) (hk : E.HeaderConsts) (hs : E.SlackBounded)
    (dst src : Slice) (dd : DDict) (hwf : dst.WF) (hcap : dst.cap ≤ sizeLimit)
    (hsrc : src.len ≠ 0)
    (hfast : dst.len < dst.cap →
      TooSmall E (E.ZSTD_decompress_usingDDict (dst.cap - dst.len) src.bytes dd))
    (hp : E.ZSTD_getFrameContentSize src.bytes ≤ sizeLimit)
    (hfinal : ∀ k, E.ZSTD_getFrameContentSize src.bytes + 1 ≤ k →
      Fits (E.ZSTD_decompress_usingDDict k src.bytes dd) k) :
    ∃ (es : List Event) (r : Slice) (k : Nat) (d : Slice),
      decompressDict E dst src dd = ⟨es, .ret (r, none)⟩ ∧
      lastNative es = some (k, E.ZSTD_decompress_usingDDict k src.bytes dd) ∧
      E.ZSTD_getFrameContentSize src.bytes + 1 ≤ k ∧
      Appends dst (E.ZSTD_decompress_usingDDict k src.bytes dd) d ∧
      d.cap = dst.len + k ∧ DefragOf E d es r ∧
      Appends dst (E.ZSTD_decompress_usingDDict k src.bytes dd) r ∧
      (E.growSlack r.len ≤ 4096 → r.cap - r.len ≤ 4096) := by
  have hle : dst.len ≤ dst.cap := hwf.1
  have hcaplt : dst.cap < 9223372036854775808 := by unfold sizeLimit at hcap; omega
  by_cases hlt : dst.len < dst.cap
  · have hT := hfast hlt
    have hneg := toInt_neg_of_isError E hk hT.1
    obtain ⟨es, r, k, hrun, hev, hF, hA, hkb, d, hAd, hdc, hD⟩ := decompressDictSlow_ok E hk hs
      dst (dst.store dst.len (overwrite (dst.arr.drop dst.len)
        (E.ZSTD_decompress_usingDDict (dst.cap - dst.len) src.bytes dd).out)) src dd
      (by rw [Slice.store_cap _ _ _ hle]; exact hle)
      (by rw [Slice.store_cap _ _ _ hle]; exact hcap) hsrc
      (by rw [store_front _ _ _ hle]; rfl) hp hfinal
    have hrun2 := decompressDict_fast E dst src dd hsrc hlt (e := es) (o := .ret (r, none))
      (by
        rw [if_neg (by omega), if_neg (not_not.2 hT.2)]
        exact hrun)
    exact ⟨_, _, k, d, hrun2, lastNative_append_some _ _ hev, hkb, hAd, hdc,
      defragOf_append _ hD, hA, defragOf_slack hD⟩
  · obtain ⟨es, r, k, hrun, hev, hF, hA, hkb, d, hAd, hdc, hD⟩ :=
      decompressDictSlow_ok E hk hs dst dst src dd hle hcap hsrc rfl hp hfinal
    exact ⟨_, _, k, d, (decompressDict_direct E dst src dd hsrc hlt).trans hrun, hev, hkb, hAd,
      hdc, hD, hA, defragOf_slack hD⟩

theorem compressDict_asis (E : Env) (dst src : Slice) (cd : CDict) (hwf : dst.WF)
    (hcap : dst.cap ≤ sizeLimit) (hsrc : src.len ≠ 0) (hlt : dst.len < dst.cap)
    (hF : Fits (E.ZSTD_compress_usingCDict (dst.cap - dst.len) src.bytes cd)
      (dst.cap - dst.len)) :
    ∃ r : Slice, compressDict E dst src cd =
        ⟨[.native .fast (dst.cap - dst.len) (dst.cap - dst.len)
          (E.ZSTD_compress_usingCDict (dst.cap - dst.len) src.bytes cd)], .ret r⟩ ∧
      r.cap = dst.cap ∧
      r.len = dst.len + (E.ZSTD_compress_usingCDict (dst.cap - dst.len) src.bytes cd).code := by
  obtain ⟨hok, h0, h1, h2⟩ := fit_range dst hwf hcap hF.1
  have h := compressDict_fast_ok E dst src cd hlt hsrc hok h0 h1
  rw [h2] at h
  exact ⟨_, h, Slice.store_arr_length _ _ _ (Nat.le_of_lt hlt), rfl⟩

theorem decompressDict_asis (E : Env) (dst src : Slice) (dd : DDict) (hwf : dst.WF)
    (hcap : dst.cap ≤ sizeLimit) (hsrc : src.len ≠ 0) (hlt : dst.len < dst.cap)
    (hF : Fits (E.ZSTD_decompress_usingDDict (dst.cap - dst.len) src.bytes dd)
      (dst.cap - dst.len)) :
    ∃ r : Slice, decompressDict E dst src dd =
        ⟨[.native .fast (dst.cap - dst.len) (dst.cap - dst.len)
          (E.ZSTD_decompress_usingDDict (dst.cap - dst.len) src.bytes dd)], .ret (r, none)⟩ ∧
      r.cap = dst.cap ∧
      r.len = dst.len +
        (E.ZSTD_decompress_usingDDict (dst.cap - dst.len) src.bytes dd).code := by
  obtain ⟨hok, h0, h1, h2⟩ := fit_range dst hwf hcap hF.1
  have h := decompressDict_fast_ok E dst src dd hlt hsrc hok h0 h1
  rw [h2] at h
  exact ⟨_, h, Slice.store_arr_length _ _ _ (Nat.le_of_lt hlt), rfl⟩

theorem src5000_len : src5000.len = 5000 := by
  unfold src5000 Slice.ofBytes
  exact List.length_replicate _ _

theorem packEnv_bound : packEnv.ZSTD_compressBound src5000.len = 5080 := by
  rw [src5000_len]
  show (CompressBound ((5000 : Nat) : Int)).toNat = 5080
  rw [CompressBound_exact 5000 (by decide)]
  decide

theorem packEnv_fits (src : List Byte) (cd : CDict) (k : Nat) (h : 1 ≤ k) :
    packEnv.ZSTD_compress_usingCDict k src cd = ⟨1, [40]⟩ := by
  show (if 1 ≤ k then (⟨1, [40]⟩ : NativeResult) else ⟨errResult 70, []⟩) = _
  rw [if_pos h]

theorem full33000_cap : full33000.cap = 33000 := by
  unfold full33000 Slice.cap
  exact List.length_replicate _ _

theorem pageEnv_slack : pageEnv.SlackBounded := by
  intro m
  show (if m > 32768 then (8192 - m % 8192) % 8192 else 0) ≤ sizeLimit
  unfold sizeLimit
  split <;> omega

theorem pageEnv_fits (src : List Byte) (cd : CDict) (k : Nat) (h : 1 ≤ k) :
    pageEnv.ZSTD_compress_usingCDict k src cd = ⟨1, [40]⟩ := packEnv_fits src cd k h

theorem pageEnv_copy :
    ∃ (es : List Event) (r : Slice),
      CompressDict pageEnv full33000 src5000 ⟨0⟩ = ⟨es, .ret r⟩ ∧
      es.getLast? = some (.grow 33001) ∧ r.len = 33001 ∧ r.cap - r.len = 7959 := by
  have hcap := full33000_cap
  have hlen : full33000.len = 33000 := rfl
  have hwf : full33000.WF := ⟨by rw [hcap, hlen], fun h => by cases h⟩
  have hlim : full33000.cap ≤ sizeLimit := by rw [hcap]; decide
  have hb : pageEnv.ZSTD_compressBound src5000.len = 5080 := packEnv_bound
  have hsrc : src5000.len ≠ 0 := by rw [src5000_len]; decide
  obtain ⟨es, r, k, d, hrun, hev, hkb, hAd, hdc, hD, hA, -⟩ :=
    compressDict_defrag pageEnv (by decide) pageEnv_slack full33000 src5000 ⟨0⟩ hwf hlim hsrc
      (fun h => absurd h (by rw [hcap, hlen]; decide)) (by rw [hb]; decide)
      (fun k h => by
        rw [hb] at h
        rw [pageEnv_fits _ _ k (by omega)]
        exact ⟨(by omega : 1 ≤ k), rfl⟩)
  rw [hb] at hkb
  rw [pageEnv_fits _ _ k (by omega)] at hAd hA
  have hdl : d.len = 33001 := hAd.1
  have hdcap : d.cap = 33000 + k := hdc
  have hrl : r.len = 33001 := hA.1
  have hg : pageEnv.growSlack 33001 = 7959 := by decide
  rcases hD with ⟨h1, -⟩ | ⟨-, -, -, -, ⟨h5, -⟩ | ⟨-, h6, h7⟩⟩
  · omega
  · omega
  · rw [hdl] at h6 h7
    rw [hg] at h6
    exact ⟨es, r, hrun, h7, hrl, by omega⟩

/-- C12 as stated fails on the fast path: with `len(dst) = 0`, `cap(dst) = 4200`
and a 3-byte `src`, `CompressDict` makes the fast-path call only (no copy
follows) and returns a buffer with `cap - len = 4196 > 4096`; so does a
successful `DecompressDict`, with `cap - len = 4197`.  Its last clause fails
on the slow path too, once the runtime rounds allocations as the Go allocator
does: with a full `dst` of 33000 bytes and a 5000-byte `src` that compresses
to one byte, the slow path ends with the copy `append([]byte{}, dst...)` of
33001 bytes, which the runtime places in an array of 40960 bytes, 7959 more
than the length. -/
theorem C12_counterexample :
    (∃ r, CompressDict refEnv spare4200 (Slice.ofBytes [1, 2, 3]) ⟨0⟩ =
      ⟨[.native .fast 4200 4200 ⟨4, [40, 1, 2, 3]⟩], .ret r⟩ ∧ r.cap - r.len = 4196) ∧
    (∃ r, DecompressDict refEnv spare4200 (Slice.ofBytes [40, 1, 2, 3]) ⟨0⟩ =
      ⟨[.native .fast 4200 4200 ⟨3, [1, 2, 3]⟩], .ret (r, none)⟩ ∧ r.cap - r.len = 4197) ∧
    (∃ (es : List Event) (r : Slice),
      CompressDict pageEnv full33000 src5000 ⟨0⟩ = ⟨es, .ret r⟩ ∧
      es.getLast? = some (.grow 33001) ∧ r.len = 33001 ∧ r.cap - r.len = 7959) := by
  have hcap := spare4200_cap
  have hlen : spare4200.len = 0 := rfl
  have hd : spare4200.cap - spare4200.len = 4200 := by rw [hcap, hlen]
  have hlt : spare4200.len < spare4200.cap := by rw [hcap, hlen]; decide
  have hwf : spare4200.WF := ⟨Nat.le_of_lt hlt, fun h => by cases h⟩
  have hlim : spare4200.cap ≤ sizeLimit := by rw [hcap]; decide
  refine ⟨?_, ?_, pageEnv_copy⟩
  · have hres : refEnv.ZSTD_compress_usingCDict (spare4200.cap - spare4200.len)
        (Slice.ofBytes [1, 2, 3]).bytes ⟨0⟩ = ⟨4, [40, 1, 2, 3]⟩ := by rw [hd]; rfl
    have hfit : (refEnv.ZSTD_compress_usingCDict (spare4200.cap - spare4200.len)
        (Slice.ofBytes [1, 2, 3]).bytes ⟨0⟩).code ≤ spare4200.cap - spare4200.len := by
      rw [hres, hd]; decide
    obtain ⟨hok, h0, h1, h2⟩ := fit_range spare4200 hwf hlim hfit
    have h := compressDict_fast_ok refEnv spare4200 (Slice.ofBytes [1, 2, 3]) ⟨0⟩ hlt
      (by decide) hok h0 h1
    rw [h2, hres, hd] at h
    refine ⟨_, h, ?_⟩
    rw [Slice.slack_mk, Slice.store_arr_length _ _ _ (Nat.le_of_lt hlt), hcap, hlen]
    rfl
  · have hres : refEnv.ZSTD_decompress_usingDDict (spare4200.cap - spare4200.len)
        (Slice.ofBytes [40, 1, 2, 3]).bytes ⟨0⟩ = ⟨3, [1, 2, 3]⟩ := by rw [hd]; rfl
    have hfit : (refEnv.ZSTD_decompress_usingDDict (spare4200.cap - spare4200.len)
        (Slice.ofBytes [40, 1, 2, 3]).bytes ⟨0⟩).code ≤ spare4200.cap - spare4200.len := by
      rw [hres, hd]; decide
    obtain ⟨hok, h0, h1, h2⟩ := fit_range spare4200 hwf hlim hfit
    have h := decompressDict_fast_ok refEnv spare4200 (Slice.ofBytes [40, 1, 2, 3]) ⟨0⟩ hlt
      (by decide) hok h0 h1
    rw [h2, hres, hd] at h
    refine ⟨_, h, ?_⟩
    rw [Slice.slack_mk, Slice.store_arr_length _ _ _ (Nat.le_of_lt hlt), hcap, hlen]
    rfl

/-- C12 (as amended): for a well-formed `dst` of addressable capacity and a
non-empty input, over native calls that fit their region.  When `CompressDict`
reaches its slow path (`dst` has no spare capacity, or the fast-path call
reported destination-too-small), or `DecompressDict` reaches its slow path on
a frame that declares its size, the run returns, and what it returns is tied
to the buffer `d` that the slow path holds before line 86 (line 168): `d` is
`dst` with the output of the last native call appended, in the grown array of
capacity `len(dst) + k`, where `k >= bound + 1` is the capacity of the region
given to that call.  With at most 4096 bytes of slack `d` is returned; with
more, the result is a copy with the bytes and the length of `d`, made as the
last step by `append([]byte{}, d...)`, whose capacity is its length plus the
spare capacity the runtime gave it; so the result carries at most 4096 bytes
of slack whenever the runtime gives such a copy no more than that.  When the
fast-path call fits, it is the only event: the buffer is returned as it is,
with the capacity of `dst`, whatever its slack. -/
theorem C12_slow_path_defragmentation (E : Env) (hk : E.HeaderConsts) (hs : E.SlackBounded)
    (dst src frame : Slice) (cd : CDict) (dd : DDict)
    (hwf : dst.WF) (hcap : dst.cap ≤ sizeLimit) (hsrc : src.len ≠ 0)
    (hframe : frame.len ≠ 0) :
    ((dst.len < dst.cap →
        TooSmall E (E.ZSTD_compress_usingCDict (dst.cap - dst.len) src.bytes cd)) →
      E.ZSTD_compressBound src.len ≤ sizeLimit →
      (∀ k, E.ZSTD_compressBound src.len + 1 ≤ k →
        Fits (E.ZSTD_compress_usingCDict k src.bytes cd) k) →
      ∃ (es : List Event) (r : Slice) (k : Nat) (d : Slice),
        CompressDict E dst src cd = ⟨es, .ret r⟩ ∧
        lastNative es = some (k, E.ZSTD_compress_usingCDict k src.bytes cd) ∧
        E.ZSTD_compressBound src.len + 1 ≤ k ∧
        Appends dst (E.ZSTD_compress_usingCDict k src.bytes cd) d ∧
        d.cap = dst.len + k ∧ DefragOf E d es r ∧
        Appends dst (E.ZSTD_compress_usingCDict k src.bytes cd) r ∧
        (E.growSlack r.len ≤ 4096 → r.cap - r.len ≤ 4096)) ∧
    (dst.len < dst.cap →
      Fits (E.ZSTD_compress_usingCDict (dst.cap - dst.len) src.bytes cd) (dst.cap - dst.len) →
      ∃ r : Slice, CompressDict E dst src cd =
          ⟨[.native .fast (dst.cap - dst.len) (dst.cap - dst.len)
            (E.ZSTD_compress_usingCDict (dst.cap - dst.len) src.bytes cd)], .ret r⟩ ∧
        r.cap = dst.cap ∧
        r.len = dst.len +
          (E.ZSTD_compress_usingCDict (dst.cap - dst.len) src.bytes cd).code) ∧
    ((dst.len < dst.cap →
        TooSmall E (E.ZSTD_decompress_usingDDict (dst.cap - dst.len) frame.bytes dd)) →
      E.ZSTD_getFrameContentSize frame.bytes ≤ sizeLimit →
      (∀ k, E.ZSTD_getFrameContentSize frame.bytes + 1 ≤ k →
        Fits (E.ZSTD_decompress_usingDDict k frame.bytes dd) k) →
      ∃ (es : List Event) (r : Slice) (k : Nat) (d : Slice),
        DecompressDict E dst frame dd = ⟨es, .ret (r, none)⟩ ∧
        lastNative es = some (k, E.ZSTD_decompress_usingDDict k frame.bytes dd) ∧
        E.ZSTD_getFrameContentSize frame.bytes + 1 ≤ k ∧
        Appends dst (E.ZSTD_decompress_usingDDict k frame.bytes dd) d ∧
        d.cap = dst.len + k ∧ DefragOf E d es r ∧
        Appends dst (E.ZSTD_decompress_usingDDict k frame.bytes dd) r ∧
        (E.growSlack r.len ≤ 4096 → r.cap - r.len ≤ 4096)) ∧
    (dst.len < dst.cap →
      Fits (E.ZSTD_decompress_usingDDict (dst.cap - dst.len) frame.bytes dd)
        (dst.cap - dst.len) →
      ∃ r : Slice, DecompressDict E dst frame dd =
          ⟨[.native .fast (dst.cap - dst.len) (dst.cap - dst.len)
            (E.ZSTD_decompress_usingDDict (dst.cap - dst.len) frame.bytes dd)],
            .ret (r, none)⟩ ∧
        r.cap = dst.cap ∧
        r.len = dst.len +
          (E.ZSTD_decompress_usingDDict (dst.cap - dst.len) frame.bytes dd).code) :=
  ⟨fun hfast hb hfinal => compressDict_defrag E hk hs dst src cd hwf hcap hsrc hfast hb hfinal,
    fun hlt hF => compressDict_asis E dst src cd hwf hcap hsrc hlt hF,
    fun hfast hp hfinal =>
      decompressDict_defrag E hk hs dst frame dd hwf hcap hframe hfast hp hfinal,
    fun hlt hF => decompressDict_asis E dst frame dd hwf hcap hframe hlt hF⟩

/-- C12 at a codec that packs its input into one byte, a one-byte `dst`
without spare capacity and a 5000-byte `src`: the slow path of `CompressDict`
grows `dst` for the bound of 5081 bytes, the native call writes one byte, and
the buffer `d` of length 2 holds more than 4096 bytes of slack; the run ends
with the copy, and returns the two bytes in a buffer of capacity 2. -/
theorem C12_slow_path_defragmentation_witness :
    (Slice.ofBytes [9]).WF ∧ (Slice.ofBytes [9]).cap ≤ sizeLimit ∧ src5000.len ≠ 0 ∧
    packEnv.ZSTD_compressBound src5000.len ≤ sizeLimit ∧
    ∃ (es : List Event) (r : Slice) (k : Nat) (d : Slice),
      CompressDict packEnv (Slice.ofBytes [9]) src5000 ⟨0⟩ = ⟨es, .ret r⟩ ∧
      lastNative es = some (k, ⟨1, [40]⟩) ∧
      5081 ≤ k ∧ Appends (Slice.ofBytes [9]) ⟨1, [40]⟩ d ∧ d.cap = 1 + k ∧
      DefragOf packEnv d es r ∧
      d.cap - d.len > 4096 ∧ es.getLast? = some (.grow 2) ∧
      r.len = 2 ∧ r.bytes = [9, 40] ∧ r.cap = 2 := by
  have hb : packEnv.ZSTD_compressBound src5000.len ≤ sizeLimit := by
    rw [packEnv_bound]; decide
  have hsrc : src5000.len ≠ 0 := by rw [src5000_len]; decide
  refine ⟨by decide, by decide, hsrc, hb, ?_⟩
  obtain ⟨es, r, k, d, hrun, hev, hkb, hAd, hdc, hD, hA, -⟩ :=
    (C12_slow_path_defragmentation packEnv (by decide) (fun _ => Nat.zero_le _)
      (Slice.ofBytes [9]) src5000 (Slice.ofBytes [40, 1, 2, 3]) ⟨0⟩ ⟨0⟩ (by decide) (by decide)
      hsrc (by decide)).1 (fun h => absurd h (by decide)) hb
      (fun k h => by
        rw [packEnv_fits _ _ k (by omega)]
        exact ⟨(by omega : 1 ≤ k), rfl⟩)
  rw [packEnv_bound] at hkb
  rw [packEnv_fits _ _ k (by omega)] at hev hAd hA
  have hdl : d.len = 2 := hAd.1
  have hdcap : d.cap = 1 + k := hdc
  have hgt : d.cap - d.len > 4096 := by omega
  have hrl : r.len = 2 := hA.1
  have hrb : r.bytes = [9, 40] := hA.2.2
  have hg0 : packEnv.growSlack 2 = 0 := rfl
  have key : r.cap = 2 ∧ es.getLast? = some (.grow 2) := by
    rcases hD with ⟨h1, -⟩ | ⟨-, -, -, -, ⟨h5, -⟩ | ⟨-, h6, h7⟩⟩
    · omega
    · omega
    · rw [hdl] at h6 h7
      rw [hg0] at h6
      exact ⟨h6, h7⟩
  exact ⟨es, r, k, d, hrun, hev, hkb, hAd, hdc, hD, hgt, key.2, hrl, hrb, key.1⟩

theorem refEnv_final (src : Slice) (k : Nat) (lvl : Int) (hlim : src.len ≤ sizeLimit)
    (hk : (CompressBound src.len + 1).toNat ≤ k) :
    Fits (refEnv.ZSTD_compressCCtx k src.bytes lvl) k := by
  have hb := (bound_range src.len hlim).2.1
  have hl : src.bytes.length ≤ src.len := by
    unfold Slice.bytes; rw [List.length_take]; exact Nat.min_le_left _ _
  have hc : src.bytes.length + 1 ≤ k := by omega
  change Fits (refCompress k src.bytes) k
  unfold refCompress
  rw [if_pos hc]
  exact ⟨hc, rfl⟩

/-- C7: for a well-formed `dst` of addressable capacity and a non-empty input,
`CompressLevel`, `CompressDict`, `Decompress` and `DecompressDict` return
(every slice expression on the way is in range), the decompressors with a nil
error, whenever the native calls behave as follows: the fast-path call, when
`dst` has the spare capacity for it, either fits its region or reports
destination-too-small; and, unless the fast-path call fitted, the bound of the
slow path is an addressable size (for the decompressors: the frame declares
its content size) and the native call on a region of at least the bound fits.
The result then has length `len(dst) + n` within its capacity, where `n` is
the size the last native call of the run reported, and its bytes are the bytes
of `dst` followed by the bytes that call wrote. -/
theorem C7_append_semantics (E : Env) (hk : E.HeaderConsts) (hs : E.SlackBounded)
    (dst src frame : Slice) (level : Int) (cd : CDict) (dd : DDict)
    (hwf : dst.WF) (hcap : dst.cap ≤ sizeLimit) (hsrc : src.len ≠ 0)
    (hframe : frame.len ≠ 0) :
    (src.len ≤ sizeLimit →
      (dst.len + 1024 < dst.cap →
        Fits (E.ZSTD_compressCCtx (dst.cap - dst.len) src.bytes level) (dst.cap - dst.len) ∨
        TooSmall E (E.ZSTD_compressCCtx (dst.cap - dst.len) src.bytes level)) →
      (¬ (dst.len + 1024 < dst.cap ∧
          Fits (E.ZSTD_compressCCtx (dst.cap - dst.len) src.bytes level) (dst.cap - dst.len)) →
        ∀ k, (CompressBound src.len + 1).toNat ≤ k →
          Fits (E.ZSTD_compressCCtx k src.bytes level) k) →
      ∃ (es : List Event) (r : Slice) (k : Nat),
        CompressLevel E dst src level = ⟨es, .ret r⟩ ∧
        lastNative es = some (k, E.ZSTD_compressCCtx k src.bytes level) ∧
        Fits (E.ZSTD_compressCCtx k src.bytes level) k ∧
        Appends dst (E.ZSTD_compressCCtx k src.bytes level) r) ∧
    ((dst.len < dst.cap →
        Fits (E.ZSTD_compress_usingCDict (dst.cap - dst.len) src.bytes cd) (dst.cap - dst.len) ∨
        TooSmall E (E.ZSTD_compress_usingCDict (dst.cap - dst.len) src.bytes cd)) →
      (¬ (dst.len < dst.cap ∧
          Fits (E.ZSTD_compress_usingCDict (dst.cap - dst.len) src.bytes cd)
            (dst.cap - dst.len)) →
        E.ZSTD_compressBound src.len ≤ sizeLimit ∧
        ∀ k, E.ZSTD_compressBound src.len + 1 ≤ k →
          Fits (E.ZSTD_compress_usingCDict k src.bytes cd) k) →
      ∃ (es : List Event) (r : Slice) (k : Nat),
        CompressDict E dst src cd = ⟨es, .ret r⟩ ∧
        lastNative es = some (k, E.ZSTD_compress_usingCDict k src.bytes cd) ∧
        Fits (E.ZSTD_compress_usingCDict k src.bytes cd) k ∧
        Appends dst (E.ZSTD_compress_usingCDict k src.bytes cd) r) ∧
    ((dst.len + 1024 < dst.cap →
        Fits (E.ZSTD_decompressDCtx (dst.cap - dst.len) frame.bytes) (dst.cap - dst.len) ∨
        TooSmall E (E.ZSTD_decompressDCtx (dst.cap - dst.len) frame.bytes)) →
      (¬ (dst.len + 1024 < dst.cap ∧
          Fits (E.ZSTD_decompressDCtx (dst.cap - dst.len) frame.bytes) (dst.cap - dst.len)) →
        E.ZSTD_getFrameContentSize frame.bytes ≤ sizeLimit ∧
        ∀ k, E.ZSTD_getFrameContentSize frame.bytes + 1 ≤ k →
          Fits (E.ZSTD_decompressDCtx k frame.bytes) k) →
      ∃ (es : List Event) (r : Slice) (k : Nat),
        Decompress E dst frame = ⟨es, .ret (r, none)⟩ ∧
        lastNative es = some (k, E.ZSTD_decompressDCtx k frame.bytes) ∧
        Fits (E.ZSTD_decompressDCtx k frame.bytes) k ∧
        Appends dst (E.ZSTD_decompressDCtx k frame.bytes) r) ∧
    ((dst.len < dst.cap →
        Fits (E.ZSTD_decompress_usingDDict (dst.cap - dst.len) frame.bytes dd)
          (dst.cap - dst.len) ∨
        TooSmall E (E.ZSTD_decompress_usingDDict (dst.cap - dst.len) frame.bytes dd)) →
      (¬ (dst.len < dst.cap ∧
          Fits (E.ZSTD_decompress_usingDDict (dst.cap - dst.len) frame.bytes dd)
            (dst.cap - dst.len)) →
        E.ZSTD_getFrameContentSize frame.bytes ≤ sizeLimit ∧
        ∀ k, E.ZSTD_getFrameContentSize frame.bytes + 1 ≤ k →
          Fits (E.ZSTD_decompress_usingDDict k frame.bytes dd) k) →
      ∃ (es : List Event) (r : Slice) (k : Nat),
        DecompressDict E dst frame dd = ⟨es, .ret (r, none)⟩ ∧
        lastNative es = some (k, E.ZSTD_decompress_usingDDict k frame.bytes dd) ∧
        Fits (E.ZSTD_decompress_usingDDict k frame.bytes dd) k ∧
        Appends dst (E.ZSTD_decompress_usingDDict k frame.bytes dd) r) :=
  ⟨fun hlim hfast hslow =>
      compress_appends E hk hs dst src level hwf hcap hsrc hlim hfast hslow,
    fun hfast hslow =>
      compressDict_appends E hk hs dst src cd hwf hcap hsrc hfast hslow,
    fun hfast hslow =>
      decompress_appends E hk hs dst frame hwf hcap hframe hfast hslow,
    fun hfast hslow =>
      decompressDict_appends E hk hs dst frame dd hwf hcap hframe hfast hslow⟩

/-- C7 at three inputs.  With the reference codec, a one-byte `dst` without
spare capacity and a 3-byte `src`, `CompressLevel` goes through the slow path
and returns `dst` with the frame appended.  With a codec whose frames declare
no content size, `Decompress` into a `dst` of length 1 and capacity 1031, and
`DecompressDict` into a `dst` of length 1 and capacity 8, decode on the fast
path and return `dst` with the decoded bytes appended; the size probe is never
consulted. -/
theorem C7_append_semantics_witness :
    (∃ (es : List Event) (r : Slice) (k : Nat),
      CompressLevel refEnv (Slice.ofBytes [9]) (Slice.ofBytes [1, 2, 3]) 3 = ⟨es, .ret r⟩ ∧
      lastNative es = some (k, refEnv.ZSTD_compressCCtx k (Slice.ofBytes [1, 2, 3]).bytes 3) ∧
      Fits (refEnv.ZSTD_compressCCtx k (Slice.ofBytes [1, 2, 3]).bytes 3) k ∧
      Appends (Slice.ofBytes [9]) (refEnv.ZSTD_compressCCtx k (Slice.ofBytes [1, 2, 3]).bytes 3)
        r) ∧
    streamFailEnv.ZSTD_getFrameContentSize (Slice.ofBytes [40, 1, 2, 3]).bytes =
      streamFailEnv.ZSTD_CONTENTSIZE_UNKNOWN ∧
    (∃ (es : List Event) (r : Slice) (k : Nat),
      Decompress streamFailEnv dst1of1031 (Slice.ofBytes [40, 1, 2, 3]) = ⟨es, .ret (r, none)⟩ ∧
      lastNative es = some (k, streamFailEnv.ZSTD_decompressDCtx k
        (Slice.ofBytes [40, 1, 2, 3]).bytes) ∧
      Fits (streamFailEnv.ZSTD_decompressDCtx k (Slice.ofBytes [40, 1, 2, 3]).bytes) k ∧
      Appends dst1of1031
        (streamFailEnv.ZSTD_decompressDCtx k (Slice.ofBytes [40, 1, 2, 3]).bytes) r) ∧
    (∃ (es : List Event) (r : Slice) (k : Nat),
      DecompressDict streamFailEnv ⟨[9, 0, 0, 0, 0, 0, 0, 0], 1, false⟩
        (Slice.ofBytes [40, 1, 2, 3]) ⟨0⟩ = ⟨es, .ret (r, none)⟩ ∧
      lastNative es = some (k, streamFailEnv.ZSTD_decompress_usingDDict k
        (Slice.ofBytes [40, 1, 2, 3]).bytes ⟨0⟩) ∧
      Fits (streamFailEnv.ZSTD_decompress_usingDDict k (Slice.ofBytes [40, 1, 2, 3]).bytes ⟨0⟩) k ∧
      Appends ⟨[9, 0, 0, 0, 0, 0, 0, 0], 1, false⟩
        (streamFailEnv.ZSTD_decompress_usingDDict k (Slice.ofBytes [40, 1, 2, 3]).bytes ⟨0⟩) r) :=
  ⟨(C7_append_semantics refEnv (by decide) (fun _ => Nat.zero_le _) (Slice.ofBytes [9])
      (Slice.ofBytes [1, 2, 3]) (Slice.ofBytes [40, 1, 2, 3]) 3 ⟨0⟩ ⟨0⟩ (by decide) (by decide)
      (by decide) (by decide)).1 (by decide) (fun h => absurd h (by decide))
      (fun _ k h => refEnv_final _ k 3 (by decide) h),
    rfl,
    (C7_append_semantics streamFailEnv (by decide) (fun _ => Nat.zero_le _) dst1of1031
      (Slice.ofBytes [1, 2, 3]) (Slice.ofBytes [40, 1, 2, 3]) 3 ⟨0⟩ ⟨0⟩
      (by with_unfolding_all decide) (by with_unfolding_all decide)
      (by decide) (by decide)).2.2.1 (fun _ => Or.inl (by with_unfolding_all decide))
      (fun h => absurd ⟨by with_unfolding_all decide, by with_unfolding_all decide⟩ h),
    (C7_append_semantics streamFailEnv (by decide) (fun _ => Nat.zero_le _)
      ⟨[9, 0, 0, 0, 0, 0, 0, 0], 1, false⟩
      (Slice.ofBytes [1, 2, 3]) (Slice.ofBytes [40, 1, 2, 3]) 3 ⟨0⟩ ⟨0⟩ (by decide) (by decide)
      (by decide) (by decide)).2.2.2 (fun _ => Or.inl (by decide))
      (fun h => absurd ⟨by decide, by decide⟩ h)⟩

theorem compress_empty (E : Env) (dst src : Slice) (level : Int) (h : src.len = 0) :
    compress E dst src level = ⟨[], .ret dst⟩ := by
  have h1 : (src.len : Int) = 0 := by exact_mod_cast h
  unfold compress
  simp only []
  rw [if_pos h1]; rfl

theorem decompress_empty (E : Env) (dst src : Slice) (h : src.len = 0) :
    decompress E dst src = ⟨[], .ret (dst, none)⟩ := by
  unfold decompress
  rw [if_pos h]; rfl

theorem compress_nil_frame (E : Env) (hk : E.HeaderConsts) (src : Slice) (level : Int)
    (frame : List Byte) (hsrc : src.len ≠ 0) (hlim : src.len ≤ sizeLimit)
    (hfl : frame.length ≤ (CompressBound src.len + 1).toNat)
    (hc : ∀ k, frame.length ≤ k →
      E.ZSTD_compressCCtx k src.bytes level = ⟨frame.length, frame⟩) :
    ∃ (es : List Event) (c : Slice), compress E Slice.null src level = ⟨es, .ret c⟩ ∧
      c.bytes = frame ∧ c.len = frame.length := by
  obtain ⟨-, -, hBlt, -⟩ := fresh_bound src.len hlim
  have hres := hc _ hfl
  have hcomp := compress_nil_ok E src level hsrc hlim
    (by rw [hres]; exact not_isError_of_fit E hk hfl hBlt) (by rw [hres]; exact hfl)
  have hA := appends_fresh (CompressBound src.len + 1).toNat
    (E.ZSTD_compressCCtx (CompressBound src.len + 1).toNat src.bytes level)
    (by rw [hres]; exact hfl) (by rw [hres])
  refine ⟨_, _, hcomp, ?_, ?_⟩
  · rw [hA.2.2, hres]; rfl
  · rw [hres]

theorem decompress_nil_frame (E : Env) (hk : E.HeaderConsts) (hs : E.SlackBounded)
    (c : Slice) (S : List Byte) (hc0 : c.len ≠ 0) (hS : S.length ≤ sizeLimit)
    (hsz : E.ZSTD_getFrameContentSize c.bytes = S.length)
    (hd : ∀ k, S.length ≤ k → E.ZSTD_decompressDCtx k c.bytes = ⟨S.length, S⟩) :
    ∃ (es : List Event) (d : Slice), decompress E Slice.null c = ⟨es, .ret (d, none)⟩ ∧
      d.bytes = S := by
  have hp : E.ZSTD_getFrameContentSize c.bytes ≤ sizeLimit := by rw [hsz]; exact hS
  have hfit : ∀ k, E.ZSTD_getFrameContentSize c.bytes + 1 ≤ k →
      Fits (E.ZSTD_decompressDCtx k c.bytes) k := by
    intro k hk1
    rw [hsz] at hk1
    rw [hd k (by omega)]
    exact ⟨by show S.length ≤ k; omega, rfl⟩
  obtain ⟨es, g, k, hrun, -, htake, hfit2, hF, hkb⟩ := decompressSlow_ok E hk hs Slice.null c
    Slice.null.len (Nat.le_refl _) (by decide) hc0 (fun _ => rfl) hp hfit
  rw [hsz] at hkb
  have hA := appends_finish Slice.null g (E.ZSTD_decompressDCtx k c.bytes) g.isNil htake hfit2
    hF.2
  refine ⟨_, _, (decompress_direct E Slice.null c (by decide) (by decide) hc0
    (by decide)).trans hrun, ?_⟩
  rw [hA.2.2, hd k (by omega)]
  rfl

/-- C1: let `frame` be the compressed form of the bytes of `src` at `level`:
the native compressor writes it whenever the destination holds it, it fits
the bound, it is not empty, its header declares the content size, and the
native decompressor turns it back into the bytes of `src` whenever the
destination holds them. Then `CompressLevel(nil, src, level)` returns a
buffer `c`, and `Decompress(nil, c)` returns, with a nil error, a buffer whose
bytes are exactly the bytes of `src`; for an empty `src` both calls return
their nil `dst` untouched. -/
theorem C1_round_trip (E : Env) (hk : E.HeaderConsts) (hs : E.SlackBounded) (src : Slice)
    (level : Int) (frame : List Byte) (hlim : src.len ≤ sizeLimit)
    (hfr : src.len ≠ 0 → frame ≠ [] ∧ frame.length ≤ (CompressBound src.len + 1).toNat)
    (hc : ∀ k, frame.length ≤ k →
      E.ZSTD_compressCCtx k src.bytes level = ⟨frame.length, frame⟩)
    (hd : ∀ k, src.bytes.length ≤ k →
      E.ZSTD_decompressDCtx k frame = ⟨src.bytes.length, src.bytes⟩)
    (hsz : E.ZSTD_getFrameContentSize frame = src.bytes.length) :
    (∃ (es : List Event) (c : Slice), CompressLevel E Slice.null src level = ⟨es, .ret c⟩ ∧
      ∃ (es2 : List Event) (d : Slice), Decompress E Slice.null c = ⟨es2, .ret (d, none)⟩ ∧
        d.bytes = src.bytes) ∧
    (src.len = 0 → CompressLevel E Slice.null src level = ⟨[], .ret Slice.null⟩ ∧
      Decompress E Slice.null Slice.null = ⟨[], .ret (Slice.null, none)⟩) := by
  have hemp : src.len = 0 → CompressLevel E Slice.null src level = ⟨[], .ret Slice.null⟩ ∧
      Decompress E Slice.null Slice.null = ⟨[], .ret (Slice.null, none)⟩ :=
    fun h0 => ⟨compress_empty E Slice.null src level h0, decompress_empty E _ _ rfl⟩
  refine ⟨?_, hemp⟩
  by_cases hsrc : src.len = 0
  · refine ⟨_, _, (hemp hsrc).1, _, _, (hemp hsrc).2, ?_⟩
    unfold Slice.bytes
    rw [hsrc]; rfl
  · obtain ⟨hne, hfl⟩ := hfr hsrc
    obtain ⟨es, c, hrun, hcb, hcl⟩ := compress_nil_frame E hk src level frame hsrc hlim hfl hc
    have hSl : src.bytes.length ≤ sizeLimit := by
      have : src.bytes.length ≤ src.len := by
        unfold Slice.bytes; rw [List.length_take]; exact Nat.min_le_left _ _
      omega
    have hc0 : c.len ≠ 0 := by
      rw [hcl]; exact fun h => hne (List.length_eq_zero.1 h)
    obtain ⟨es2, d, hrun2, hdb⟩ := decompress_nil_frame E hk hs c src.bytes hc0 hSl
      (by rw [hcb]; exact hsz) (by rw [hcb]; exact hd)
    exact ⟨es, c, hrun, es2, d, hrun2, hdb⟩

theorem refEnv_inverse (k : Nat) (lvl : Int) (h : ([40, 1, 2, 3] : List Byte).length ≤ k) :
    refEnv.ZSTD_compressCCtx k (Slice.ofBytes [1, 2, 3]).bytes lvl =
      ⟨([40, 1, 2, 3] : List Byte).length, [40, 1, 2, 3]⟩ := by
  change refCompress k [1, 2, 3] = _
  unfold refCompress
  split
  · rfl
  · rename_i hc
    exact absurd h hc

theorem refEnv_inverse_dec (k : Nat) (h : (Slice.ofBytes [1, 2, 3]).bytes.length ≤ k) :
    refEnv.ZSTD_decompressDCtx k [40, 1, 2, 3] =
      ⟨(Slice.ofBytes [1, 2, 3]).bytes.length, (Slice.ofBytes [1, 2, 3]).bytes⟩ := by
  change refDecompress k [40, 1, 2, 3] = _
  unfold refDecompress
  simp only []
  rw [if_neg (by decide)]
  split
  · rfl
  · rename_i hc
    exact absurd h hc

/-- C1 at the reference codec and the bytes 1, 2, 3. -/
theorem C1_round_trip_witness :
    ∃ (es : List Event) (c : Slice),
      CompressLevel refEnv Slice.null (Slice.ofBytes [1, 2, 3]) 3 = ⟨es, .ret c⟩ ∧
      ∃ (es2 : List Event) (d : Slice),
        Decompress refEnv Slice.null c = ⟨es2, .ret (d, none)⟩ ∧
        d.bytes = (Slice.ofBytes [1, 2, 3]).bytes :=
  (C1_round_trip refEnv (by decide) (fun _ => Nat.zero_le _) (Slice.ofBytes [1, 2, 3]) 3
    [40, 1, 2, 3] (by decide) (fun _ => ⟨by decide, by with_unfolding_all decide⟩)
    (fun k h => refEnv_inverse k 3 h) (fun k h => refEnv_inverse_dec k h) rfl).1

/-! ## C8: the first native call and the spare region -/

theorem inPlace_bind_nil {α β : Type} {x : Run α} {f : α → Run β} {v : α}
    (hx : x = ⟨[], .ret v⟩) (k : Nat) : (x >>= f).callsInPlace k = (f v).callsInPlace k := by
  rw [Run.bind_nil_ret hx]

theorem inPlace_bind_fault {α β : Type} {x : Run α} {f : α → Run β} {es : List Event}
    {e : Fault} (hx : x = ⟨es, .fault e⟩) (k : Nat) :
    (x >>= f).callsInPlace k = inPlaceEvents k es := by
  rw [Run.bind_fault hx]; rfl

theorem inPlace_bind_ret {α β : Type} {x : Run α} {f : α → Run β} {es : List Event} {v : α}
    (hx : x = ⟨es, .ret v⟩) (k : Nat) :
    (x >>= f).callsInPlace k = inPlaceEvents k (es ++ (f v).events) := by
  subst hx; rfl

theorem inPlace_bind_native {α β : Type} {x : Run α} {f : α → Run β} {s : Site} {l c : Nat}
    {r : NativeResult} (hx : ∃ o, x = ⟨[.native s l c r], o⟩) (k : Nat) :
    (x >>= f).callsInPlace k = (c == k) := by
  obtain ⟨o, hx⟩ := hx
  cases o with
  | ret v => rw [inPlace_bind_ret hx]; rfl
  | fault e => rw [inPlace_bind_fault hx]; rfl

theorem inPlace_bind_alloc {α β : Type} {x : Run α} {f : α → Run β} {a : Nat}
    {t : List Event} {v : α} (hx : x = ⟨.alloc a :: t, .ret v⟩) (k : Nat) :
    (x >>= f).callsInPlace k = false := by
  rw [inPlace_bind_ret hx]; rfl

theorem inPlace_emit_probe {β : Type} (p : Nat) (f : Unit → Run β) (k : Nat) :
    (Run.emit (.probe p) >>= f).callsInPlace k = (f ()).callsInPlace k := by
  rw [inPlace_bind_ret (rfl : Run.emit (.probe p) = ⟨[.probe p], .ret ()⟩)]; rfl

theorem inPlace_emit_bound {β : Type} (b : Nat) (f : Unit → Run β) (k : Nat) :
    (Run.emit (.bound b) >>= f).callsInPlace k = (f ()).callsInPlace k := by
  rw [inPlace_bind_ret (rfl : Run.emit (.bound b) = ⟨[.bound b], .ret ()⟩)]; rfl

theorem inPlace_pure {α : Type} (v : α) (k : Nat) : (pure v : Run α).callsInPlace k = false :=
  rfl

theorem inPlace_stream (E : Env) (dst src : Slice) (dd : Option DDict) (k : Nat) :
    (streamDecompress E dst src dd).callsInPlace k = false := rfl

theorem compressInternal_head (E : Env) (site : Site) {dst src : Slice} (level : Int)
    (b : Bool) (hd : dst.len ≠ 0) (hs : src.len ≠ 0) :
    ∃ o, compressInternal E site dst src level b =
      ⟨[.native site dst.len dst.cap (E.ZSTD_compressCCtx dst.cap src.bytes level)], o⟩ := by
  cases b with
  | false => exact ⟨_, compressInternal_free E site level hd hs⟩
  | true =>
    by_cases h : toInt (E.ZSTD_compressCCtx dst.cap src.bytes level).code ≥ 0 ∨
        ¬ isError E (E.ZSTD_compressCCtx dst.cap src.bytes level).code
    · exact ⟨_, compressInternal_must_pass E site level hd hs h⟩
    · rw [not_or, not_not] at h
      exact ⟨_, compressInternal_must_bug E site level hd hs (by omega) h.2⟩

theorem compressInternalDict_head (E : Env) (site : Site) {dst src : Slice} (cd : CDict)
    (b : Bool) (hd : dst.len ≠ 0) (hs : src.len ≠ 0) :
    ∃ o, compressInternalDict E site dst src cd b =
      ⟨[.native site dst.len dst.cap (E.ZSTD_compress_usingCDict dst.cap src.bytes cd)], o⟩ := by
  cases b with
  | false => exact ⟨_, compressInternalDict_free E site cd hd hs⟩
  | true =>
    by_cases h : toInt (E.ZSTD_compress_usingCDict dst.cap src.bytes cd).code ≥ 0 ∨
        ¬ isError E (E.ZSTD_compress_usingCDict dst.cap src.bytes cd).code
    · exact ⟨_, compressInternalDict_must_pass E site cd hd hs h⟩
    · rw [not_or, not_not] at h
      exact ⟨_, compressInternalDict_must_bug E site cd hd hs (by omega) h.2⟩

theorem decompressInternal_bad (E : Env) (site : Site) {dst src : Slice}
    (h : dst.len = 0 ∨ src.len = 0) :
    decompressInternal E site dst src = ⟨[], .fault .outOfRange⟩ := by
  unfold decompressInternal
  rw [if_pos h]; rfl

theorem decompressInternalDict_bad (E : Env) (site : Site) {dst src : Slice} (dd : DDict)
    (h : dst.len = 0 ∨ src.len = 0) :
    decompressInternalDict E site dst src dd = ⟨[], .fault .outOfRange⟩ := by
  unfold decompressInternalDict
  rw [if_pos h]; rfl

/-- The slice expression for the region of a native call followed by the call:
the first native call is on `g[lo:hi]`, of capacity `cap(g) - lo`, when that
expression is in range and not empty; otherwise the run faults before any
native call. -/
theorem window_inPlace {β γ : Type} (I : Slice → Run β) (F : β → Run γ) (g : Slice)
    (lo hi : Int) (k : Nat)
    (hnat : ∀ region : Slice, region.len ≠ 0 →
      ∃ s r o, I region = ⟨[.native s region.len region.cap r], o⟩)
    (hbad : ∀ region : Slice, region.len = 0 → I region = ⟨[], .fault .outOfRange⟩) :
    ((g.slice lo hi >>= fun region => I region >>= F).callsInPlace k = true ↔
      0 ≤ lo ∧ lo ≤ hi ∧ hi ≤ (g.cap : Int) ∧ (hi - lo).toNat ≠ 0 ∧ g.cap - lo.toNat = k) := by
  by_cases hc : 0 ≤ lo ∧ lo ≤ hi ∧ hi ≤ (g.cap : Int)
  · rw [inPlace_bind_nil (Slice.slice_ok hc.1 hc.2.1 hc.2.2)]
    by_cases hz : (hi - lo).toNat = 0
    · rw [inPlace_bind_fault (hbad ⟨g.arr.drop lo.toNat, (hi - lo).toNat, g.isNil⟩ hz)]
      constructor
      · intro h; cases h
      · intro h; exact absurd hz h.2.2.2.1
    · obtain ⟨s, r, o, hI⟩ := hnat ⟨g.arr.drop lo.toNat, (hi - lo).toNat, g.isNil⟩ hz
      rw [inPlace_bind_native ⟨o, hI⟩]
      have hcap : (⟨g.arr.drop lo.toNat, (hi - lo).toNat, g.isNil⟩ : Slice).cap =
          g.cap - lo.toNat := by
        show (g.arr.drop lo.toNat).length = _
        rw [List.length_drop]; rfl
      rw [hcap, beq_iff_eq]
      exact ⟨fun h => ⟨hc.1, hc.2.1, hc.2.2, hz, h⟩, fun h => h.2.2.2.2⟩
  · rw [inPlace_bind_fault (Slice.slice_bad hc)]
    constructor
    · intro h; cases h
    · intro h; exact absurd ⟨h.1, h.2.1, h.2.2.1⟩ hc

/-- The resize step of the slow paths in front of the rest `G` of the run: the
first native call is in place only when nothing is appended. -/
theorem resize_inPlace {γ : Type} (E : Env) (d : Slice) (n : Int) (G : Slice → Run γ)
    (k : Nat) :
    (((if n > 0 then appendZeros E d n else pure d) >>= G).callsInPlace k = true ↔
      ¬ n > 0 ∧ (G d).callsInPlace k = true) := by
  by_cases hn : n > 0
  · rw [if_pos hn, inPlace_bind_alloc (appendZeros_ok E d (by omega))]
    constructor
    · intro h; cases h
    · intro h; exact absurd hn h.1
  · rw [if_neg hn, inPlace_bind_nil (Run.pure_def d)]
    exact ⟨fun h => ⟨hn, h⟩, fun h => h.2⟩

theorem compressSlow_inPlace (E : Env) (L : Int) (d src : Slice) (level : Int) (k : Nat)
    (hsrc : src.len ≠ 0) :
    ((compressSlow E L d src level).callsInPlace k = true ↔
      ¬ wrapInt (wrapInt (wrapInt (L + wrapInt (CompressBound src.len + 1)) - d.cap) + L) > 0 ∧
      0 ≤ L ∧ L ≤ wrapInt (L + wrapInt (CompressBound src.len + 1)) ∧
      wrapInt (L + wrapInt (CompressBound src.len + 1)) ≤ (d.cap : Int) ∧
      (wrapInt (L + wrapInt (CompressBound src.len + 1)) - L).toNat ≠ 0 ∧
      d.cap - L.toNat = k) := by
  unfold compressSlow
  simp only []
  exact (resize_inPlace E d _ _ k).trans (and_congr Iff.rfl
    (window_inPlace (fun region => compressInternal E .slow region src level true) _ d L _ k
      (fun region hz => ⟨_, _, compressInternal_head E .slow level true hz hsrc⟩)
      (fun region hz => compressInternal_bad E .slow level true (Or.inl hz))))

theorem encoderSlow_inPlace (E : Env) (e : Encoder) (L : Int) (d src : Slice)
    (k : Nat) (hsrc : src.len ≠ 0) :
    ((Encoder.compressSlow E e L d src).callsInPlace k = true ↔
      ¬ wrapInt (wrapInt (wrapInt (L + wrapInt (CompressBound src.len + 1)) - d.cap) + L) > 0 ∧
      0 ≤ L ∧ L ≤ wrapInt (L + wrapInt (CompressBound src.len + 1)) ∧
      wrapInt (L + wrapInt (CompressBound src.len + 1)) ≤ (d.cap : Int) ∧
      (wrapInt (L + wrapInt (CompressBound src.len + 1)) - L).toNat ≠ 0 ∧
      d.cap - L.toNat = k) := by
  unfold Encoder.compressSlow
  simp only [EncoderGo.CompressBound_eq]
  exact (resize_inPlace E d _ _ k).trans (and_congr Iff.rfl
    (window_inPlace (fun region => compressInternalE E .slow region src e.compressionLevel) _
      d L _ k
      (fun region hz => ⟨_, _, _, compressInternalE_eq E .slow e.compressionLevel hz hsrc⟩)
      (fun region hz => compressInternalE_bad E .slow e.compressionLevel (Or.inl hz))))

theorem compressDictSlow_inPlace (E : Env) (L : Int) (d src : Slice) (cd : CDict) (k : Nat)
    (hsrc : src.len ≠ 0) :
    ((compressDictSlow E L d src cd).callsInPlace k = true ↔
      ¬ wrapInt (wrapInt (wrapInt
        (L + wrapInt (toInt (E.ZSTD_compressBound src.len) + 1)) - d.cap) + L) > 0 ∧
      0 ≤ L ∧ L ≤ wrapInt (L + wrapInt (toInt (E.ZSTD_compressBound src.len) + 1)) ∧
      wrapInt (L + wrapInt (toInt (E.ZSTD_compressBound src.len) + 1)) ≤ (d.cap : Int) ∧
      (wrapInt (L + wrapInt (toInt (E.ZSTD_compressBound src.len) + 1)) - L).toNat ≠ 0 ∧
      d.cap - L.toNat = k) := by
  unfold compressDictSlow
  simp only []
  rw [inPlace_emit_bound]
  exact (resize_inPlace E d _ _ k).trans (and_congr Iff.rfl
    (window_inPlace (fun region => compressInternalDict E .slow region src cd true) _ d L _ k
      (fun region hz => ⟨_, _, compressInternalDict_head E .slow cd true hz hsrc⟩)
      (fun region hz => compressInternalDict_bad E .slow cd true (Or.inl hz))))

theorem make_inPlace {γ : Type} (n : Int) (G : Slice → Run γ) (k : Nat) :
    (make n >>= G).callsInPlace k = false := by
  by_cases hn : n < 0
  · rw [inPlace_bind_fault (make_bad hn)]; rfl
  · rw [inPlace_bind_alloc (make_ok (by omega))]

theorem decompressSlow_inPlace (E : Env) (L : Int) (d src : Slice) (k : Nat)
    (hsrc : src.len ≠ 0) :
    ((decompressSlow E L d src).callsInPlace k = true ↔
      ¬ wrapUint (toInt (E.ZSTD_getFrameContentSize src.bytes)) =
        toUint E.ZSTD_CONTENTSIZE_UNKNOWN ∧
      ¬ wrapUint (toInt (E.ZSTD_getFrameContentSize src.bytes)) =
        toUint E.ZSTD_CONTENTSIZE_ERROR ∧
      d.isNil = false ∧
      ¬ wrapInt (wrapInt
        (L + wrapInt (toInt (E.ZSTD_getFrameContentSize src.bytes) + 1)) - d.cap) > 0 ∧
      0 ≤ L ∧ L ≤ wrapInt (L + wrapInt (toInt (E.ZSTD_getFrameContentSize src.bytes) + 1)) ∧
      wrapInt (L + wrapInt (toInt (E.ZSTD_getFrameContentSize src.bytes) + 1)) ≤ (d.cap : Int) ∧
      (wrapInt (L + wrapInt (toInt (E.ZSTD_getFrameContentSize src.bytes) + 1)) - L).toNat ≠ 0 ∧
      d.cap - L.toNat = k) := by
  unfold decompressSlow
  simp only []
  rw [inPlace_emit_probe]
  by_cases hu : wrapUint (toInt (E.ZSTD_getFrameContentSize src.bytes)) =
      toUint E.ZSTD_CONTENTSIZE_UNKNOWN
  · rw [if_pos hu, inPlace_stream]
    constructor
    · intro h; cases h
    · intro h; exact absurd hu h.1
  · rw [if_neg hu]
    by_cases he : wrapUint (toInt (E.ZSTD_getFrameContentSize src.bytes)) =
        toUint E.ZSTD_CONTENTSIZE_ERROR
    · rw [if_pos he, inPlace_pure]
      constructor
      · intro h; cases h
      · intro h; exact absurd he h.2.1
    · rw [if_neg he]
      by_cases hnil : d.isNil = true
      · rw [if_pos hnil, make_inPlace]
        constructor
        · intro h; cases h
        · intro h; rw [hnil] at h; exact absurd h.2.2.1 (by decide)
      · rw [if_neg hnil]
        have hnil2 : d.isNil = false := by
          cases h : d.isNil
          · rfl
          · exact absurd h hnil
        exact ((resize_inPlace E d _ _ k).trans (and_congr Iff.rfl
          (window_inPlace (fun region => decompressInternal E .slow region src) _ d L _ k
            (fun region hz => ⟨_, _, _, decompressInternal_eq E .slow hz hsrc⟩)
            (fun region hz => decompressInternal_bad E .slow (Or.inl hz))))).trans
          ⟨fun h => ⟨hu, he, hnil2, h⟩, fun h => h.2.2.2⟩

theorem decompressDictSlow_inPlace (E : Env) (L : Int) (d src : Slice) (dd : DDict) (k : Nat)
    (hsrc : src.len ≠ 0) :
    ((decompressDictSlow E L d src dd).callsInPlace k = true ↔
      ¬ wrapUint (toInt (E.ZSTD_getFrameContentSize src.bytes)) =
        toUint E.ZSTD_CONTENTSIZE_UNKNOWN ∧
      ¬ wrapUint (toInt (E.ZSTD_getFrameContentSize src.bytes)) =
        toUint E.ZSTD_CONTENTSIZE_ERROR ∧
      ¬ wrapInt (wrapInt
        (L + wrapInt (toInt (E.ZSTD_getFrameContentSize src.bytes) + 1)) - d.cap) > 0 ∧
      0 ≤ L ∧ L ≤ wrapInt (L + wrapInt (toInt (E.ZSTD_getFrameContentSize src.bytes) + 1)) ∧
      wrapInt (L + wrapInt (toInt (E.ZSTD_getFrameContentSize src.bytes) + 1)) ≤ (d.cap : Int) ∧
      (wrapInt (L + wrapInt (toInt (E.ZSTD_getFrameContentSize src.bytes) + 1)) - L).toNat ≠ 0 ∧
      d.cap - L.toNat = k) := by
  unfold decompressDictSlow
  simp only []
  rw [inPlace_emit_probe]
  by_cases hu : wrapUint (toInt (E.ZSTD_getFrameContentSize src.bytes)) =
      toUint E.ZSTD_CONTENTSIZE_UNKNOWN
  · rw [if_pos hu, inPlace_stream]
    constructor
    · intro h; cases h
    · intro h; exact absurd hu h.1
  · rw [if_neg hu]
    by_cases he : wrapUint (toInt (E.ZSTD_getFrameContentSize src.bytes)) =
        toUint E.ZSTD_CONTENTSIZE_ERROR
    · rw [if_pos he, inPlace_pure]
      constructor
      · intro h; cases h
      · intro h; exact absurd he h.2.1
    · rw [if_neg he]
      exact ((resize_inPlace E d _ _ k).trans (and_congr Iff.rfl
        (window_inPlace (fun region => decompressInternalDict E .slow region src dd) _ d L _ k
          (fun region hz => ⟨_, _, _, decompressInternalDict_eq E .slow dd hz hsrc⟩)
          (fun region hz => decompressInternalDict_bad E .slow dd (Or.inl hz))))).trans
        ⟨fun h => ⟨hu, he, h⟩, fun h => h.2.2⟩

theorem slow_window_iff (L cap : Nat) (c : Int) (hc0 : 1 ≤ c) (hc : c ≤ 2 * (sizeLimit : Int))
    (hL : L ≤ cap) (hcap : cap ≤ sizeLimit) :
    (¬ wrapInt (wrapInt (wrapInt ((L : Int) + c) - cap) + L) > 0 ∧
      0 ≤ (L : Int) ∧ (L : Int) ≤ wrapInt ((L : Int) + c) ∧
      wrapInt ((L : Int) + c) ≤ (cap : Int) ∧
      (wrapInt ((L : Int) + c) - L).toNat ≠ 0 ∧
      cap - (L : Int).toNat = cap - L) ↔ 2 * (L : Int) + c ≤ cap := by
  obtain ⟨hn, hhi⟩ := slowN L cap c (by omega) hc hL hcap
  rw [hn, hhi]
  constructor
  · intro h; omega
  · intro h
    refine ⟨by omega, by omega, by omega, by omega, by omega, ?_⟩
    rw [Int.toNat_natCast]

theorem decomp_window_iff (L cap p : Nat) (hL : L ≤ cap) (hcap : cap ≤ sizeLimit)
    (hp : p < 18446744073709551616) :
    (¬ wrapUint (toInt p) = 18446744073709551615 ∧
      ¬ wrapUint (toInt p) = 18446744073709551614 ∧
      ¬ wrapInt (wrapInt ((L : Int) + wrapInt (toInt p + 1)) - cap) > 0 ∧
      0 ≤ (L : Int) ∧ (L : Int) ≤ wrapInt ((L : Int) + wrapInt (toInt p + 1)) ∧
      wrapInt ((L : Int) + wrapInt (toInt p + 1)) ≤ (cap : Int) ∧
      (wrapInt ((L : Int) + wrapInt (toInt p + 1)) - L).toNat ≠ 0 ∧
      cap - (L : Int).toNat = cap - L) ↔ L + p + 1 ≤ cap := by
  rw [Int.toNat_natCast]
  unfold toInt wrapInt wrapUint
  unfold sizeLimit at hcap
  constructor
  · intro h; omega
  · intro h
    refine ⟨by omega, by omega, by omega, by omega, by omega, by omega, by omega, rfl⟩

theorem nil_no_room (dst : Slice) (hwf : dst.WF) (hnil : dst.isNil = true) :
    dst.cap = 0 ∧ dst.len = 0 := by
  have h := hwf.2 hnil
  have h1 := hwf.1
  omega

theorem inPlace_compress (E : Env) (dst src : Slice) (level : Int)
    (hwf : dst.WF) (hcap : dst.cap ≤ sizeLimit) (hsrc : src.len ≠ 0)
    (hlim : src.len ≤ sizeLimit) :
    ((compress E dst src level).callsInPlace (dst.cap - dst.len) = true ↔
      dst.cap - dst.len > 1024 ∨
        2 * (dst.len : Int) + (CompressBound src.len + 1) ≤ dst.cap) := by
  have hw1 := hwf.1
  have hs : ¬ ((src.len : Int) = 0) := by omega
  obtain ⟨hb1, hb2, hb3⟩ := bound_range src.len hlim
  have hb4 : CompressBound src.len + 1 ≤ 2 * (sizeLimit : Int) := by
    unfold sizeLimit at hlim ⊢; omega
  unfold compress
  simp only [wrap_len_add dst hcap hwf, hs, if_false]
  by_cases hc : (dst.cap : Int) > dst.len + 1024
  · have hlt : dst.len < dst.cap := by omega
    have hgt : dst.cap - dst.len > 1024 := by omega
    simp only [hc, if_true]
    refine ⟨fun _ => Or.inl hgt, fun _ => ?_⟩
    exact (inPlace_bind_nil (spare_region hlt) _).trans
      ((inPlace_bind_native ⟨_, compressInternal_spare E level false hlt hsrc rfl⟩ _).trans
        (beq_self_eq_true _))
  · simp only [hc, if_false]
    by_cases hnil : dst.isNil = true
    · obtain ⟨h0, h1⟩ := nil_no_room dst hwf hnil
      rw [if_pos hnil, make_inPlace]
      constructor
      · intro h; cases h
      · intro h; omega
    · rw [if_neg hnil, compressSlow_inPlace E _ dst src level _ hsrc, hb1]
      refine (slow_window_iff dst.len dst.cap _ (by omega) hb4 hw1 hcap).trans ?_
      constructor
      · intro h; exact Or.inr h
      · intro h; omega

theorem inPlace_Encoder (E : Env) (e : Encoder) (dst src : Slice)
    (hwf : dst.WF) (hcap : dst.cap ≤ sizeLimit) (hsrc : src.len ≠ 0)
    (hlim : src.len ≤ sizeLimit) :
    ((Encoder.Compress E e dst src).callsInPlace (dst.cap - dst.len) = true ↔
      dst.cap - dst.len > 1024 ∨
        2 * (dst.len : Int) + (CompressBound src.len + 1) ≤ dst.cap) := by
  have hw1 := hwf.1
  have hs : ¬ ((src.len : Int) = 0) := by omega
  obtain ⟨hb1, hb2, hb3⟩ := bound_range src.len hlim
  have hb4 : CompressBound src.len + 1 ≤ 2 * (sizeLimit : Int) := by
    unfold sizeLimit at hlim ⊢; omega
  unfold Encoder.Compress
  simp only [wrap_len_add dst hcap hwf, hs, if_false]
  by_cases hc : (dst.cap : Int) > dst.len + 1024
  · have hlt : dst.len < dst.cap := by omega
    have hgt : dst.cap - dst.len > 1024 := by omega
    simp only [hc, if_true]
    refine ⟨fun _ => Or.inl hgt, fun _ => ?_⟩
    exact (inPlace_bind_nil (spare_region hlt) _).trans
      ((inPlace_bind_native ⟨_, compressInternalE_spare E _ hlt hsrc⟩ _).trans
        (beq_self_eq_true _))
  · simp only [hc, if_false]
    by_cases hnil : dst.isNil = true
    · obtain ⟨h0, h1⟩ := nil_no_room dst hwf hnil
      rw [if_pos hnil, make_inPlace]
      constructor
      · intro h; cases h
      · intro h; omega
    · rw [if_neg hnil, encoderSlow_inPlace E e _ dst src _ hsrc, hb1]
      refine (slow_window_iff dst.len dst.cap _ (by omega) hb4 hw1 hcap).trans ?_
      constructor
      · intro h; exact Or.inr h
      · intro h; omega

theorem inPlace_decompress (E : Env) (hk : E.HeaderConsts) (dst src : Slice)
    (hwf : dst.WF) (hcap : dst.cap ≤ sizeLimit) (hsrc : src.len ≠ 0)
    (hp : E.ZSTD_getFrameContentSize src.bytes < 18446744073709551616) :
    ((decompress E dst src).callsInPlace (dst.cap - dst.len) = true ↔
      dst.cap - dst.len > 1024 ∨
        dst.len + E.ZSTD_getFrameContentSize src.bytes + 1 ≤ dst.cap) := by
  have hw1 := hwf.1
  have hU : toUint E.ZSTD_CONTENTSIZE_UNKNOWN = 18446744073709551615 := by
    rw [hk.1]; exact toUint_of_lt (by decide)
  have hE : toUint E.ZSTD_CONTENTSIZE_ERROR = 18446744073709551614 := by
    rw [hk.2.1]; exact toUint_of_lt (by decide)
  unfold decompress
  simp only [wrap_len_add dst hcap hwf, hsrc, if_false]
  by_cases hc : (dst.cap : Int) > dst.len + 1024
  · have hlt : dst.len < dst.cap := by omega
    have hgt : dst.cap - dst.len > 1024 := by omega
    simp only [hc, if_true]
    refine ⟨fun _ => Or.inl hgt, fun _ => ?_⟩
    exact (inPlace_bind_nil (spare_region hlt) _).trans
      ((inPlace_bind_native ⟨_, decompressInternal_spare E hlt hsrc⟩ _).trans
        (beq_self_eq_true _))
  · simp only [hc, if_false]
    rw [decompressSlow_inPlace E _ dst src _ hsrc, hU, hE]
    by_cases hnil : dst.isNil = true
    · obtain ⟨h0, h1⟩ := nil_no_room dst hwf hnil
      constructor
      · intro h; rw [hnil] at h; exact absurd h.2.2.1 (by decide)
      · intro h; omega
    · have hnil2 : dst.isNil = false := by
        cases h : dst.isNil
        · rfl
        · exact absurd h hnil
      have key := decomp_window_iff dst.len dst.cap (E.ZSTD_getFrameContentSize src.bytes)
        hw1 hcap hp
      constructor
      · intro h
        exact Or.inr (key.1 ⟨h.1, h.2.1, h.2.2.2⟩)
      · intro h
        have h2 := key.2 (by omega)
        exact ⟨h2.1, h2.2.1, hnil2, h2.2.2⟩

theorem Decoder.Decompress_eq (E : Env) (dst src : Slice) :
    Decoder.Decompress E dst src = decompress E dst src := rfl

theorem inPlace_compressDict (E : Env) (dst src : Slice) (cd : CDict)
    (hwf : dst.WF) (hsrc : src.len ≠ 0) :
    ((compressDict E dst src cd).callsInPlace (dst.cap - dst.len) = true ↔
      dst.cap - dst.len > 0) := by
  have hw1 := hwf.1
  unfold compressDict
  simp only [hsrc, if_false]
  by_cases hc : (dst.cap : Int) > dst.len
  · have hlt : dst.len < dst.cap := by omega
    have hgt : dst.cap - dst.len > 0 := by omega
    simp only [hc, if_true]
    refine ⟨fun _ => hgt, fun _ => ?_⟩
    exact (inPlace_bind_nil (spare_region hlt) _).trans
      ((inPlace_bind_native ⟨_, compressInternalDict_spare E cd hlt hsrc⟩ _).trans
        (beq_self_eq_true _))
  · simp only [hc, if_false]
    rw [compressDictSlow_inPlace E _ dst src cd _ hsrc]
    constructor
    · intro h; omega
    · intro h; omega

theorem inPlace_decompressDict (E : Env) (dst src : Slice) (dd : DDict)
    (hwf : dst.WF) (hsrc : src.len ≠ 0) :
    ((decompressDict E dst src dd).callsInPlace (dst.cap - dst.len) = true ↔
      dst.cap - dst.len > 0) := by
  have hw1 := hwf.1
  unfold decompressDict
  simp only [hsrc, if_false]
  by_cases hc : (dst.cap : Int) > dst.len
  · have hlt : dst.len < dst.cap := by omega
    have hgt : dst.cap - dst.len > 0 := by omega
    simp only [hc, if_true]
    refine ⟨fun _ => hgt, fun _ => ?_⟩
    exact (inPlace_bind_nil (spare_region hlt) _).trans
      ((inPlace_bind_native ⟨_, decompressInternalDict_spare E dd hlt hsrc⟩ _).trans
        (beq_self_eq_true _))
  · simp only [hc, if_false]
    rw [decompressDictSlow_inPlace E _ dst src dd _ hsrc]
    constructor
    · intro h; omega
    · intro h; omega

/-- C8 as stated fails in both directions.  With `len(dst) = 0`, `cap(dst) =
1024` and a 1024-byte `src`, `cap(dst) - len(dst) >= 1024` holds, yet
`compress` does not call into the spare region: it first allocates 68 bytes
and reallocates `dst` to length 1092.  With `len(dst) = 0`, `cap(dst) = 65`
and a one-byte `src`, `dst` has fewer than 1024 spare bytes, yet `compress`
allocates nothing: the slow path finds room for the bound of 65 bytes and its
only native call is on the whole spare region. -/
theorem C8_counterexample :
    (spare1024.cap - spare1024.len ≥ 1024 ∧
      (compress refEnv spare1024 src1024 3).callsInPlace (spare1024.cap - spare1024.len)
        = false ∧
      (compress refEnv spare1024 src1024 3).events.take 2 = [.alloc 68, .grow 1092]) ∧
    (spare65.cap - spare65.len < 1024 ∧
      (compress refEnv spare65 (Slice.ofBytes [40]) 3).callsInPlace (spare65.cap - spare65.len)
        = true ∧
      (compress refEnv spare65 (Slice.ofBytes [40]) 3).events =
        [.native .slow 65 65 ⟨2, [40, 40]⟩]) := by
  with_unfolding_all decide

/-- C8 (as amended): for every well-formed `dst` of addressable capacity and
non-empty `src`, the first native call of a non-dictionary operation
(`compress`, `decompress`, `Encoder.Compress`, `Decoder.Decompress`) goes
directly into the whole spare region `dst[len(dst):cap(dst)]`, with nothing
allocated before it, exactly when `cap(dst) - len(dst) > 1024` (the fast path)
or `dst` already has room for what the slow path asks for, so that the slow
path appends nothing and makes the same call: `2 * len(dst) +
CompressBound(len(src)) + 1 <= cap(dst)` for compression, `len(dst) + size + 1
<= cap(dst)` for decompression of a frame that declares the content size
`size`.  The dictionary operations do so exactly when `cap(dst) - len(dst) >
0`. -/
theorem C8_fast_path_threshold (E : Env) (hk : E.HeaderConsts) (e : Encoder)
    (dst src : Slice) (level : Int) (cd : CDict) (dd : DDict)
    (hwf : dst.WF) (hcap : dst.cap ≤ sizeLimit) (hsrc : src.len ≠ 0)
    (hlim : src.len ≤ sizeLimit)
    (hp : E.ZSTD_getFrameContentSize src.bytes < 18446744073709551616) :
    ((compress E dst src level).callsInPlace (dst.cap - dst.len) = true ↔
      dst.cap - dst.len > 1024 ∨
        2 * (dst.len : Int) + (CompressBound src.len + 1) ≤ dst.cap) ∧
    ((decompress E dst src).callsInPlace (dst.cap - dst.len) = true ↔
      dst.cap - dst.len > 1024 ∨
        dst.len + E.ZSTD_getFrameContentSize src.bytes + 1 ≤ dst.cap) ∧
    ((Encoder.Compress E e dst src).callsInPlace (dst.cap - dst.len) = true ↔
      dst.cap - dst.len > 1024 ∨
        2 * (dst.len : Int) + (CompressBound src.len + 1) ≤ dst.cap) ∧
    ((Decoder.Decompress E dst src).callsInPlace (dst.cap - dst.len) = true ↔
      dst.cap - dst.len > 1024 ∨
        dst.len + E.ZSTD_getFrameContentSize src.bytes + 1 ≤ dst.cap) ∧
    ((compressDict E dst src cd).callsInPlace (dst.cap - dst.len) = true ↔
      dst.cap - dst.len > 0) ∧
    ((decompressDict E dst src dd).callsInPlace (dst.cap - dst.len) = true ↔
      dst.cap - dst.len > 0) :=
  ⟨inPlace_compress E dst src level hwf hcap hsrc hlim,
    inPlace_decompress E hk dst src hwf hcap hsrc hp,
    inPlace_Encoder E e dst src hwf hcap hsrc hlim,
    (Decoder.Decompress_eq E dst src).symm ▸ inPlace_decompress E hk dst src hwf hcap hsrc hp,
    inPlace_compressDict E dst src cd hwf hsrc,
    inPlace_decompressDict E dst src dd hwf hsrc⟩

/-- C8 at the reference codec, a `dst` with 65 spare bytes and a one-byte
`src`: `compress` calls into the spare region without allocating, not because
of the threshold but because `2 * 0 + 64 + 1 <= 65`; `compressDict` does so
because `dst` has spare capacity. -/
theorem C8_fast_path_threshold_witness :
    spare65.WF ∧ spare65.cap ≤ sizeLimit ∧ (Slice.ofBytes [40]).len ≠ 0 ∧
    (Slice.ofBytes [40]).len ≤ sizeLimit ∧
    refEnv.ZSTD_getFrameContentSize (Slice.ofBytes [40]).bytes < 18446744073709551616 ∧
    ((compress refEnv spare65 (Slice.ofBytes [40]) 3).callsInPlace
        (spare65.cap - spare65.len) = true ↔
      spare65.cap - spare65.len > 1024 ∨
        2 * (spare65.len : Int) + (CompressBound (Slice.ofBytes [40]).len + 1) ≤ spare65.cap) ∧
    ((compressDict refEnv spare65 (Slice.ofBytes [40]) ⟨0⟩).callsInPlace
        (spare65.cap - spare65.len) = true ↔ spare65.cap - spare65.len > 0) :=
  ⟨by decide, by decide, by decide, by decide, by decide,
    (C8_fast_path_threshold refEnv (by decide) ⟨3⟩ spare65 (Slice.ofBytes [40]) 3 ⟨0⟩ ⟨0⟩
      (by decide) (by decide) (by decide) (by decide) (by decide)).1,
    (C8_fast_path_threshold refEnv (by decide) ⟨3⟩ spare65 (Slice.ofBytes [40]) 3 ⟨0⟩ ⟨0⟩
      (by decide) (by decide) (by decide) (by decide) (by decide)).2.2.2.2.1⟩

end Gozstd
